import Mathlib

/-!
# alexer.h: a shallow embedding of the tokenizer and its validators

Bytes (`char`) are natural numbers below 256. A NUL-terminated C string (a
table entry, a kind name, a severity level) is the list of its bytes before
the terminator, so `strlen` is the length of the list and reading index
`strlen` gives the terminating 0. The pair `content`/`size` of the C struct
is the list of the `size` bytes of the buffer, and a pointer into the buffer
(`begin`, `end`) is its offset from `content`. The pairs `puncts`/
`puncts_count` and `keywords`/`keywords_count` are lists of C strings.
Offsets and counts (`size_t`) are natural numbers: the buffer fits the
address space, so no sum of offsets formed here wraps around. A loop of the
source is a recursive function, over the list it walks or with a bound on the
number of iterations within which the loop provably ends.
-/

/-! ## <ctype.h>, <string.h> in the "C" locale -/

/-- The C library `isspace`: space, and the bytes from tab to carriage return. -/
def isspace (c : Nat) : Bool := c == 32 || (9 ≤ c && c ≤ 13)

/-- The C library `isdigit`. -/
def isdigit (c : Nat) : Bool := 48 ≤ c && c ≤ 57

/-- The C library `isalpha`. -/
def isalpha (c : Nat) : Bool := (65 ≤ c && c ≤ 90) || (97 ≤ c && c ≤ 122)

/-- The C library `isalnum`. -/
def isalnum (c : Nat) : Bool := isalpha c || isdigit c

/-- The C library `strlen` of a C string given by its bytes before the NUL. -/
def strlen (s : List Nat) : Nat := s.length

/-- The C library `memcmp` on the first `n` bytes of two byte sequences: zero
when they agree, else the difference of the first two bytes that differ. -/
def memcmp : List Nat → List Nat → Nat → Int
  | _, _, 0 => 0
  | a, b, n + 1 =>
    if a.headD 0 = b.headD 0 then memcmp a.tail b.tail n
    else (a.headD 0 : Int) - (b.headD 0 : Int)

/-- The bytes of an ASCII string literal of the source. -/
def cstr (s : String) : List Nat := s.toList.map Char.toNat

/-! ## Arithmetic of `long` (64 bits, two's complement) -/

/-- The value a 64-bit signed register holds for the mathematical integer `x`:
the representative of `x` modulo `2 ^ 64` between `-2 ^ 63` and `2 ^ 63 - 1`. -/
def wrap_long (x : Int) : Int :=
  (x + 9223372036854775808) % 18446744073709551616 - 9223372036854775808

/-- The value an `int` (32 bits, two's complement) holds for the integer `x`
read in its place from the variable arguments of a call: the representative of
`x` modulo `2 ^ 32` between `-2 ^ 31` and `2 ^ 31 - 1`. -/
def wrap_int (x : Int) : Int :=
  (x + 2147483648) % 4294967296 - 2147483648

/-! ## Data model -/

/-- The struct `Alexer_Loc`. -/
structure Alexer_Loc where
  file_path : List Nat
  row : Nat
  col : Nat
deriving DecidableEq, Repr

/-- The enum `Alexer_Kind`, without its counter `ALEXER_COUNT_KINDS`. -/
inductive Alexer_Kind where
  | ALEXER_INVALID
  | ALEXER_END
  | ALEXER_INT
  | ALEXER_SYMBOL
  | ALEXER_KEYWORD
  | ALEXER_PUNCT
  | ALEXER_STRING
deriving DecidableEq, Repr

open Alexer_Kind

/-- The table `alexer_kind_names`, read through `alexer_kind_name`; its
assertion `0 <= kind < ALEXER_COUNT_KINDS` holds for every value of the type. -/
def alexer_kind_name : Alexer_Kind → List Nat
  | ALEXER_INVALID => cstr "INVALID"
  | ALEXER_END => cstr "END"
  | ALEXER_INT => cstr "INT"
  | ALEXER_SYMBOL => cstr "SYMBOL"
  | ALEXER_KEYWORD => cstr "KEYWORD"
  | ALEXER_PUNCT => cstr "PUNCT"
  | ALEXER_STRING => cstr "STRING"

/-- The struct `Alexer_Token`; `begin` and `end_` are offsets into the buffer. -/
structure Alexer_Token where
  kind : Alexer_Kind
  loc : Alexer_Loc
  begin : Nat
  end_ : Nat
  int_value : Int
  punct_index : Nat
  keyword_index : Nat
deriving DecidableEq, Repr

/-- The struct `Alexer`. The callback `diagf` is not a field: the calls made
to it are returned by the validators. -/
structure Alexer where
  file_path : List Nat
  content : List Nat
  cur : Nat
  bol : Nat
  row : Nat
  puncts : List (List Nat)
  keywords : List (List Nat)
deriving DecidableEq, Repr

/-- The field `size`: the number of bytes of the buffer. -/
def Alexer.size (l : Alexer) : Nat := l.content.length

/-- The field `puncts_count`. -/
def Alexer.puncts_count (l : Alexer) : Nat := l.puncts.length

/-- The field `keywords_count`. -/
def Alexer.keywords_count (l : Alexer) : Nat := l.keywords.length

/-- The byte `l->content[i]`. -/
def Alexer.at (l : Alexer) (i : Nat) : Nat := l.content.getD i 0

/-! ## The tokenizer engine -/

/-- The function `alexer_create`: all fields it does not name are zero. -/
def alexer_create (file_path : List Nat) (content : List Nat) : Alexer :=
  { file_path := file_path, content := content, cur := 0, bol := 0, row := 0,
    puncts := [], keywords := [] }

/-- The function `alexer_chop_char`. -/
def alexer_chop_char (l : Alexer) : Bool × Alexer :=
  if l.cur < l.size then
    let x := l.at l.cur
    let l1 := { l with cur := l.cur + 1 }
    if x = 10 then (true, { l1 with bol := l1.cur, row := l1.row + 1 })
    else (true, l1)
  else (false, l)

/-- The function `alexer_chop_chars`: `while (n --> 0 && alexer_chop_char(l));`. -/
def alexer_chop_chars (l : Alexer) : Nat → Alexer
  | 0 => l
  | n + 1 =>
    let r := alexer_chop_char l
    if r.1 then alexer_chop_chars r.2 n else r.2

/-- The loop of `alexer_trim_left_ws`, run for at most `fuel` iterations. -/
def alexer_trim_left_ws_loop : Nat → Alexer → Alexer
  | 0, l => l
  | fuel + 1, l =>
    if l.cur < l.size && isspace (l.at l.cur) then
      alexer_trim_left_ws_loop fuel (alexer_chop_char l).2
    else l

/-- The function `alexer_trim_left_ws`; `size - cur` iterations exhaust the
buffer, so the loop has stopped by then (`alexer_trim_left_ws_stops`). -/
def alexer_trim_left_ws (l : Alexer) : Alexer :=
  alexer_trim_left_ws_loop (l.size - l.cur) l

/-- The function `alexer_loc`. -/
def alexer_loc (l : Alexer) : Alexer_Loc :=
  { file_path := l.file_path, row := l.row + 1, col := l.cur - l.bol + 1 }

/-- The function `alexer_is_symbol`. -/
def alexer_is_symbol (x : Nat) : Bool := isalnum x || x == 95

/-- The function `alexer_is_symbol_start`. -/
def alexer_is_symbol_start (x : Nat) : Bool := isalpha x || x == 95

/-- The loop of `alexer_starts_with` from index `i`, for at most `fuel`
iterations. -/
def alexer_starts_with_loop (l : Alexer) (pfx : List Nat) (len : Nat) : Nat → Nat → Bool
  | 0, _ => true
  | fuel + 1, i =>
    if l.cur + i < l.size && i < len then
      if l.at (l.cur + i) != pfx.getD i 0 then false
      else alexer_starts_with_loop l pfx len fuel (i + 1)
    else true

/-- The function `alexer_starts_with`; the index reaches `len` after `len`
iterations, where the loop ends and the function returns true. -/
def alexer_starts_with (l : Alexer) (pfx : List Nat) (len : Nat) : Bool :=
  alexer_starts_with_loop l pfx len len 0

/-- The punctuation loop of `alexer_get_token` over the entries from index `i`
on: the index of the first entry that `alexer_starts_with` accepts. -/
def alexer_get_token_puncts (l : Alexer) : List (List Nat) → Nat → Option Nat
  | [], _ => none
  | p :: ps, i =>
    if alexer_starts_with l p (strlen p) then some i
    else alexer_get_token_puncts l ps (i + 1)

/-- The digit loop of `alexer_get_token`, for at most `fuel` iterations; each
of the three `long` operations of `int_value*10 + byte - '0'` wraps. -/
def alexer_get_token_int : Nat → Alexer → Alexer_Token → Alexer_Token × Alexer
  | 0, l, t => (t, l)
  | fuel + 1, l, t =>
    if l.cur < l.size && isdigit (l.at l.cur) then
      let v := wrap_long (wrap_long (wrap_long (t.int_value * 10) + (l.at l.cur : Int)) - 48)
      let t1 := { t with int_value := v }
      let t2 := { t1 with end_ := t1.end_ + 1 }
      alexer_get_token_int fuel (alexer_chop_char l).2 t2
    else (t, l)

/-- The symbol loop of `alexer_get_token`, for at most `fuel` iterations. -/
def alexer_get_token_symbol : Nat → Alexer → Alexer_Token → Alexer_Token × Alexer
  | 0, l, t => (t, l)
  | fuel + 1, l, t =>
    if l.cur < l.size && alexer_is_symbol (l.at l.cur) then
      alexer_get_token_symbol fuel (alexer_chop_char l).2 { t with end_ := t.end_ + 1 }
    else (t, l)

/-- The keyword loop of `alexer_get_token` over the entries from index `i` on. -/
def alexer_get_token_keywords (l : Alexer) (t : Alexer_Token) :
    List (List Nat) → Nat → Alexer_Token
  | [], _ => t
  | k :: ks, i =>
    let n := strlen k
    if n = t.end_ - t.begin ∧ memcmp k (l.content.drop t.begin) n = 0 then
      { t with kind := ALEXER_KEYWORD, keyword_index := i }
    else alexer_get_token_keywords l t ks (i + 1)

/-- The function `alexer_get_token`: the returned boolean, the token written
to `t`, and the engine afterwards. -/
def alexer_get_token (l0 : Alexer) : Bool × Alexer_Token × Alexer :=
  let l := alexer_trim_left_ws l0
  let t : Alexer_Token :=
    { kind := ALEXER_INVALID, loc := alexer_loc l, begin := l.cur, end_ := l.cur,
      int_value := 0, punct_index := 0, keyword_index := 0 }
  if l.cur ≥ l.size then (false, { t with kind := ALEXER_END }, l)
  else
    match alexer_get_token_puncts l l.puncts 0 with
    | some i =>
      let n := strlen (l.puncts.getD i [])
      (true, { t with kind := ALEXER_PUNCT, punct_index := i, end_ := t.end_ + n },
        alexer_chop_chars l n)
    | none =>
      if isdigit (l.at l.cur) then
        let r := alexer_get_token_int (l.size - l.cur) l { t with kind := ALEXER_INT }
        (true, r.1, r.2)
      else if alexer_is_symbol_start (l.at l.cur) then
        let r := alexer_get_token_symbol (l.size - l.cur) l { t with kind := ALEXER_SYMBOL }
        (true, alexer_get_token_keywords r.2 r.1 r.2.keywords 0, r.2)
      else
        let l1 := (alexer_chop_char l).2
        (false, { t with end_ := t.end_ + 1 }, l1)

/-- An engine over `content` with the two tables installed, as a caller sets
the fields `puncts` and `keywords` after `alexer_create`. -/
def alexer_with (content : List Nat) (puncts keywords : List (List Nat)) : Alexer :=
  { alexer_create [] content with puncts := puncts, keywords := keywords }

/-! ## Notions used to state the properties -/

/-- Two engine states over the same buffer, tables and file name. -/
def Alexer.same_input (l l1 : Alexer) : Prop :=
  l1.content = l.content ∧ l1.puncts = l.puncts ∧ l1.keywords = l.keywords ∧
    l1.file_path = l.file_path

instance Alexer.same_input_decidable (l l1 : Alexer) : Decidable (l.same_input l1) :=
  inferInstanceAs (Decidable (_ ∧ _))

/-- Base-10 accumulation over the integers, starting from `v`, as the digit
loop writes it: `value = value*10 + byte - '0'`. -/
def decimal_acc (v : Int) (ds : List Nat) : Int :=
  ds.foldl (fun (v : Int) (c : Nat) => v * 10 + (c : Int) - 48) v

/-- The base-10 value of a string of ASCII digits read left to right. -/
def decimal_value (ds : List Nat) : Nat :=
  ds.foldl (fun v c => v * 10 + (c - 48)) 0

/-- The bytes `content[b..e)` of the buffer. -/
def Alexer.bytes (l : Alexer) (b e : Nat) : List Nat := (l.content.drop b).take (e - b)

/-- The test of the keyword loop: the entry has the length of the token and
`memcmp` finds the same bytes. -/
def alexer_keyword_matches (l : Alexer) (t : Alexer_Token) (k : List Nat) : Prop :=
  strlen k = t.end_ - t.begin ∧ memcmp k (l.content.drop t.begin) (strlen k) = 0

instance alexer_keyword_matches_decidable (l : Alexer) (t : Alexer_Token) (k : List Nat) :
    Decidable (alexer_keyword_matches l t k) :=
  inferInstanceAs (Decidable (_ ∧ _))

/-- The token as `alexer_get_token` sets it up before classifying: zeroed by
`memset`, then `loc`, `begin` and `end` taken at the cursor. -/
def alexer_token_init (l : Alexer) : Alexer_Token :=
  { kind := ALEXER_INVALID, loc := alexer_loc l, begin := l.cur, end_ := l.cur,
    int_value := 0, punct_index := 0, keyword_index := 0 }

/-- The engine after `k` successive calls of `alexer_get_token`. -/
def alexer_after_calls : Nat → Alexer → Alexer
  | 0, l => l
  | k + 1, l => alexer_after_calls k (alexer_get_token l).2.2

/-! ## Diagnostics and the kind validators -/

/-- One call of the sink `l->diagf(loc, level, fmt, ...)`: the location, the
level, and the text that the format and its arguments denote, as the default
sink prints it. -/
structure Alexer_Diag where
  loc : Alexer_Loc
  level : List Nat
  message : List Nat
deriving DecidableEq, Repr

/-- The conversion `%s` of the printf family applied to the memory at a
pointer: the bytes before the first NUL. -/
def printf_s (mem : List Nat) : List Nat := mem.takeWhile (fun c => c != 0)

/-- The conversion `%.*s` of the printf family: at most `prec` bytes, and none
from the first NUL on; a negative precision counts as no precision. -/
def printf_prec_s (prec : Int) (mem : List Nat) : List Nat :=
  if prec < 0 then printf_s mem else printf_s (mem.take prec.toNat)

/-- The first loop of `alexer_expect_one_of_kinds`: is `t.kind` among the
expected kinds. -/
def alexer_expect_one_of_kinds_find (t : Alexer_Token) : List Alexer_Kind → Bool
  | [] => false
  | k :: ks => if t.kind = k then true else alexer_expect_one_of_kinds_find t ks

/-- The second loop of `alexer_expect_one_of_kinds` from index `i` on: the
string builder after the names of the kinds are appended, each but the first
after `", "`. -/
def alexer_expect_one_of_kinds_sb : List Alexer_Kind → Nat → List Nat → List Nat
  | [], _, sb => sb
  | k :: ks, i, sb =>
    let sb1 := if i > 0 then sb ++ cstr ", " else sb
    alexer_expect_one_of_kinds_sb ks (i + 1) (sb1 ++ alexer_kind_name k)

/-- The function `alexer_expect_one_of_kinds`: the boolean returned and the
calls made to the sink. The string builder is the list of the bytes appended
to it. The lexeme is read from the buffer of `l`, where the token points; the
precision of `%.*s` is the `ptrdiff_t` difference `t.end - t.begin`, which the
printf family reads as an `int`. Memory behind the buffer is not modelled, a
read stops there. -/
def alexer_expect_one_of_kinds (l : Alexer) (t : Alexer_Token) (kinds : List Alexer_Kind) :
    Bool × List Alexer_Diag :=
  if alexer_expect_one_of_kinds_find t kinds then (true, [])
  else
    let sb := alexer_expect_one_of_kinds_sb kinds 0 []
    let sb := sb ++ [0]
    if t.kind = ALEXER_END then
      (false, [{ loc := t.loc, level := cstr "ERROR",
                 message := cstr "Expected " ++ printf_s sb ++ cstr " but got " ++
                   alexer_kind_name t.kind }])
    else
      (false, [{ loc := t.loc, level := cstr "ERROR",
                 message := cstr "Expected " ++ printf_s sb ++ cstr " but got " ++
                   alexer_kind_name t.kind ++ cstr " `" ++
                   printf_prec_s (wrap_int ((t.end_ : Int) - (t.begin : Int)))
                     (l.content.drop t.begin) ++
                   cstr "`" }])

/-- The function `alexer_expect_kind`. -/
def alexer_expect_kind (l : Alexer) (t : Alexer_Token) (kind : Alexer_Kind) :
    Bool × List Alexer_Diag :=
  alexer_expect_one_of_kinds l t [kind]

/-- The message of a failed kind expectation in the words of the
specification, for a given lexeme text: `Expected <names> but got <KIND>`,
followed by the lexeme between backticks unless the kind is `END`. -/
def alexer_kinds_message (lexeme : List Nat) (t : Alexer_Token) (kinds : List Alexer_Kind) :
    List Nat :=
  cstr "Expected " ++ (cstr ", ").intercalate (kinds.map alexer_kind_name) ++
    cstr " but got " ++ alexer_kind_name t.kind ++
    (if t.kind = ALEXER_END then [] else cstr " `" ++ lexeme ++ cstr "`")

/-! ## The punctuation and keyword validators

A validator returns `none` in place of the boolean when an `assert` of the
source fails and the program is aborted, together with the calls made to the
sink until then. -/

/-- The first loop of `alexer_expect_one_of_puncts`: is `t.punct_index` among
the expected indices. -/
def alexer_expect_one_of_puncts_find (t : Alexer_Token) : List Nat → Bool
  | [] => false
  | p :: ps => if t.punct_index = p then true else alexer_expect_one_of_puncts_find t ps

/-- The second loop of `alexer_expect_one_of_puncts` from index `i` on: the
string builder after the table texts of the indices are appended between
backticks, each but the first after `", "`; `none` when the assertion
`punct_indices[i] < l->puncts_count` fails. -/
def alexer_expect_one_of_puncts_sb (l : Alexer) : List Nat → Nat → List Nat → Option (List Nat)
  | [], _, sb => some sb
  | p :: ps, i, sb =>
    let sb1 := if i > 0 then sb ++ cstr ", " else sb
    if p < l.puncts_count then
      alexer_expect_one_of_puncts_sb l ps (i + 1)
        (sb1 ++ cstr "`" ++ l.puncts.getD p [] ++ cstr "`")
    else none

/-- The function `alexer_expect_one_of_puncts`; a table entry passed for `%s`
is the memory of its bytes and the terminating NUL. -/
def alexer_expect_one_of_puncts (l : Alexer) (t : Alexer_Token) (punct_indices : List Nat) :
    Option Bool × List Alexer_Diag :=
  if punct_indices.length > 0 then
    let r := alexer_expect_kind l t ALEXER_PUNCT
    if r.1 = false then (some false, r.2)
    else if alexer_expect_one_of_puncts_find t punct_indices then (some true, r.2)
    else
      match alexer_expect_one_of_puncts_sb l punct_indices 0 [] with
      | none => (none, r.2)
      | some sb =>
        let sb := sb ++ [0]
        if t.punct_index < l.puncts_count then
          (some false, r.2 ++ [{
            loc := t.loc, level := cstr "ERROR",
            message := cstr "Expected " ++ printf_s sb ++ cstr " but got `" ++
              printf_s (l.puncts.getD t.punct_index [] ++ [0]) ++ cstr "`" }])
        else (none, r.2)
  else (none, [])

/-- The function `alexer_expect_punct`. -/
def alexer_expect_punct (l : Alexer) (t : Alexer_Token) (punct_index : Nat) :
    Option Bool × List Alexer_Diag :=
  alexer_expect_one_of_puncts l t [punct_index]

/-- The first loop of `alexer_expect_one_of_keywords`: is `t.keyword_index`
among the expected indices. -/
def alexer_expect_one_of_keywords_find (t : Alexer_Token) : List Nat → Bool
  | [] => false
  | k :: ks => if t.keyword_index = k then true else alexer_expect_one_of_keywords_find t ks

/-- The second loop of `alexer_expect_one_of_keywords` from index `i` on;
`none` when the assertion `keyword_indices[i] < l->keywords_count` fails. -/
def alexer_expect_one_of_keywords_sb (l : Alexer) :
    List Nat → Nat → List Nat → Option (List Nat)
  | [], _, sb => some sb
  | k :: ks, i, sb =>
    let sb1 := if i > 0 then sb ++ cstr ", " else sb
    if k < l.keywords_count then
      alexer_expect_one_of_keywords_sb l ks (i + 1)
        (sb1 ++ cstr "`" ++ l.keywords.getD k [] ++ cstr "`")
    else none

/-- The function `alexer_expect_one_of_keywords`. -/
def alexer_expect_one_of_keywords (l : Alexer) (t : Alexer_Token) (keyword_indices : List Nat) :
    Option Bool × List Alexer_Diag :=
  if keyword_indices.length > 0 then
    let r := alexer_expect_kind l t ALEXER_KEYWORD
    if r.1 = false then (some false, r.2)
    else if alexer_expect_one_of_keywords_find t keyword_indices then (some true, r.2)
    else
      match alexer_expect_one_of_keywords_sb l keyword_indices 0 [] with
      | none => (none, r.2)
      | some sb =>
        let sb := sb ++ [0]
        if t.keyword_index < l.keywords_count then
          if keyword_indices.length = 1 then
            (some false, r.2 ++ [{
              loc := t.loc, level := cstr "ERROR",
              message := cstr "Expected keyword " ++ printf_s sb ++
                cstr " but got keyword `" ++
                printf_s (l.keywords.getD t.keyword_index [] ++ [0]) ++ cstr "`" }])
          else
            (some false, r.2 ++ [{
              loc := t.loc, level := cstr "ERROR",
              message := cstr "Expected keywords " ++ printf_s sb ++
                cstr " but got keyword `" ++
                printf_s (l.keywords.getD t.keyword_index [] ++ [0]) ++ cstr "`" }])
        else (none, r.2)
  else (none, [])

/-- The function `alexer_expect_keyword`. -/
def alexer_expect_keyword (l : Alexer) (t : Alexer_Token) (keyword_index : Nat) :
    Option Bool × List Alexer_Diag :=
  alexer_expect_one_of_keywords l t [keyword_index]

/-- The list of a failed index expectation in the words of the specification:
the table texts of the indices, each between backticks, joined by `", "`. -/
def alexer_quoted_list (table : List (List Nat)) (indices : List Nat) : List Nat :=
  (cstr ", ").intercalate (indices.map (fun i => cstr "`" ++ table.getD i [] ++ cstr "`"))

/-- A table of C strings: no entry holds a NUL byte. -/
def alexer_cstrings (table : List (List Nat)) : Prop := ∀ s ∈ table, ∀ c ∈ s, c ≠ 0

instance alexer_cstrings_decidable (table : List (List Nat)) : Decidable (alexer_cstrings table) :=
  inferInstanceAs (Decidable (∀ s ∈ table, ∀ c ∈ s, c ≠ 0))

/-- The outcome the specification gives a validator whose preconditions hold:
it returns true without a call of the sink, or it returns false after exactly
one call, at level `ERROR` and at the location of the token. -/
def alexer_reports_once (t : Alexer_Token) (r : Option Bool × List Alexer_Diag) : Prop :=
  (r.1 = some true ∧ r.2 = []) ∨
    (r.1 = some false ∧ ∃ d, r.2 = [d] ∧ d.level = cstr "ERROR" ∧ d.loc = t.loc)

/-! ## Notions of the line bookkeeping and of a run -/

/-- The line bookkeeping of the offset `p` of a buffer, in the words of the
specification: `row` is the number of newline bytes in `content[0..p)`, and
`bol` is the offset just past the last of them, 0 when there is none. -/
def alexer_line_col (content : List Nat) (p row bol : Nat) : Prop :=
  row = (content.take p).count 10 ∧ bol ≤ p ∧
    (0 < bol → content.getD (bol - 1) 0 = 10) ∧
    ∀ j, bol ≤ j → j < p → content.getD j 0 ≠ 10

/-- The engine states reachable from `alexer_create`, once the caller has set
the two tables, by calls of the four scanning operations. -/
inductive alexer_reachable : Alexer → Prop
  | create (file_path content : List Nat) (puncts keywords : List (List Nat)) :
    alexer_reachable
      { alexer_create file_path content with puncts := puncts, keywords := keywords }
  | chop_char (l : Alexer) : alexer_reachable l → alexer_reachable (alexer_chop_char l).2
  | chop_chars (l : Alexer) (n : Nat) :
    alexer_reachable l → alexer_reachable (alexer_chop_chars l n)
  | trim_left_ws (l : Alexer) :
    alexer_reachable l → alexer_reachable (alexer_trim_left_ws l)
  | get_token (l : Alexer) : alexer_reachable l → alexer_reachable (alexer_get_token l).2.2

/-- The token written by call number `k + 1` of `alexer_get_token` on `l`. -/
def alexer_token_of_call (k : Nat) (l : Alexer) : Alexer_Token :=
  (alexer_get_token (alexer_after_calls k l)).2.1

/-! ## Frame and cursor lemmas for the scanning primitives -/

theorem Alexer.same_input_refl (l : Alexer) : l.same_input l := ⟨rfl, rfl, rfl, rfl⟩

theorem Alexer.same_input_trans {a b c : Alexer} (h1 : a.same_input b) (h2 : b.same_input c) :
    a.same_input c :=
  ⟨h2.1.trans h1.1, h2.2.1.trans h1.2.1, h2.2.2.1.trans h1.2.2.1, h2.2.2.2.trans h1.2.2.2⟩

theorem Alexer.same_input_size {a b : Alexer} (h : a.same_input b) : b.size = a.size := by
  unfold Alexer.size; rw [h.1]

theorem Alexer.same_input_at {a b : Alexer} (h : a.same_input b) (i : Nat) : b.at i = a.at i := by
  unfold Alexer.at; rw [h.1]

theorem alexer_chop_char_lt (l : Alexer) (h : l.cur < l.size) :
    (alexer_chop_char l).1 = true ∧ (alexer_chop_char l).2.cur = l.cur + 1 ∧
      l.same_input (alexer_chop_char l).2 := by
  unfold alexer_chop_char
  simp only [h, if_true]
  by_cases hx : l.at l.cur = 10
  · simp [hx, Alexer.same_input]
  · simp [hx, Alexer.same_input]

theorem alexer_chop_char_ge (l : Alexer) (h : ¬ l.cur < l.size) :
    alexer_chop_char l = (false, l) := by
  unfold alexer_chop_char
  simp [h]

theorem alexer_chop_char_same_input (l : Alexer) : l.same_input (alexer_chop_char l).2 := by
  by_cases h : l.cur < l.size
  · exact (alexer_chop_char_lt l h).2.2
  · rw [alexer_chop_char_ge l h]; exact l.same_input_refl

theorem alexer_chop_chars_spec (n : Nat) : ∀ l : Alexer, l.cur ≤ l.size →
    (alexer_chop_chars l n).cur = min (l.cur + n) l.size ∧
      l.same_input (alexer_chop_chars l n) := by
  induction n with
  | zero =>
    intro l h
    simp [alexer_chop_chars, Nat.min_eq_left h, Alexer.same_input_refl]
  | succ n ih =>
    intro l h
    by_cases hlt : l.cur < l.size
    · obtain ⟨h1, h2, h3⟩ := alexer_chop_char_lt l hlt
      have hs := Alexer.same_input_size h3
      have hle : (alexer_chop_char l).2.cur ≤ (alexer_chop_char l).2.size := by omega
      obtain ⟨i1, i2⟩ := ih _ hle
      simp only [alexer_chop_chars, h1, if_true]
      refine ⟨?_, Alexer.same_input_trans h3 i2⟩
      rw [i1, h2, hs]; congr 1; omega
    · have he := alexer_chop_char_ge l hlt
      simp only [alexer_chop_chars, he]
      refine ⟨?_, l.same_input_refl⟩
      simp; omega

theorem alexer_trim_left_ws_loop_spec (fuel : Nat) : ∀ l : Alexer,
    l.same_input (alexer_trim_left_ws_loop fuel l) ∧
      l.cur ≤ (alexer_trim_left_ws_loop fuel l).cur ∧
      (l.cur ≤ l.size → (alexer_trim_left_ws_loop fuel l).cur ≤ l.size) ∧
      (∀ j, l.cur ≤ j → j < (alexer_trim_left_ws_loop fuel l).cur → isspace (l.at j) = true) ∧
      (l.size - l.cur ≤ fuel →
        ¬ ((alexer_trim_left_ws_loop fuel l).cur < l.size ∧
          isspace (l.at (alexer_trim_left_ws_loop fuel l).cur) = true)) := by
  induction fuel with
  | zero =>
    intro l
    simp only [alexer_trim_left_ws_loop]
    refine ⟨l.same_input_refl, le_refl _, fun h => h, ?_, ?_⟩
    · intro j h1 h2; omega
    · intro h hc; omega
  | succ fuel ih =>
    intro l
    by_cases hc : l.cur < l.size ∧ isspace (l.at l.cur) = true
    · obtain ⟨h1, h2, h3⟩ := alexer_chop_char_lt l hc.1
      have hs := Alexer.same_input_size h3
      obtain ⟨i1, i2, i3, i4, i5⟩ := ih (alexer_chop_char l).2
      have e : alexer_trim_left_ws_loop (fuel + 1) l =
          alexer_trim_left_ws_loop fuel (alexer_chop_char l).2 := by
        simp [alexer_trim_left_ws_loop, hc.1, hc.2]
      rw [e]
      refine ⟨Alexer.same_input_trans h3 i1, by omega, fun _ => ?_, ?_, ?_⟩
      · have := i3 (by omega); omega
      · intro j hj1 hj2
        by_cases hj : j = l.cur
        · rw [hj]; exact hc.2
        · have := i4 j (by omega) hj2
          rwa [Alexer.same_input_at h3] at this
      · intro hf
        have := i5 (by omega)
        rwa [hs, Alexer.same_input_at h3] at this
    · have e : alexer_trim_left_ws_loop (fuel + 1) l = l := by
        simp only [alexer_trim_left_ws_loop]
        rw [if_neg]
        simpa using hc
      rw [e]
      refine ⟨l.same_input_refl, le_refl _, fun h => h, ?_, fun _ => hc⟩
      intro j h1 h2; omega

/-- The loop of `alexer_trim_left_ws` has stopped when the function returns:
the buffer and tables are untouched, the cursor has moved forward over
whitespace only, and it is at the end or on a byte that is not whitespace. -/
theorem alexer_trim_left_ws_stops (l : Alexer) :
    l.same_input (alexer_trim_left_ws l) ∧
      l.cur ≤ (alexer_trim_left_ws l).cur ∧
      (l.cur ≤ l.size → (alexer_trim_left_ws l).cur ≤ l.size) ∧
      (∀ j, l.cur ≤ j → j < (alexer_trim_left_ws l).cur → isspace (l.at j) = true) ∧
      ¬ ((alexer_trim_left_ws l).cur < l.size ∧
          isspace (l.at (alexer_trim_left_ws l).cur) = true) := by
  obtain ⟨h1, h2, h3, h4, h5⟩ := alexer_trim_left_ws_loop_spec (l.size - l.cur) l
  exact ⟨h1, h2, h3, h4, h5 (le_refl _)⟩

/-! ## The prefix test and the punctuation scan -/

theorem alexer_starts_with_loop_iff (l : Alexer) (pfx : List Nat) (len fuel : Nat) :
    ∀ i, alexer_starts_with_loop l pfx len fuel i = true ↔
      ∀ j, i ≤ j → j < i + fuel → j < len → l.cur + j < l.size →
        l.at (l.cur + j) = pfx.getD j 0 := by
  induction fuel with
  | zero =>
    intro i
    simp only [alexer_starts_with_loop, true_iff]
    intro j h1 h2; omega
  | succ fuel ih =>
    intro i
    by_cases hc : l.cur + i < l.size ∧ i < len
    · by_cases hb : l.at (l.cur + i) = pfx.getD i 0
      · have e : alexer_starts_with_loop l pfx len (fuel + 1) i =
            alexer_starts_with_loop l pfx len fuel (i + 1) := by
          simp only [alexer_starts_with_loop]
          rw [if_pos (by simp [hc.1, hc.2]), if_neg (by simpa using hb)]
        rw [e, ih (i + 1)]
        constructor
        · intro h j h1 h2 h3 h4
          by_cases hj : j = i
          · rw [hj]; exact hb
          · exact h j (by omega) (by omega) h3 h4
        · intro h j h1 h2 h3 h4
          exact h j (by omega) (by omega) h3 h4
      · have e : alexer_starts_with_loop l pfx len (fuel + 1) i = false := by
          simp only [alexer_starts_with_loop]
          rw [if_pos (by simp [hc.1, hc.2]), if_pos (by simpa using hb)]
        rw [e]
        constructor
        · intro h; exact absurd h (by simp)
        · intro h; exact absurd (h i (le_refl _) (by omega) hc.2 hc.1) hb
    · have e : alexer_starts_with_loop l pfx len (fuel + 1) i = true := by
        simp only [alexer_starts_with_loop]
        rw [if_neg]
        simpa using hc
      rw [e]
      simp only [true_iff]
      intro j h1 h2 h3 h4
      exact absurd ⟨by omega, by omega⟩ hc

/-- What the loop of `alexer_starts_with` computes: every byte of the prefix
that still lies inside the buffer agrees with the buffer. A prefix that runs
past the end of the buffer is accepted on the bytes that are there. -/
theorem alexer_starts_with_iff (l : Alexer) (pfx : List Nat) (len : Nat) :
    alexer_starts_with l pfx len = true ↔
      ∀ j, j < len → l.cur + j < l.size → l.at (l.cur + j) = pfx.getD j 0 := by
  unfold alexer_starts_with
  rw [alexer_starts_with_loop_iff]
  constructor
  · intro h j h1 h2; exact h j (Nat.zero_le _) (by omega) h1 h2
  · intro h j _ _ h1 h2; exact h j h1 h2

theorem alexer_get_token_puncts_none (l : Alexer) (ps : List (List Nat)) :
    ∀ i, alexer_get_token_puncts l ps i = none ↔
      ∀ p ∈ ps, alexer_starts_with l p (strlen p) = false := by
  induction ps with
  | nil => intro i; simp [alexer_get_token_puncts]
  | cons p ps ih =>
    intro i
    by_cases hp : alexer_starts_with l p (strlen p) = true
    · simp [alexer_get_token_puncts, hp]
    · simp only [Bool.not_eq_true] at hp
      simp [alexer_get_token_puncts, hp, ih (i + 1)]

theorem alexer_get_token_puncts_some (l : Alexer) (ps : List (List Nat)) :
    ∀ i k, alexer_get_token_puncts l ps i = some k →
      i ≤ k ∧ k - i < ps.length ∧
        alexer_starts_with l (ps.getD (k - i) []) (strlen (ps.getD (k - i) [])) = true ∧
        ∀ j, j < k - i →
          alexer_starts_with l (ps.getD j []) (strlen (ps.getD j [])) = false := by
  induction ps with
  | nil => intro i k h; simp [alexer_get_token_puncts] at h
  | cons p ps ih =>
    intro i k h
    by_cases hp : alexer_starts_with l p (strlen p) = true
    · simp only [alexer_get_token_puncts, hp, if_true, Option.some.injEq] at h
      subst h
      simp [hp]
    · simp only [Bool.not_eq_true] at hp
      simp only [alexer_get_token_puncts, hp] at h
      obtain ⟨h1, h2, h3, h4⟩ := ih (i + 1) k (by simpa using h)
      have e : k - i = (k - (i + 1)) + 1 := by omega
      refine ⟨by omega, by simp; omega, ?_, ?_⟩
      · rw [e]; simpa using h3
      · intro j hj
        cases j with
        | zero => simpa using hp
        | succ j => simpa using h4 j (by omega)

/-! ## The digit loop, the symbol loop and the keyword scan -/

theorem alexer_chop_char_plain (l : Alexer) (h : l.cur < l.size) (hx : l.at l.cur ≠ 10) :
    (alexer_chop_char l).2 = { l with cur := l.cur + 1 } := by
  unfold alexer_chop_char
  simp [h, hx]

theorem Alexer.bytes_cons (l : Alexer) (b e : Nat) (h1 : b < e) (h2 : b < l.size) :
    l.bytes b e = l.at b :: l.bytes (b + 1) e := by
  unfold Alexer.bytes Alexer.at
  unfold Alexer.size at h2
  have e0 : l.content.getD b 0 = l.content[b] := List.getD_eq_getElem _ _ h2
  have e1 : e - b = (e - (b + 1)) + 1 := by omega
  rw [e0, e1, List.drop_eq_getElem_cons h2, List.take_succ_cons]

theorem Alexer.bytes_self (l : Alexer) (b : Nat) : l.bytes b b = [] := by
  simp [Alexer.bytes]

theorem wrap_long_step (v : Int) (c : Int) :
    wrap_long (wrap_long (wrap_long (wrap_long v * 10) + c) - 48) =
      wrap_long (v * 10 + c - 48) := by
  unfold wrap_long
  omega

theorem wrap_long_id (v : Int) (h1 : -9223372036854775808 ≤ v) (h2 : v < 9223372036854775808) :
    wrap_long v = v := by
  unfold wrap_long
  omega

theorem isdigit_ne_newline (c : Nat) (h : isdigit c = true) : c ≠ 10 := by
  unfold isdigit at h
  simp at h
  omega

theorem alexer_is_symbol_ne_newline (c : Nat) (h : alexer_is_symbol c = true) : c ≠ 10 := by
  unfold alexer_is_symbol isalnum isalpha isdigit at h
  simp at h
  omega

theorem alexer_is_symbol_start_is_symbol (c : Nat) (h : alexer_is_symbol_start c = true) :
    alexer_is_symbol c = true := by
  unfold alexer_is_symbol_start at h
  unfold alexer_is_symbol isalnum
  simp at h ⊢
  tauto

theorem alexer_is_symbol_start_not_digit (c : Nat) (h : alexer_is_symbol_start c = true) :
    isdigit c = false := by
  unfold alexer_is_symbol_start isalpha at h
  unfold isdigit
  simp at h ⊢
  omega

theorem alexer_get_token_int_spec (fuel : Nat) : ∀ (l : Alexer) (t : Alexer_Token) (v : Int),
    t.int_value = wrap_long v →
    (alexer_get_token_int fuel l t).2 = { l with cur := (alexer_get_token_int fuel l t).2.cur } ∧
      l.cur ≤ (alexer_get_token_int fuel l t).2.cur ∧
      (l.cur ≤ l.size → (alexer_get_token_int fuel l t).2.cur ≤ l.size) ∧
      (alexer_get_token_int fuel l t).1 =
        { t with
          end_ := t.end_ + ((alexer_get_token_int fuel l t).2.cur - l.cur),
          int_value := wrap_long
            (decimal_acc v (l.bytes l.cur (alexer_get_token_int fuel l t).2.cur)) } ∧
      (∀ j, l.cur ≤ j → j < (alexer_get_token_int fuel l t).2.cur → isdigit (l.at j) = true) ∧
      (l.size - l.cur ≤ fuel →
        ¬ ((alexer_get_token_int fuel l t).2.cur < l.size ∧
          isdigit (l.at (alexer_get_token_int fuel l t).2.cur) = true)) := by
  induction fuel with
  | zero =>
    intro l t v hv
    simp only [alexer_get_token_int]
    refine ⟨trivial, le_refl _, fun h => h, ?_, ?_, ?_⟩
    · simp [Alexer.bytes_self, decimal_acc, ← hv]
    · intro j h1 h2; omega
    · intro h hc; omega
  | succ fuel ih =>
    intro l t v hv
    by_cases hc : l.cur < l.size ∧ isdigit (l.at l.cur) = true
    · have hp := alexer_chop_char_plain l hc.1 (isdigit_ne_newline _ hc.2)
      have e : alexer_get_token_int (fuel + 1) l t =
          alexer_get_token_int fuel { l with cur := l.cur + 1 }
            { t with
              int_value := wrap_long (wrap_long (wrap_long (t.int_value * 10) +
                (l.at l.cur : Int)) - 48),
              end_ := t.end_ + 1 } := by
        simp only [alexer_get_token_int]
        rw [if_pos (by simp [hc.1, hc.2]), hp]
      obtain ⟨i1, i2, i3, i4, i5, i6⟩ := ih { l with cur := l.cur + 1 }
        { t with
          int_value := wrap_long (wrap_long (wrap_long (t.int_value * 10) +
            (l.at l.cur : Int)) - 48),
          end_ := t.end_ + 1 } (v * 10 + (l.at l.cur : Int) - 48)
        (by simp only [hv]; exact wrap_long_step _ _)
      rw [e]
      generalize alexer_get_token_int fuel { l with cur := l.cur + 1 }
        { t with
          int_value := wrap_long (wrap_long (wrap_long (t.int_value * 10) +
            (l.at l.cur : Int)) - 48),
          end_ := t.end_ + 1 } = r at i1 i2 i3 i4 i5 i6
      simp only [Alexer.size, Alexer.at] at i1 i2 i3 i4 i5 i6
      refine ⟨?_, by omega, fun _ => ?_, ?_, ?_, ?_⟩
      · rw [i1]
      · exact i3 (by unfold Alexer.size at hc; omega)
      · rw [i4, Alexer.bytes_cons l l.cur r.2.cur (by omega) hc.1]
        have e2 : t.end_ + 1 + (r.2.cur - (l.cur + 1)) = t.end_ + (r.2.cur - l.cur) := by omega
        simp only [e2, decimal_acc, List.foldl_cons, Alexer.bytes, Alexer.at]
      · intro j hj1 hj2
        by_cases hj : j = l.cur
        · rw [hj]; exact hc.2
        · exact i5 j (by omega) hj2
      · intro hf
        exact i6 (by unfold Alexer.size at hf; omega)
    · have e : alexer_get_token_int (fuel + 1) l t = (t, l) := by
        simp only [alexer_get_token_int]
        rw [if_neg]
        simpa using hc
      rw [e]
      dsimp only
      refine ⟨rfl, le_refl _, fun h => h, ?_, ?_, fun _ => hc⟩
      · simp [Alexer.bytes_self, decimal_acc, ← hv]
      · intro j h1 h2; omega

theorem alexer_get_token_symbol_spec (fuel : Nat) : ∀ (l : Alexer) (t : Alexer_Token),
    (alexer_get_token_symbol fuel l t).2 =
        { l with cur := (alexer_get_token_symbol fuel l t).2.cur } ∧
      l.cur ≤ (alexer_get_token_symbol fuel l t).2.cur ∧
      (l.cur ≤ l.size → (alexer_get_token_symbol fuel l t).2.cur ≤ l.size) ∧
      (alexer_get_token_symbol fuel l t).1 =
        { t with end_ := t.end_ + ((alexer_get_token_symbol fuel l t).2.cur - l.cur) } ∧
      (∀ j, l.cur ≤ j → j < (alexer_get_token_symbol fuel l t).2.cur →
        alexer_is_symbol (l.at j) = true) ∧
      (l.size - l.cur ≤ fuel →
        ¬ ((alexer_get_token_symbol fuel l t).2.cur < l.size ∧
          alexer_is_symbol (l.at (alexer_get_token_symbol fuel l t).2.cur) = true)) := by
  induction fuel with
  | zero =>
    intro l t
    simp only [alexer_get_token_symbol]
    refine ⟨trivial, le_refl _, fun h => h, ?_, ?_, ?_⟩
    · simp
    · intro j h1 h2; omega
    · intro h hc; omega
  | succ fuel ih =>
    intro l t
    by_cases hc : l.cur < l.size ∧ alexer_is_symbol (l.at l.cur) = true
    · have hp := alexer_chop_char_plain l hc.1 (alexer_is_symbol_ne_newline _ hc.2)
      have e : alexer_get_token_symbol (fuel + 1) l t =
          alexer_get_token_symbol fuel { l with cur := l.cur + 1 }
            { t with end_ := t.end_ + 1 } := by
        simp only [alexer_get_token_symbol]
        rw [if_pos (by simp [hc.1, hc.2]), hp]
      obtain ⟨i1, i2, i3, i4, i5, i6⟩ := ih { l with cur := l.cur + 1 }
        { t with end_ := t.end_ + 1 }
      rw [e]
      generalize alexer_get_token_symbol fuel { l with cur := l.cur + 1 }
        { t with end_ := t.end_ + 1 } = r at i1 i2 i3 i4 i5 i6
      simp only [Alexer.size, Alexer.at] at i1 i2 i3 i4 i5 i6
      refine ⟨?_, by omega, fun _ => ?_, ?_, ?_, ?_⟩
      · rw [i1]
      · exact i3 (by unfold Alexer.size at hc; omega)
      · rw [i4]
        have e2 : t.end_ + 1 + (r.2.cur - (l.cur + 1)) = t.end_ + (r.2.cur - l.cur) := by omega
        simp only [e2]
      · intro j hj1 hj2
        by_cases hj : j = l.cur
        · rw [hj]; exact hc.2
        · exact i5 j (by omega) hj2
      · intro hf
        exact i6 (by unfold Alexer.size at hf; omega)
    · have e : alexer_get_token_symbol (fuel + 1) l t = (t, l) := by
        simp only [alexer_get_token_symbol]
        rw [if_neg]
        simpa using hc
      rw [e]
      dsimp only
      refine ⟨rfl, le_refl _, fun h => h, ?_, ?_, fun _ => hc⟩
      · simp
      · intro j h1 h2; omega

theorem memcmp_eq_zero_iff (n : Nat) : ∀ a b : List Nat,
    memcmp a b n = 0 ↔ ∀ j, j < n → a.getD j 0 = b.getD j 0 := by
  induction n with
  | zero => intro a b; simp [memcmp]
  | succ n ih =>
    intro a b
    have ha : ∀ j, a.tail.getD j 0 = a.getD (j + 1) 0 := by
      intro j; cases a <;> simp
    have hb : ∀ j, b.tail.getD j 0 = b.getD (j + 1) 0 := by
      intro j; cases b <;> simp
    have ha0 : a.headD 0 = a.getD 0 0 := by cases a <;> simp
    have hb0 : b.headD 0 = b.getD 0 0 := by cases b <;> simp
    by_cases h0 : a.headD 0 = b.headD 0
    · simp only [memcmp, h0, if_true]
      rw [ih]
      constructor
      · intro h j hj
        cases j with
        | zero => rw [← ha0, ← hb0]; exact h0
        | succ j => rw [← ha, ← hb]; exact h j (by omega)
      · intro h j hj
        rw [ha, hb]; exact h (j + 1) (by omega)
    · simp only [memcmp, h0, if_false]
      constructor
      · intro h; exact absurd (by omega) h0
      · intro h; exact absurd (by rw [ha0, hb0]; exact h 0 (by omega)) h0

theorem getD_eq_iff_eq_take (k b : List Nat) (n : Nat) (hn : n ≤ b.length) :
    (k.length = n ∧ ∀ j, j < n → k.getD j 0 = b.getD j 0) ↔ k = b.take n := by
  constructor
  · rintro ⟨h1, h2⟩
    apply List.ext_getElem
    · simp [h1, hn]
    · intro j hj1 hj2
      have := h2 j (by omega)
      rw [List.getD_eq_getElem _ _ hj1, List.getD_eq_getElem _ _ (by omega)] at this
      rw [this]; simp
  · intro h
    subst h
    refine ⟨by simp [hn], ?_⟩
    intro j hj
    rw [List.getD_eq_getElem _ _ (by simp; omega), List.getD_eq_getElem _ _ (by omega)]
    simp

theorem alexer_keyword_matches_iff (l : Alexer) (t : Alexer_Token) (k : List Nat)
    (h : t.end_ ≤ l.size) : alexer_keyword_matches l t k ↔ k = l.bytes t.begin t.end_ := by
  unfold alexer_keyword_matches Alexer.bytes strlen
  unfold Alexer.size at h
  rw [← getD_eq_iff_eq_take k (l.content.drop t.begin) (t.end_ - t.begin)
    (by simp; omega)]
  constructor
  · rintro ⟨h1, h2⟩
    refine ⟨h1, ?_⟩
    rw [memcmp_eq_zero_iff, h1] at h2
    exact h2
  · rintro ⟨h1, h2⟩
    refine ⟨h1, ?_⟩
    rw [memcmp_eq_zero_iff, h1]
    exact h2

theorem alexer_get_token_keywords_spec (l : Alexer) (t : Alexer_Token) (ks : List (List Nat)) :
    ∀ i, (alexer_get_token_keywords l t ks i = t ∧
        ∀ k ∈ ks, ¬ alexer_keyword_matches l t k) ∨
      ∃ j, j < ks.length ∧ alexer_keyword_matches l t (ks.getD j []) ∧
        (∀ j1, j1 < j → ¬ alexer_keyword_matches l t (ks.getD j1 [])) ∧
        alexer_get_token_keywords l t ks i =
          { t with kind := ALEXER_KEYWORD, keyword_index := i + j } := by
  induction ks with
  | nil => intro i; left; simp [alexer_get_token_keywords]
  | cons k ks ih =>
    intro i
    by_cases hk : alexer_keyword_matches l t k
    · right
      refine ⟨0, by simp, by simpa using hk, by intro j1 h; omega, ?_⟩
      have hk2 := hk
      unfold alexer_keyword_matches at hk2
      simp only [alexer_get_token_keywords]
      rw [if_pos hk2]; rfl
    · have e : alexer_get_token_keywords l t (k :: ks) i =
          alexer_get_token_keywords l t ks (i + 1) := by
        have hk2 := hk
        unfold alexer_keyword_matches at hk2
        simp only [alexer_get_token_keywords]
        rw [if_neg hk2]
      rw [e]
      rcases ih (i + 1) with ⟨h1, h2⟩ | ⟨j, h1, h2, h3, h4⟩
      · left
        refine ⟨h1, ?_⟩
        intro k1 hk1
        rcases List.mem_cons.mp hk1 with rfl | h
        · exact hk
        · exact h2 k1 h
      · right
        refine ⟨j + 1, by simp; omega, by simpa using h2, ?_, ?_⟩
        · intro j1 hj1
          cases j1 with
          | zero => simpa using hk
          | succ j1 => simpa using h3 j1 (by omega)
        · rw [h4]
          have : i + 1 + j = i + (j + 1) := by omega
          rw [this]

/-! ## The branches of `alexer_get_token` -/

theorem alexer_get_token_end (l0 : Alexer)
    (h : ¬ (alexer_trim_left_ws l0).cur < (alexer_trim_left_ws l0).size) :
    alexer_get_token l0 =
      (false, { alexer_token_init (alexer_trim_left_ws l0) with kind := ALEXER_END },
        alexer_trim_left_ws l0) := by
  unfold alexer_get_token alexer_token_init
  simp only [ge_iff_le]
  rw [if_pos (by omega)]

theorem alexer_get_token_punct (l0 : Alexer) (i : Nat)
    (h : (alexer_trim_left_ws l0).cur < (alexer_trim_left_ws l0).size)
    (hp : alexer_get_token_puncts (alexer_trim_left_ws l0) (alexer_trim_left_ws l0).puncts 0
      = some i) :
    alexer_get_token l0 =
      (true,
        { alexer_token_init (alexer_trim_left_ws l0) with
          kind := ALEXER_PUNCT, punct_index := i,
          end_ := (alexer_trim_left_ws l0).cur +
            strlen ((alexer_trim_left_ws l0).puncts.getD i []) },
        alexer_chop_chars (alexer_trim_left_ws l0)
          (strlen ((alexer_trim_left_ws l0).puncts.getD i []))) := by
  unfold alexer_get_token alexer_token_init
  simp only [ge_iff_le]
  rw [if_neg (by omega), hp]

theorem alexer_get_token_int_case (l0 : Alexer)
    (h : (alexer_trim_left_ws l0).cur < (alexer_trim_left_ws l0).size)
    (hp : alexer_get_token_puncts (alexer_trim_left_ws l0) (alexer_trim_left_ws l0).puncts 0
      = none)
    (hd : isdigit ((alexer_trim_left_ws l0).at (alexer_trim_left_ws l0).cur) = true) :
    alexer_get_token l0 =
      (true,
        (alexer_get_token_int ((alexer_trim_left_ws l0).size - (alexer_trim_left_ws l0).cur)
          (alexer_trim_left_ws l0)
          { alexer_token_init (alexer_trim_left_ws l0) with kind := ALEXER_INT }).1,
        (alexer_get_token_int ((alexer_trim_left_ws l0).size - (alexer_trim_left_ws l0).cur)
          (alexer_trim_left_ws l0)
          { alexer_token_init (alexer_trim_left_ws l0) with kind := ALEXER_INT }).2) := by
  unfold alexer_get_token alexer_token_init
  simp only [ge_iff_le]
  rw [if_neg (by omega), hp]
  simp only [hd, if_true]

theorem alexer_get_token_symbol_case (l0 : Alexer)
    (h : (alexer_trim_left_ws l0).cur < (alexer_trim_left_ws l0).size)
    (hp : alexer_get_token_puncts (alexer_trim_left_ws l0) (alexer_trim_left_ws l0).puncts 0
      = none)
    (hd : isdigit ((alexer_trim_left_ws l0).at (alexer_trim_left_ws l0).cur) = false)
    (hs : alexer_is_symbol_start ((alexer_trim_left_ws l0).at (alexer_trim_left_ws l0).cur)
      = true) :
    alexer_get_token l0 =
      (true,
        alexer_get_token_keywords
          (alexer_get_token_symbol
            ((alexer_trim_left_ws l0).size - (alexer_trim_left_ws l0).cur)
            (alexer_trim_left_ws l0)
            { alexer_token_init (alexer_trim_left_ws l0) with kind := ALEXER_SYMBOL }).2
          (alexer_get_token_symbol
            ((alexer_trim_left_ws l0).size - (alexer_trim_left_ws l0).cur)
            (alexer_trim_left_ws l0)
            { alexer_token_init (alexer_trim_left_ws l0) with kind := ALEXER_SYMBOL }).1
          (alexer_get_token_symbol
            ((alexer_trim_left_ws l0).size - (alexer_trim_left_ws l0).cur)
            (alexer_trim_left_ws l0)
            { alexer_token_init (alexer_trim_left_ws l0) with kind := ALEXER_SYMBOL }).2.keywords
          0,
        (alexer_get_token_symbol
          ((alexer_trim_left_ws l0).size - (alexer_trim_left_ws l0).cur)
          (alexer_trim_left_ws l0)
          { alexer_token_init (alexer_trim_left_ws l0) with kind := ALEXER_SYMBOL }).2) := by
  unfold alexer_get_token alexer_token_init
  simp only [ge_iff_le]
  rw [if_neg (by omega), hp]
  simp only [hd, hs, if_true]
  rfl

theorem alexer_get_token_invalid (l0 : Alexer)
    (h : (alexer_trim_left_ws l0).cur < (alexer_trim_left_ws l0).size)
    (hp : alexer_get_token_puncts (alexer_trim_left_ws l0) (alexer_trim_left_ws l0).puncts 0
      = none)
    (hd : isdigit ((alexer_trim_left_ws l0).at (alexer_trim_left_ws l0).cur) = false)
    (hs : alexer_is_symbol_start ((alexer_trim_left_ws l0).at (alexer_trim_left_ws l0).cur)
      = false) :
    alexer_get_token l0 =
      (false,
        { alexer_token_init (alexer_trim_left_ws l0) with
          end_ := (alexer_trim_left_ws l0).cur + 1 },
        (alexer_chop_char (alexer_trim_left_ws l0)).2) := by
  unfold alexer_get_token alexer_token_init
  simp only [ge_iff_le]
  rw [if_neg (by omega), hp]
  simp only [hd, hs]
  rfl

theorem wrap_long_zero : (0 : Int) = wrap_long 0 := by
  unfold wrap_long; omega

/-- The kind of the token of each branch, with the boolean returned. -/
theorem alexer_get_token_kind_cases (l : Alexer) :
    ((alexer_get_token l).1 = false ∧ (alexer_get_token l).2.1.kind = ALEXER_END) ∨
    ((alexer_get_token l).1 = false ∧ (alexer_get_token l).2.1.kind = ALEXER_INVALID) ∨
    ((alexer_get_token l).1 = true ∧ (alexer_get_token l).2.1.kind = ALEXER_PUNCT) ∨
    ((alexer_get_token l).1 = true ∧ (alexer_get_token l).2.1.kind = ALEXER_INT) ∨
    ((alexer_get_token l).1 = true ∧ (alexer_get_token l).2.1.kind = ALEXER_SYMBOL) ∨
    ((alexer_get_token l).1 = true ∧ (alexer_get_token l).2.1.kind = ALEXER_KEYWORD) := by
  by_cases h : (alexer_trim_left_ws l).cur < (alexer_trim_left_ws l).size
  · cases hp : alexer_get_token_puncts (alexer_trim_left_ws l) (alexer_trim_left_ws l).puncts 0 with
    | some i =>
      rw [alexer_get_token_punct l i h hp]
      simp
    | none =>
      cases hd : isdigit ((alexer_trim_left_ws l).at (alexer_trim_left_ws l).cur) with
      | true =>
        rw [alexer_get_token_int_case l h hp hd]
        obtain ⟨_, _, _, i4, _, _⟩ := alexer_get_token_int_spec
          ((alexer_trim_left_ws l).size - (alexer_trim_left_ws l).cur) (alexer_trim_left_ws l)
          { alexer_token_init (alexer_trim_left_ws l) with kind := ALEXER_INT } 0 wrap_long_zero
        simp only [i4]
        simp
      | false =>
        cases hs : alexer_is_symbol_start
            ((alexer_trim_left_ws l).at (alexer_trim_left_ws l).cur) with
        | true =>
          rw [alexer_get_token_symbol_case l h hp hd hs]
          obtain ⟨_, _, _, i4, _, _⟩ := alexer_get_token_symbol_spec
            ((alexer_trim_left_ws l).size - (alexer_trim_left_ws l).cur)
            (alexer_trim_left_ws l)
            { alexer_token_init (alexer_trim_left_ws l) with kind := ALEXER_SYMBOL }
          generalize alexer_get_token_symbol
            ((alexer_trim_left_ws l).size - (alexer_trim_left_ws l).cur)
            (alexer_trim_left_ws l)
            { alexer_token_init (alexer_trim_left_ws l) with kind := ALEXER_SYMBOL } = r at i4
          rcases alexer_get_token_keywords_spec r.2 r.1 r.2.keywords 0 with
            ⟨k1, _⟩ | ⟨j, _, _, _, k1⟩
          · rw [k1, i4]; simp
          · rw [k1]; simp
        | false =>
          rw [alexer_get_token_invalid l h hp hd hs]
          simp [alexer_token_init]
  · rw [alexer_get_token_end l h]
    simp

theorem Alexer.same_input_bytes {a b : Alexer} (h : a.same_input b) (i j : Nat) :
    b.bytes i j = a.bytes i j := by
  unfold Alexer.bytes; rw [h.1]

/-- The digit branch in closed form: the cursor stops at the end `e` of the
maximal run of digits, and the value is the wrapped base-10 accumulation. -/
theorem alexer_get_token_int_run (l : Alexer)
    (h : (alexer_trim_left_ws l).cur < (alexer_trim_left_ws l).size)
    (hp : alexer_get_token_puncts (alexer_trim_left_ws l) (alexer_trim_left_ws l).puncts 0
      = none)
    (hd : isdigit ((alexer_trim_left_ws l).at (alexer_trim_left_ws l).cur) = true) :
    ∃ e, (alexer_trim_left_ws l).cur < e ∧ e ≤ (alexer_trim_left_ws l).size ∧
      (∀ j, (alexer_trim_left_ws l).cur ≤ j → j < e →
        isdigit ((alexer_trim_left_ws l).at j) = true) ∧
      ¬ (e < (alexer_trim_left_ws l).size ∧ isdigit ((alexer_trim_left_ws l).at e) = true) ∧
      alexer_get_token l =
        (true,
          { alexer_token_init (alexer_trim_left_ws l) with
            kind := ALEXER_INT, end_ := e,
            int_value := wrap_long (decimal_acc 0
              ((alexer_trim_left_ws l).bytes (alexer_trim_left_ws l).cur e)) },
          { alexer_trim_left_ws l with cur := e }) := by
  rw [alexer_get_token_int_case l h hp hd]
  obtain ⟨i1, i2, i3, i4, i5, i6⟩ := alexer_get_token_int_spec
    ((alexer_trim_left_ws l).size - (alexer_trim_left_ws l).cur) (alexer_trim_left_ws l)
    { alexer_token_init (alexer_trim_left_ws l) with kind := ALEXER_INT } 0 wrap_long_zero
  generalize alexer_get_token_int
    ((alexer_trim_left_ws l).size - (alexer_trim_left_ws l).cur) (alexer_trim_left_ws l)
    { alexer_token_init (alexer_trim_left_ws l) with kind := ALEXER_INT } = r
    at i1 i2 i3 i4 i5 i6
  generalize alexer_trim_left_ws l = l1 at *
  have i6 := i6 (le_refl _)
  have hlt : l1.cur < r.2.cur := by
    rcases Nat.lt_or_ge l1.cur r.2.cur with h1 | h1
    · exact h1
    · have e : r.2.cur = l1.cur := by omega
      rw [e] at i6
      exact absurd ⟨h, hd⟩ i6
  refine ⟨r.2.cur, hlt, i3 (by omega), i5, i6, ?_⟩
  have e1 : (alexer_token_init l1).end_ + (r.2.cur - l1.cur) = r.2.cur := by
    simp only [alexer_token_init]; omega
  rw [i4, ← i1, e1]

/-- The symbol branch in closed form: the cursor stops at the end `e` of the
maximal run of symbol bytes, and the keyword scan runs on that span. -/
theorem alexer_get_token_symbol_run (l : Alexer)
    (h : (alexer_trim_left_ws l).cur < (alexer_trim_left_ws l).size)
    (hp : alexer_get_token_puncts (alexer_trim_left_ws l) (alexer_trim_left_ws l).puncts 0
      = none)
    (hs : alexer_is_symbol_start ((alexer_trim_left_ws l).at (alexer_trim_left_ws l).cur)
      = true) :
    ∃ e, (alexer_trim_left_ws l).cur < e ∧ e ≤ (alexer_trim_left_ws l).size ∧
      (∀ j, (alexer_trim_left_ws l).cur ≤ j → j < e →
        alexer_is_symbol ((alexer_trim_left_ws l).at j) = true) ∧
      ¬ (e < (alexer_trim_left_ws l).size ∧
        alexer_is_symbol ((alexer_trim_left_ws l).at e) = true) ∧
      alexer_get_token l =
        (true,
          alexer_get_token_keywords { alexer_trim_left_ws l with cur := e }
            { alexer_token_init (alexer_trim_left_ws l) with
              kind := ALEXER_SYMBOL, end_ := e }
            (alexer_trim_left_ws l).keywords 0,
          { alexer_trim_left_ws l with cur := e }) := by
  rw [alexer_get_token_symbol_case l h hp (alexer_is_symbol_start_not_digit _ hs) hs]
  obtain ⟨i1, i2, i3, i4, i5, i6⟩ := alexer_get_token_symbol_spec
    ((alexer_trim_left_ws l).size - (alexer_trim_left_ws l).cur) (alexer_trim_left_ws l)
    { alexer_token_init (alexer_trim_left_ws l) with kind := ALEXER_SYMBOL }
  generalize alexer_get_token_symbol
    ((alexer_trim_left_ws l).size - (alexer_trim_left_ws l).cur) (alexer_trim_left_ws l)
    { alexer_token_init (alexer_trim_left_ws l) with kind := ALEXER_SYMBOL } = r
    at i1 i2 i3 i4 i5 i6
  generalize alexer_trim_left_ws l = l1 at *
  have i6 := i6 (le_refl _)
  have hlt : l1.cur < r.2.cur := by
    rcases Nat.lt_or_ge l1.cur r.2.cur with h1 | h1
    · exact h1
    · have e : r.2.cur = l1.cur := by omega
      rw [e] at i6
      exact absurd ⟨h, alexer_is_symbol_start_is_symbol _ hs⟩ i6
  refine ⟨r.2.cur, hlt, i3 (by omega), i5, i6, ?_⟩
  have e1 : (alexer_token_init l1).end_ + (r.2.cur - l1.cur) = r.2.cur := by
    simp only [alexer_token_init]; omega
  have e2 : r.2.keywords = l1.keywords := by rw [i1]
  rw [i4, e2, ← i1, e1]

theorem alexer_get_token_puncts_none_of_all (l : Alexer)
    (hp : ∀ p ∈ l.puncts, alexer_starts_with (alexer_trim_left_ws l) p (strlen p) = false) :
    alexer_get_token_puncts (alexer_trim_left_ws l) (alexer_trim_left_ws l).puncts 0 = none := by
  rw [alexer_get_token_puncts_none, (alexer_trim_left_ws_stops l).1.2.1]
  exact hp

theorem Alexer.mem_bytes (l : Alexer) (b e c : Nat) (h : c ∈ l.bytes b e) :
    ∃ j, b ≤ j ∧ j < e ∧ l.at j = c := by
  unfold Alexer.bytes at h
  obtain ⟨n, hn, hc⟩ := List.getElem_of_mem h
  simp only [List.length_take, List.length_drop] at hn
  refine ⟨b + n, by omega, by omega, ?_⟩
  rw [← hc]
  unfold Alexer.at
  rw [List.getD_eq_getElem _ _ (by omega)]
  simp

theorem decimal_acc_eq_foldl (ds : List Nat) : ∀ v : Nat,
    (∀ c ∈ ds, isdigit c = true) →
    decimal_acc (v : Int) ds = ((ds.foldl (fun v c => v * 10 + (c - 48)) v : Nat) : Int) := by
  induction ds with
  | nil => intro v _; simp [decimal_acc]
  | cons d ds ih =>
    intro v h
    have hd : 48 ≤ d := by
      have := h d (List.mem_cons_self _ _)
      unfold isdigit at this
      simp at this
      omega
    have e : (v : Int) * 10 + (d : Int) - 48 = ((v * 10 + (d - 48) : Nat) : Int) := by omega
    have := ih (v * 10 + (d - 48)) (fun c hc => h c (List.mem_cons_of_mem _ hc))
    simp only [decimal_acc, List.foldl_cons] at this ⊢
    rw [e, this]

theorem decimal_acc_eq_decimal_value (ds : List Nat) (h : ∀ c ∈ ds, isdigit c = true) :
    decimal_acc 0 ds = (decimal_value ds : Int) := by
  have := decimal_acc_eq_foldl ds 0 h
  simpa [decimal_value] using this

/-! ## The claims -/

/-- C1, punctuation priority: when, after the whitespace is skipped, the
cursor is inside the buffer and some table entry passes `alexer_starts_with`
there, `alexer_get_token` returns true with a `PUNCT` token whose index is the
least index of the table whose entry passes, whatever the current byte is.
With the table `["==", "="]` on the input `"=="` the first call gives one
`PUNCT` token of index 0 over both bytes and the second call gives `END`. -/
theorem alexer_punct_priority :
    (∀ l : Alexer, (alexer_trim_left_ws l).cur < l.size →
      (∃ p ∈ l.puncts, alexer_starts_with (alexer_trim_left_ws l) p (strlen p) = true) →
      (alexer_get_token l).1 = true ∧
      (alexer_get_token l).2.1.kind = ALEXER_PUNCT ∧
      (alexer_get_token l).2.1.punct_index < l.puncts.length ∧
      alexer_starts_with (alexer_trim_left_ws l)
        (l.puncts.getD (alexer_get_token l).2.1.punct_index [])
        (strlen (l.puncts.getD (alexer_get_token l).2.1.punct_index [])) = true ∧
      ∀ j, j < (alexer_get_token l).2.1.punct_index →
        alexer_starts_with (alexer_trim_left_ws l) (l.puncts.getD j [])
          (strlen (l.puncts.getD j [])) = false) ∧
    alexer_get_token (alexer_with (cstr "==") [cstr "==", cstr "="] []) =
      (true,
        { kind := ALEXER_PUNCT, loc := { file_path := [], row := 1, col := 1 },
          begin := 0, end_ := 2, int_value := 0, punct_index := 0, keyword_index := 0 },
        { alexer_with (cstr "==") [cstr "==", cstr "="] [] with cur := 2 }) ∧
    alexer_get_token { alexer_with (cstr "==") [cstr "==", cstr "="] [] with cur := 2 } =
      (false,
        { kind := ALEXER_END, loc := { file_path := [], row := 1, col := 3 },
          begin := 2, end_ := 2, int_value := 0, punct_index := 0, keyword_index := 0 },
        { alexer_with (cstr "==") [cstr "==", cstr "="] [] with cur := 2 }) := by
  refine ⟨?_, by decide, by decide⟩
  intro l h ⟨p, hp1, hp2⟩
  obtain ⟨hsi, _⟩ := alexer_trim_left_ws_stops l
  have hsz := Alexer.same_input_size hsi
  have hpu := hsi.2.1
  cases hs : alexer_get_token_puncts (alexer_trim_left_ws l) (alexer_trim_left_ws l).puncts 0 with
  | none =>
    rw [alexer_get_token_puncts_none, hpu] at hs
    rw [hs p hp1] at hp2
    exact absurd hp2 (by simp)
  | some i =>
    obtain ⟨_, k2, k3, k4⟩ := alexer_get_token_puncts_some _ _ _ _ hs
    rw [alexer_get_token_punct l i (by omega) hs]
    rw [hpu] at k2 k3 k4
    exact ⟨rfl, rfl, k2, k3, k4⟩

/-- C1, an instance on a letter: with the table `["x", "i"]` the input `" if"`
gives the `PUNCT` token of index 1 although `i` starts a symbol. -/
theorem alexer_punct_priority_witness :
    (alexer_get_token (alexer_with (cstr " if") [cstr "x", cstr "i"] [cstr "if"])).1 = true ∧
    (alexer_get_token (alexer_with (cstr " if") [cstr "x", cstr "i"] [cstr "if"])).2.1.kind
      = ALEXER_PUNCT ∧
    (alexer_get_token (alexer_with (cstr " if") [cstr "x", cstr "i"] [cstr "if"])).2.1.punct_index
      = 1 :=
  have h := alexer_punct_priority.1 (alexer_with (cstr " if") [cstr "x", cstr "i"] [cstr "if"])
    (by decide) ⟨cstr "i", by decide, by decide⟩
  ⟨h.1, h.2.1, by decide⟩

/-- C2: the boolean returned by `alexer_get_token` is true exactly when the
token written is an `INT`, `SYMBOL`, `KEYWORD` or `PUNCT`, and false exactly
when it is an `END` or an `INVALID`. -/
theorem alexer_get_token_true_iff_kind (l : Alexer) :
    ((alexer_get_token l).1 = true ↔
      (alexer_get_token l).2.1.kind = ALEXER_INT ∨
      (alexer_get_token l).2.1.kind = ALEXER_SYMBOL ∨
      (alexer_get_token l).2.1.kind = ALEXER_KEYWORD ∨
      (alexer_get_token l).2.1.kind = ALEXER_PUNCT) ∧
    ((alexer_get_token l).1 = false ↔
      (alexer_get_token l).2.1.kind = ALEXER_END ∨
      (alexer_get_token l).2.1.kind = ALEXER_INVALID) := by
  rcases alexer_get_token_kind_cases l with h | h | h | h | h | h <;>
    simp [h.1, h.2]

/-- The symbol branch, keywords match exactly: when, after the whitespace is
skipped, the cursor is inside the buffer, `alexer_starts_with` rejects every
punctuation entry (the test of the code, which accepts an entry that the end
of the buffer cuts off) and the current byte is an ASCII letter or an
underscore, `alexer_get_token` returns true, the token spans the maximal run of letters, digits and
underscores from there and the cursor stops behind it; the token is `KEYWORD`
with `keyword_index = i` exactly when `i` is the first index of the keyword
table whose entry equals the whole run, and it is `SYMBOL` when no entry
does. With the table `["if"]`, `"if"` gives `KEYWORD` 0 and `"iffy"` gives
`SYMBOL`. -/
theorem alexer_keyword_exact :
    (∀ l : Alexer, (alexer_trim_left_ws l).cur < l.size →
      (∀ p ∈ l.puncts, alexer_starts_with (alexer_trim_left_ws l) p (strlen p) = false) →
      (isalpha (l.at (alexer_trim_left_ws l).cur) = true ∨
        l.at (alexer_trim_left_ws l).cur = 95) →
      (alexer_get_token l).1 = true ∧
      (alexer_get_token l).2.1.begin = (alexer_trim_left_ws l).cur ∧
      (alexer_get_token l).2.1.end_ = (alexer_get_token l).2.2.cur ∧
      (alexer_get_token l).2.1.begin < (alexer_get_token l).2.1.end_ ∧
      (alexer_get_token l).2.1.end_ ≤ l.size ∧
      (∀ j, (alexer_get_token l).2.1.begin ≤ j → j < (alexer_get_token l).2.1.end_ →
        alexer_is_symbol (l.at j) = true) ∧
      ((alexer_get_token l).2.1.end_ < l.size →
        alexer_is_symbol (l.at (alexer_get_token l).2.1.end_) = false) ∧
      (∀ i, ((alexer_get_token l).2.1.kind = ALEXER_KEYWORD ∧
          (alexer_get_token l).2.1.keyword_index = i) ↔
        (i < l.keywords.length ∧
          l.keywords.getD i [] =
            l.bytes (alexer_get_token l).2.1.begin (alexer_get_token l).2.1.end_ ∧
          ∀ j, j < i → l.keywords.getD j [] ≠
            l.bytes (alexer_get_token l).2.1.begin (alexer_get_token l).2.1.end_)) ∧
      ((∀ k ∈ l.keywords,
          k ≠ l.bytes (alexer_get_token l).2.1.begin (alexer_get_token l).2.1.end_) →
        (alexer_get_token l).2.1.kind = ALEXER_SYMBOL)) ∧
    alexer_get_token (alexer_with (cstr "if") [] [cstr "if"]) =
      (true,
        { kind := ALEXER_KEYWORD, loc := { file_path := [], row := 1, col := 1 },
          begin := 0, end_ := 2, int_value := 0, punct_index := 0, keyword_index := 0 },
        { alexer_with (cstr "if") [] [cstr "if"] with cur := 2 }) ∧
    alexer_get_token (alexer_with (cstr "iffy") [] [cstr "if"]) =
      (true,
        { kind := ALEXER_SYMBOL, loc := { file_path := [], row := 1, col := 1 },
          begin := 0, end_ := 4, int_value := 0, punct_index := 0, keyword_index := 0 },
        { alexer_with (cstr "iffy") [] [cstr "if"] with cur := 4 }) := by
  refine ⟨?_, by decide, by decide⟩
  intro l h hp hc
  obtain ⟨hsi, _⟩ := alexer_trim_left_ws_stops l
  have hsz := Alexer.same_input_size hsi
  have hat := Alexer.same_input_at hsi
  have hby := Alexer.same_input_bytes hsi
  have hkw := hsi.2.2.1
  have hs : alexer_is_symbol_start
      ((alexer_trim_left_ws l).at (alexer_trim_left_ws l).cur) = true := by
    rw [hat]; unfold alexer_is_symbol_start
    rcases hc with hc | hc <;> simp [hc]
  obtain ⟨e, e1, e2, e3, e4, e5⟩ := alexer_get_token_symbol_run l (by omega)
    (alexer_get_token_puncts_none_of_all l hp) hs
  rw [hkw] at e5
  generalize alexer_trim_left_ws l = l1 at *
  have hm : ∀ k, alexer_keyword_matches { l1 with cur := e }
      { alexer_token_init l1 with kind := ALEXER_SYMBOL, end_ := e } k ↔
        k = l.bytes l1.cur e := by
    intro k
    rw [alexer_keyword_matches_iff _ _ _ (by simpa [Alexer.size] using e2), ← hby]
    rfl
  have hmem : ∀ i, i < l.keywords.length → l.keywords.getD i [] ∈ l.keywords := by
    intro i hi
    rw [List.getD_eq_getElem _ _ hi]
    exact List.getElem_mem hi
  rcases alexer_get_token_keywords_spec { l1 with cur := e }
      { alexer_token_init l1 with kind := ALEXER_SYMBOL, end_ := e } l.keywords 0 with
    ⟨k1, k2⟩ | ⟨j, k1, k2, k3, k4⟩
  · rw [e5, k1]
    simp only [alexer_token_init]
    refine ⟨trivial, trivial, trivial, e1, by omega, ?_, ?_, ?_, fun _ => trivial⟩
    · intro j hj1 hj2; rw [← hat]; exact e3 j hj1 hj2
    · intro hlt
      rw [← hat]
      simpa using fun hh => e4 ⟨by omega, hh⟩
    · intro i
      constructor
      · rintro ⟨hk, _⟩; exact absurd hk (by simp)
      · rintro ⟨hi, hk, _⟩
        exact absurd ((hm _).2 hk) (k2 _ (hmem i hi))
  · rw [e5, k4]
    simp only [alexer_token_init, Nat.zero_add]
    refine ⟨trivial, trivial, trivial, e1, by omega, ?_, ?_, ?_, ?_⟩
    · intro j hj1 hj2; rw [← hat]; exact e3 j hj1 hj2
    · intro hlt
      rw [← hat]
      simpa using fun hh => e4 ⟨by omega, hh⟩
    · intro i
      constructor
      · rintro ⟨_, hi⟩
        subst hi
        exact ⟨k1, (hm _).1 k2, fun j1 hj1 hh => k3 j1 hj1 ((hm _).2 hh)⟩
      · rintro ⟨_, hk, hmin⟩
        refine ⟨trivial, ?_⟩
        rcases Nat.lt_trichotomy j i with hlt | heq | hgt
        · exact absurd ((hm _).1 k2) (hmin j hlt)
        · exact heq
        · exact absurd ((hm _).2 hk) (k3 i hgt)
    · intro hall
      exact absurd ((hm _).1 k2) (hall _ (hmem j k1))

/-- The symbol branch, an instance: on `"if_ x"` with the keyword table `["if", "if_"]` the
run is `if_`, so the token is the keyword of index 1 and not the prefix `if`. -/
theorem alexer_keyword_exact_witness :
    (alexer_get_token (alexer_with (cstr "if_ x") [] [cstr "if", cstr "if_"])).2.1.kind
      = ALEXER_KEYWORD ∧
    (alexer_get_token (alexer_with (cstr "if_ x") [] [cstr "if", cstr "if_"])).2.1.keyword_index
      = 1 :=
  ((alexer_keyword_exact.1 (alexer_with (cstr "if_ x") [] [cstr "if", cstr "if_"])
    (by decide) (by decide) (by decide)).2.2.2.2.2.2.2.1 1).2
    ⟨by decide, by decide, by decide⟩

/-- The digit branch, integer accumulation: when, after the whitespace is
skipped, the cursor is inside the buffer, `alexer_starts_with` rejects every
punctuation entry (the test of the code, which accepts an entry that the end
of the buffer cuts off) and the current byte is an ASCII digit,
`alexer_get_token` returns true with
an `INT` token that spans the maximal run of digits from there (the byte
behind it, if any, is not a digit), the cursor stops behind the run, and
`int_value` is the base-10 value of the run whenever that value fits in a
`long`. `"123"` gives 123 and `"0099"` gives 99. -/
theorem alexer_int_accumulation :
    (∀ l : Alexer, (alexer_trim_left_ws l).cur < l.size →
      (∀ p ∈ l.puncts, alexer_starts_with (alexer_trim_left_ws l) p (strlen p) = false) →
      isdigit (l.at (alexer_trim_left_ws l).cur) = true →
      (alexer_get_token l).1 = true ∧
      (alexer_get_token l).2.1.kind = ALEXER_INT ∧
      (alexer_get_token l).2.1.begin = (alexer_trim_left_ws l).cur ∧
      (alexer_get_token l).2.1.end_ = (alexer_get_token l).2.2.cur ∧
      (alexer_get_token l).2.1.begin < (alexer_get_token l).2.1.end_ ∧
      (alexer_get_token l).2.1.end_ ≤ l.size ∧
      (∀ j, (alexer_get_token l).2.1.begin ≤ j → j < (alexer_get_token l).2.1.end_ →
        isdigit (l.at j) = true) ∧
      ((alexer_get_token l).2.1.end_ < l.size →
        isdigit (l.at (alexer_get_token l).2.1.end_) = false) ∧
      (decimal_value (l.bytes (alexer_get_token l).2.1.begin (alexer_get_token l).2.1.end_)
          < 2 ^ 63 →
        (alexer_get_token l).2.1.int_value =
          (decimal_value
            (l.bytes (alexer_get_token l).2.1.begin (alexer_get_token l).2.1.end_) : Int))) ∧
    alexer_get_token (alexer_with (cstr "123") [] []) =
      (true,
        { kind := ALEXER_INT, loc := { file_path := [], row := 1, col := 1 },
          begin := 0, end_ := 3, int_value := 123, punct_index := 0, keyword_index := 0 },
        { alexer_with (cstr "123") [] [] with cur := 3 }) ∧
    alexer_get_token (alexer_with (cstr "0099") [] []) =
      (true,
        { kind := ALEXER_INT, loc := { file_path := [], row := 1, col := 1 },
          begin := 0, end_ := 4, int_value := 99, punct_index := 0, keyword_index := 0 },
        { alexer_with (cstr "0099") [] [] with cur := 4 }) := by
  refine ⟨?_, by decide, by decide⟩
  intro l h hp hd
  obtain ⟨hsi, _⟩ := alexer_trim_left_ws_stops l
  have hsz := Alexer.same_input_size hsi
  have hat := Alexer.same_input_at hsi
  have hby := Alexer.same_input_bytes hsi
  obtain ⟨e, e1, e2, e3, e4, e5⟩ := alexer_get_token_int_run l (by omega)
    (alexer_get_token_puncts_none_of_all l hp) (by rw [hat]; exact hd)
  rw [e5]
  generalize alexer_trim_left_ws l = l1 at *
  simp only [alexer_token_init]
  have hall : ∀ c ∈ l.bytes l1.cur e, isdigit c = true := by
    intro c hc
    obtain ⟨j, j1, j2, j3⟩ := Alexer.mem_bytes l _ _ c hc
    rw [← j3, ← hat]; exact e3 j j1 j2
  refine ⟨trivial, trivial, trivial, trivial, e1, by omega, ?_, ?_, ?_⟩
  · intro j hj1 hj2; rw [← hat]; exact e3 j hj1 hj2
  · intro hlt
    rw [← hat]
    simpa using fun hh => e4 ⟨by omega, hh⟩
  · intro hv
    rw [hby, decimal_acc_eq_decimal_value _ hall]
    apply wrap_long_id <;> omega

/-- The digit branch, an instance with whitespace before and a letter behind
the run. -/
theorem alexer_int_accumulation_witness :
    (alexer_get_token (alexer_with (cstr " 0420x") [cstr "+"] [])).2.1.int_value = 420 :=
  have h := (alexer_int_accumulation.1 (alexer_with (cstr " 0420x") [cstr "+"] [])
    (by decide) (by decide) (by decide)).2.2.2.2.2.2.2.2 (by decide)
  h.trans (by decide)

/-- The fallback branch: when, after the whitespace is skipped, the cursor is
inside the buffer, `alexer_starts_with` rejects every punctuation entry (the
test of the code, which accepts an entry that the end of the buffer cuts off)
and the current byte is neither a digit nor a letter nor an underscore,
`alexer_get_token` returns false with an `INVALID` token that spans exactly
that byte, and the cursor has advanced by one byte. The input `"#"` with empty
tables gives one `INVALID` token over `"#"`, and the next call gives `END`. -/
theorem alexer_invalid_fallback :
    (∀ l : Alexer, (alexer_trim_left_ws l).cur < l.size →
      (∀ p ∈ l.puncts, alexer_starts_with (alexer_trim_left_ws l) p (strlen p) = false) →
      isdigit (l.at (alexer_trim_left_ws l).cur) = false →
      isalpha (l.at (alexer_trim_left_ws l).cur) = false →
      l.at (alexer_trim_left_ws l).cur ≠ 95 →
      (alexer_get_token l).1 = false ∧
      (alexer_get_token l).2.1.kind = ALEXER_INVALID ∧
      (alexer_get_token l).2.2.cur = (alexer_trim_left_ws l).cur + 1 ∧
      (alexer_get_token l).2.1.begin = (alexer_trim_left_ws l).cur ∧
      (alexer_get_token l).2.1.end_ = (alexer_get_token l).2.1.begin + 1) ∧
    alexer_get_token (alexer_with (cstr "#") [] []) =
      (false,
        { kind := ALEXER_INVALID, loc := { file_path := [], row := 1, col := 1 },
          begin := 0, end_ := 1, int_value := 0, punct_index := 0, keyword_index := 0 },
        { alexer_with (cstr "#") [] [] with cur := 1 }) ∧
    alexer_get_token { alexer_with (cstr "#") [] [] with cur := 1 } =
      (false,
        { kind := ALEXER_END, loc := { file_path := [], row := 1, col := 2 },
          begin := 1, end_ := 1, int_value := 0, punct_index := 0, keyword_index := 0 },
        { alexer_with (cstr "#") [] [] with cur := 1 }) := by
  refine ⟨?_, by decide, by decide⟩
  intro l h hp hd ha hu
  obtain ⟨hsi, _⟩ := alexer_trim_left_ws_stops l
  have hsz := Alexer.same_input_size hsi
  have hat := Alexer.same_input_at hsi
  have hs : alexer_is_symbol_start
      ((alexer_trim_left_ws l).at (alexer_trim_left_ws l).cur) = false := by
    rw [hat]; unfold alexer_is_symbol_start
    simp [ha, hu]
  rw [alexer_get_token_invalid l (by omega) (alexer_get_token_puncts_none_of_all l hp)
    (by rw [hat]; exact hd) hs]
  have hc := (alexer_chop_char_lt (alexer_trim_left_ws l) (by omega)).2.1
  simp only [alexer_token_init]
  exact ⟨trivial, trivial, hc, trivial, trivial⟩

/-- The fallback branch, an instance: a newline that is skipped, then a byte outside ASCII
letters, digits and the table. -/
theorem alexer_invalid_fallback_witness :
    (alexer_get_token (alexer_with (cstr "\n@1") [cstr "+"] [])).2.1.kind = ALEXER_INVALID ∧
    (alexer_get_token (alexer_with (cstr "\n@1") [cstr "+"] [])).2.2.cur = 2 :=
  have h := alexer_invalid_fallback.1 (alexer_with (cstr "\n@1") [cstr "+"] [])
    (by decide) (by decide) (by decide) (by decide) (by decide)
  ⟨h.2.1, h.2.2.1.trans (by decide)⟩

/-! ## Progress -/

/-- What every call of `alexer_get_token` does to the engine: buffer and
tables are untouched, the cursor does not move back and stays inside the
buffer, and it moves forward unless the token is `END` or the punctuation
table has an empty entry. -/
theorem alexer_get_token_state (l : Alexer) :
    l.same_input (alexer_get_token l).2.2 ∧
      l.cur ≤ (alexer_get_token l).2.2.cur ∧
      (l.cur ≤ l.size → (alexer_get_token l).2.2.cur ≤ l.size) ∧
      ((alexer_get_token l).2.1.kind ≠ ALEXER_END → (∀ p ∈ l.puncts, p ≠ []) →
        l.cur < (alexer_get_token l).2.2.cur) := by
  obtain ⟨hsi, hle, hsz2, _, _⟩ := alexer_trim_left_ws_stops l
  have hsz := Alexer.same_input_size hsi
  have hpu := hsi.2.1
  by_cases h : (alexer_trim_left_ws l).cur < (alexer_trim_left_ws l).size
  · cases hp : alexer_get_token_puncts (alexer_trim_left_ws l) (alexer_trim_left_ws l).puncts 0 with
    | some i =>
      obtain ⟨_, k2, _, _⟩ := alexer_get_token_puncts_some _ _ _ _ hp
      obtain ⟨c1, c2⟩ := alexer_chop_chars_spec
        (strlen ((alexer_trim_left_ws l).puncts.getD i [])) (alexer_trim_left_ws l) (by omega)
      rw [alexer_get_token_punct l i h hp]
      refine ⟨Alexer.same_input_trans hsi c2, ?_, fun _ => ?_, fun _ hne => ?_⟩
      · show l.cur ≤ (alexer_chop_chars _ _).cur
        rw [c1]; omega
      · show (alexer_chop_chars _ _).cur ≤ l.size
        rw [c1]; omega
      · show l.cur < (alexer_chop_chars _ _).cur
        have hmem : (alexer_trim_left_ws l).puncts.getD i [] ∈ l.puncts := by
          rw [hpu] at k2 ⊢
          rw [List.getD_eq_getElem _ _ (by simpa using k2)]
          exact List.getElem_mem _
        have hn := hne _ hmem
        have hpos : 0 < strlen ((alexer_trim_left_ws l).puncts.getD i []) := by
          unfold strlen
          exact List.length_pos.mpr hn
        rw [c1]; omega
    | none =>
      cases hd : isdigit ((alexer_trim_left_ws l).at (alexer_trim_left_ws l).cur) with
      | true =>
        obtain ⟨e, e1, e2, _, _, e5⟩ := alexer_get_token_int_run l h hp hd
        rw [e5]
        refine ⟨Alexer.same_input_trans hsi ⟨rfl, rfl, rfl, rfl⟩, ?_, fun _ => ?_, fun _ _ => ?_⟩
        · show l.cur ≤ e
          omega
        · show e ≤ l.size
          omega
        · show l.cur < e
          omega
      | false =>
        cases hs : alexer_is_symbol_start
            ((alexer_trim_left_ws l).at (alexer_trim_left_ws l).cur) with
        | true =>
          obtain ⟨e, e1, e2, _, _, e5⟩ := alexer_get_token_symbol_run l h hp hs
          rw [e5]
          refine ⟨Alexer.same_input_trans hsi ⟨rfl, rfl, rfl, rfl⟩, ?_, fun _ => ?_,
            fun _ _ => ?_⟩
          · show l.cur ≤ e
            omega
          · show e ≤ l.size
            omega
          · show l.cur < e
            omega
        | false =>
          obtain ⟨_, c1, c2⟩ := alexer_chop_char_lt (alexer_trim_left_ws l) h
          rw [alexer_get_token_invalid l h hp hd hs]
          refine ⟨Alexer.same_input_trans hsi c2, ?_, fun _ => ?_, fun _ _ => ?_⟩
          · show l.cur ≤ (alexer_chop_char _).2.cur
            omega
          · show (alexer_chop_char _).2.cur ≤ l.size
            omega
          · show l.cur < (alexer_chop_char _).2.cur
            omega
  · rw [alexer_get_token_end l h]
    refine ⟨hsi, hle, hsz2, fun hk _ => ?_⟩
    exact absurd rfl hk

/-- With no empty entry in the punctuation table, an engine with its cursor
inside the buffer writes `END` after at most `size - cur` other tokens. -/
theorem alexer_reaches_end (n : Nat) : ∀ l : Alexer, l.size - l.cur ≤ n → l.cur ≤ l.size →
    (∀ p ∈ l.puncts, p ≠ []) →
    ∃ k, k ≤ l.size - l.cur ∧
      (alexer_get_token (alexer_after_calls k l)).2.1.kind = ALEXER_END := by
  induction n with
  | zero =>
    intro l hn hle hne
    refine ⟨0, Nat.zero_le _, ?_⟩
    by_contra hk
    have := (alexer_get_token_state l).2.2.2 hk hne
    have := (alexer_get_token_state l).2.2.1 hle
    omega
  | succ n ih =>
    intro l hn hle hne
    by_cases hk : (alexer_get_token l).2.1.kind = ALEXER_END
    · exact ⟨0, Nat.zero_le _, hk⟩
    · obtain ⟨s1, _, s3, s4⟩ := alexer_get_token_state l
      have hlt := s4 hk hne
      have hle2 := s3 hle
      have hsz := Alexer.same_input_size s1
      obtain ⟨k, k1, k2⟩ := ih (alexer_get_token l).2.2 (by omega) (by omega)
        (by rw [s1.2.1]; exact hne)
      exact ⟨k + 1, by omega, k2⟩

/-- C6 as stated fails: with the empty string in the punctuation table the
engine on `"a"` writes a `PUNCT` token of index 0 and length 0, stays in the
same state, and so writes that token on every later call and never `END`. -/
theorem alexer_progress_counterexample :
    (alexer_with (cstr "a") [cstr ""] []).content ≠ [] ∧
    alexer_get_token (alexer_with (cstr "a") [cstr ""] []) =
      (true,
        { kind := ALEXER_PUNCT, loc := { file_path := [], row := 1, col := 1 },
          begin := 0, end_ := 0, int_value := 0, punct_index := 0, keyword_index := 0 },
        alexer_with (cstr "a") [cstr ""] []) ∧
    ∀ k, (alexer_get_token
      (alexer_after_calls k (alexer_with (cstr "a") [cstr ""] []))).2.1.kind = ALEXER_PUNCT := by
  have h : alexer_get_token (alexer_with (cstr "a") [cstr ""] []) =
      (true,
        { kind := ALEXER_PUNCT, loc := { file_path := [], row := 1, col := 1 },
          begin := 0, end_ := 0, int_value := 0, punct_index := 0, keyword_index := 0 },
        alexer_with (cstr "a") [cstr ""] []) := by decide
  have hfix : ∀ k, alexer_after_calls k (alexer_with (cstr "a") [cstr ""] []) =
      alexer_with (cstr "a") [cstr ""] [] := by
    intro k
    induction k with
    | zero => rfl
    | succ k ih => rw [alexer_after_calls, h]; exact ih
  refine ⟨by decide, h, fun k => ?_⟩
  rw [hfix k, h]

/-- C6 amended, progress: when no entry of the punctuation table is the empty
string, every call of `alexer_get_token` that writes a token other than `END`
strictly increases the cursor, and from a fresh engine (cursor 0) a call
writes `END` after at most `size` other calls, that is within `size + 1`
calls. -/
theorem alexer_progress :
    (∀ l : Alexer, (∀ p ∈ l.puncts, p ≠ []) →
      (alexer_get_token l).2.1.kind ≠ ALEXER_END → l.cur < (alexer_get_token l).2.2.cur) ∧
    (∀ l : Alexer, (∀ p ∈ l.puncts, p ≠ []) → l.cur = 0 →
      ∃ k, k + 1 ≤ l.size + 1 ∧
        (alexer_get_token (alexer_after_calls k l)).2.1.kind = ALEXER_END) := by
  refine ⟨fun l hne hk => (alexer_get_token_state l).2.2.2 hk hne, ?_⟩
  intro l hne h0
  obtain ⟨k, k1, k2⟩ := alexer_reaches_end (l.size - l.cur) l (le_refl _) (by omega) hne
  exact ⟨k, by omega, k2⟩

/-- C6 amended, an instance: on `"a+1 #"` with the table `["+"]` the fifth
call writes `END`. -/
theorem alexer_progress_witness :
    (alexer_with (cstr "a+1 #") [cstr "+"] []).cur <
      (alexer_get_token (alexer_with (cstr "a+1 #") [cstr "+"] [])).2.2.cur ∧
    ∃ k, k + 1 ≤ (alexer_with (cstr "a+1 #") [cstr "+"] []).size + 1 ∧
      (alexer_get_token
        (alexer_after_calls k (alexer_with (cstr "a+1 #") [cstr "+"] []))).2.1.kind
        = ALEXER_END :=
  ⟨alexer_progress.1 (alexer_with (cstr "a+1 #") [cstr "+"] []) (by decide) (by decide),
    alexer_progress.2 (alexer_with (cstr "a+1 #") [cstr "+"] []) (by decide) (by decide)⟩

/-! ## The kind validators -/

theorem alexer_expect_one_of_kinds_find_iff (t : Alexer_Token) (kinds : List Alexer_Kind) :
    alexer_expect_one_of_kinds_find t kinds = true ↔ t.kind ∈ kinds := by
  induction kinds with
  | nil => simp [alexer_expect_one_of_kinds_find]
  | cons k ks ih =>
    by_cases h : t.kind = k
    · simp [alexer_expect_one_of_kinds_find, h]
    · simp [alexer_expect_one_of_kinds_find, h, ih]

theorem alexer_kind_name_no_nul (k : Alexer_Kind) : ∀ c ∈ alexer_kind_name k, c ≠ 0 := by
  cases k <;> decide

theorem intercalate_cons_eq (sep : List Nat) (xs : List (List Nat)) : ∀ x : List Nat,
    sep.intercalate (x :: xs) = x ++ (xs.map (fun y => sep ++ y)).flatten := by
  induction xs with
  | nil => intro x; simp [List.intercalate]
  | cons y ys ih =>
    intro x
    have := ih y
    simp only [List.intercalate] at this ⊢
    simp only [List.intersperse, List.flatten, List.map_cons, List.append_assoc]
    rw [this]

theorem alexer_expect_one_of_kinds_sb_succ (ks : List Alexer_Kind) : ∀ (i : Nat) (sb : List Nat),
    alexer_expect_one_of_kinds_sb ks (i + 1) sb =
      sb ++ (ks.map (fun k => cstr ", " ++ alexer_kind_name k)).flatten := by
  induction ks with
  | nil => intro i sb; simp [alexer_expect_one_of_kinds_sb]
  | cons k ks ih =>
    intro i sb
    simp only [alexer_expect_one_of_kinds_sb, Nat.succ_pos, if_true, gt_iff_lt]
    rw [ih]
    simp [List.append_assoc]

theorem alexer_expect_one_of_kinds_sb_eq (ks : List Alexer_Kind) :
    alexer_expect_one_of_kinds_sb ks 0 [] =
      (cstr ", ").intercalate (ks.map alexer_kind_name) := by
  cases ks with
  | nil => simp [alexer_expect_one_of_kinds_sb, List.intercalate]
  | cons k ks =>
    simp only [alexer_expect_one_of_kinds_sb, Nat.lt_irrefl, if_false, gt_iff_lt,
      List.nil_append, List.map_cons]
    rw [alexer_expect_one_of_kinds_sb_succ, intercalate_cons_eq, List.map_map]
    rfl

theorem alexer_expect_one_of_kinds_sb_no_nul (ks : List Alexer_Kind) :
    ∀ (i : Nat) (sb : List Nat), (∀ c ∈ sb, c ≠ 0) →
      ∀ c ∈ alexer_expect_one_of_kinds_sb ks i sb, c ≠ 0 := by
  induction ks with
  | nil => intro i sb h; simpa [alexer_expect_one_of_kinds_sb] using h
  | cons k ks ih =>
    intro i sb h
    simp only [alexer_expect_one_of_kinds_sb]
    apply ih
    intro c hc
    rcases List.mem_append.mp hc with h1 | h1
    · by_cases hi : i > 0
      · rw [if_pos hi] at h1
        rcases List.mem_append.mp h1 with h2 | h2
        · exact h c h2
        · have hsep : ∀ d ∈ cstr ", ", d ≠ 0 := by decide
          exact hsep c h2
      · rw [if_neg hi] at h1
        exact h c h1
    · exact alexer_kind_name_no_nul k c h1

theorem printf_s_terminated (s : List Nat) (h : ∀ c ∈ s, c ≠ 0) : printf_s (s ++ [0]) = s := by
  unfold printf_s
  rw [List.takeWhile_append_of_pos (by simpa using h)]
  simp

theorem wrap_int_id (v : Int) (h1 : -2147483648 ≤ v) (h2 : v < 2147483648) :
    wrap_int v = v := by
  unfold wrap_int
  omega

theorem printf_prec_s_bytes (l : Alexer) (t : Alexer_Token) (h : t.begin ≤ t.end_)
    (h2 : t.end_ - t.begin < 2 ^ 31) :
    printf_prec_s (wrap_int ((t.end_ : Int) - (t.begin : Int))) (l.content.drop t.begin) =
      (l.bytes t.begin t.end_).takeWhile (fun c => c != 0) := by
  have h3 : t.end_ - t.begin < 2147483648 := by simpa using h2
  rw [wrap_int_id _ (by omega) (by omega)]
  unfold printf_prec_s printf_s Alexer.bytes
  rw [if_neg (by omega)]
  have : ((t.end_ : Int) - (t.begin : Int)).toNat = t.end_ - t.begin := by omega
  rw [this]

/-- C7 fails on the code: on the buffer `"="` with the table `["=="]`,
`alexer_starts_with` accepts `"=="` on the one byte that is there, and the
`PUNCT` token gets `end = begin + 2 = 2`, behind the end of the buffer
(`size = 1`), while the cursor stops at 1. -/
theorem alexer_span_behind_buffer :
    (alexer_with (cstr "=") [cstr "=="] []).cur ≤ (alexer_with (cstr "=") [cstr "=="] []).size ∧
    alexer_get_token (alexer_with (cstr "=") [cstr "=="] []) =
      (true,
        { kind := ALEXER_PUNCT, loc := { file_path := [], row := 1, col := 1 },
          begin := 0, end_ := 2, int_value := 0, punct_index := 0, keyword_index := 0 },
        { alexer_with (cstr "=") [cstr "=="] [] with cur := 1 }) ∧
    ¬ ((alexer_get_token (alexer_with (cstr "=") [cstr "=="] [])).2.1.end_ ≤
      (alexer_with (cstr "=") [cstr "=="] []).size) := by
  decide

/-- C8 fails on the code: on the buffer `"<"` with the table `["<="]` the
call writes a `PUNCT` token of index 0 with `begin = 0` and `end = 2`,
although the buffer holds only `"<"` from the token's begin on, not the entry
`"<="`, and the cursor advances by 1, not by the length 2 of the entry. -/
theorem alexer_punct_entry_differs :
    alexer_get_token (alexer_with (cstr "<") [cstr "<="] []) =
      (true,
        { kind := ALEXER_PUNCT, loc := { file_path := [], row := 1, col := 1 },
          begin := 0, end_ := 2, int_value := 0, punct_index := 0, keyword_index := 0 },
        { alexer_with (cstr "<") [cstr "<="] [] with cur := 1 }) ∧
    (alexer_with (cstr "<") [cstr "<="] []).puncts.getD 0 [] = cstr "<=" ∧
    (alexer_with (cstr "<") [cstr "<="] []).bytes 0 2 = cstr "<" ∧
    (alexer_with (cstr "<") [cstr "<="] []).puncts.getD 0 [] ≠
      (alexer_with (cstr "<") [cstr "<="] []).bytes 0 2 ∧
    (alexer_get_token (alexer_with (cstr "<") [cstr "<="] [])).2.2.cur -
        (alexer_with (cstr "<") [cstr "<="] []).cur ≠
      strlen ((alexer_with (cstr "<") [cstr "<="] []).puncts.getD 0 []) := by
  decide

/-- C9 fails on the code: with one byte `"="` left in the buffer,
`alexer_starts_with` accepts the prefix `"=="` of length 2, although
`cur + 2` exceeds `size`. -/
theorem alexer_starts_with_truncated :
    alexer_starts_with (alexer_with (cstr "=") [] []) (cstr "==") 2 = true ∧
    ¬ ((alexer_with (cstr "=") [] []).cur + 2 ≤ (alexer_with (cstr "=") [] []).size) := by
  decide

/-- C10 as stated fails: on a buffer holding one NUL byte the token is
`INVALID` with the lexeme bytes `[0]`, and the message of the failed
expectation shows no lexeme byte between the backticks, because `%.*s` stops
at a NUL. -/
theorem alexer_expect_kind_nul_counterexample :
    (alexer_get_token (alexer_with [0] [] [])).2.1.kind = ALEXER_INVALID ∧
    (alexer_with [0] [] []).bytes (alexer_get_token (alexer_with [0] [] [])).2.1.begin
      (alexer_get_token (alexer_with [0] [] [])).2.1.end_ = [0] ∧
    alexer_expect_kind (alexer_with [0] [] []) (alexer_get_token (alexer_with [0] [] [])).2.1
        ALEXER_SYMBOL =
      (false, [{ loc := { file_path := [], row := 1, col := 1 }, level := cstr "ERROR",
                 message := cstr "Expected SYMBOL but got INVALID ``" }]) ∧
    cstr "Expected SYMBOL but got INVALID ``" ≠
      alexer_kinds_message [0] (alexer_get_token (alexer_with [0] [] [])).2.1
        [ALEXER_SYMBOL] := by
  decide

/-- C10 amended: `alexer_expect_one_of_kinds` returns true exactly when
`t.kind` is one of the expected kinds. When it is not, and the span of the
token lies in the buffer and is shorter than `2 ^ 31` bytes, so that its
length is the `int` read by `%.*s` (neither needed for `END`), the function
returns false after one call of the sink, at level `ERROR` and location
`t.loc`, with the message `Expected <names> but got <KIND>` followed, unless
the kind is `END`, by the lexeme between backticks, where `<names>` are the
names of the kinds joined by `", "` and the lexeme is the bytes `begin..end`
of the buffer cut before their first NUL byte, so all of them when none is
NUL.
`alexer_expect_kind` is the call with the singleton list, and on an `INT`
token with expected kind `SYMBOL` it returns false with a message containing
`SYMBOL` and `INT`. -/
theorem alexer_expect_one_of_kinds_spec :
    (∀ (l : Alexer) (t : Alexer_Token) (kinds : List Alexer_Kind),
      (alexer_expect_one_of_kinds l t kinds).1 = true ↔ t.kind ∈ kinds) ∧
    (∀ (l : Alexer) (t : Alexer_Token) (kinds : List Alexer_Kind), t.kind ∉ kinds →
      (t.kind ≠ ALEXER_END →
        t.begin ≤ t.end_ ∧ t.end_ ≤ l.size ∧ t.end_ - t.begin < 2 ^ 31) →
      alexer_expect_one_of_kinds l t kinds =
        (false, [{ loc := t.loc, level := cstr "ERROR",
                   message := alexer_kinds_message
                     ((l.bytes t.begin t.end_).takeWhile (fun c => c != 0)) t kinds }]) ∧
      ((∀ c ∈ l.bytes t.begin t.end_, c ≠ 0) →
        alexer_expect_one_of_kinds l t kinds =
          (false, [{ loc := t.loc, level := cstr "ERROR",
                     message := alexer_kinds_message (l.bytes t.begin t.end_) t kinds }]))) ∧
    (∀ (l : Alexer) (t : Alexer_Token) (k : Alexer_Kind),
      alexer_expect_kind l t k = alexer_expect_one_of_kinds l t [k]) ∧
    (∀ (l : Alexer) (t : Alexer_Token), t.kind = ALEXER_INT →
      (alexer_expect_kind l t ALEXER_SYMBOL).1 = false ∧
      ∃ d, (alexer_expect_kind l t ALEXER_SYMBOL).2 = [d] ∧
        cstr "SYMBOL" <:+: d.message ∧ cstr "INT" <:+: d.message) := by
  have main : ∀ (l : Alexer) (t : Alexer_Token) (kinds : List Alexer_Kind), t.kind ∉ kinds →
      (t.kind ≠ ALEXER_END →
        t.begin ≤ t.end_ ∧ t.end_ ≤ l.size ∧ t.end_ - t.begin < 2 ^ 31) →
      alexer_expect_one_of_kinds l t kinds =
        (false, [{ loc := t.loc, level := cstr "ERROR",
                   message := alexer_kinds_message
                     ((l.bytes t.begin t.end_).takeWhile (fun c => c != 0)) t kinds }]) := by
    intro l t kinds hk hspan
    have hf : alexer_expect_one_of_kinds_find t kinds = false := by
      rw [← Bool.not_eq_true, alexer_expect_one_of_kinds_find_iff]; exact hk
    have hsb : printf_s (alexer_expect_one_of_kinds_sb kinds 0 [] ++ [0]) =
        (cstr ", ").intercalate (kinds.map alexer_kind_name) := by
      rw [printf_s_terminated _
        (alexer_expect_one_of_kinds_sb_no_nul kinds 0 [] (by simp)),
        alexer_expect_one_of_kinds_sb_eq]
    unfold alexer_expect_one_of_kinds alexer_kinds_message
    simp only [hf, Bool.false_eq_true, if_false, hsb]
    by_cases he : t.kind = ALEXER_END
    · simp only [he, if_true, List.append_nil]
    · simp only [he, if_false]
      rw [printf_prec_s_bytes l t (hspan he).1 (hspan he).2.2]
      simp only [List.append_assoc]
  refine ⟨?_, ?_, fun _ _ _ => rfl, ?_⟩
  · intro l t kinds
    unfold alexer_expect_one_of_kinds
    rw [← alexer_expect_one_of_kinds_find_iff]
    cases alexer_expect_one_of_kinds_find t kinds
    · simp only [Bool.false_eq_true, if_false, iff_false]
      split <;> simp
    · simp
  · intro l t kinds hk hspan
    refine ⟨main l t kinds hk hspan, fun hn => ?_⟩
    rw [main l t kinds hk hspan, List.takeWhile_eq_self_iff.mpr (by simpa using hn)]
  · intro l t ht
    unfold alexer_expect_kind alexer_expect_one_of_kinds
    have hf : alexer_expect_one_of_kinds_find t [ALEXER_SYMBOL] = false := by
      simp [alexer_expect_one_of_kinds_find, ht]
    have hsb : printf_s (alexer_expect_one_of_kinds_sb [ALEXER_SYMBOL] 0 [] ++ [0]) =
        cstr "SYMBOL" := by decide
    simp only [hf, Bool.false_eq_true, if_false, hsb, ht]
    rw [if_neg (by decide)]
    refine ⟨rfl, _, rfl, ?_, ?_⟩
    · exact ⟨cstr "Expected ", cstr " but got " ++ alexer_kind_name ALEXER_INT ++ cstr " `" ++
        printf_prec_s (wrap_int ((t.end_ : Int) - (t.begin : Int)))
          (l.content.drop t.begin) ++ cstr "`",
        by simp [List.append_assoc]⟩
    · exact ⟨cstr "Expected " ++ cstr "SYMBOL" ++ cstr " but got ", cstr " `" ++
        printf_prec_s (wrap_int ((t.end_ : Int) - (t.begin : Int)))
          (l.content.drop t.begin) ++ cstr "`",
        by simp [List.append_assoc, alexer_kind_name]⟩

/-- C10 amended, an instance: the `INT` token of `"12 x"` checked against
`SYMBOL` or `PUNCT`. -/
theorem alexer_expect_one_of_kinds_spec_witness :
    alexer_expect_one_of_kinds (alexer_with (cstr "12 x") [] [])
        (alexer_get_token (alexer_with (cstr "12 x") [] [])).2.1
        [ALEXER_SYMBOL, ALEXER_PUNCT] =
      (false, [{ loc := { file_path := [], row := 1, col := 1 }, level := cstr "ERROR",
                 message := cstr "Expected SYMBOL, PUNCT but got INT `12`" }]) :=
  (((alexer_expect_one_of_kinds_spec.2.1 (alexer_with (cstr "12 x") [] [])
    (alexer_get_token (alexer_with (cstr "12 x") [] [])).2.1 [ALEXER_SYMBOL, ALEXER_PUNCT]
    (by decide) (by decide)).2 (by decide)).trans (by decide))


/-! ## The punctuation and keyword validators -/

theorem alexer_expect_one_of_kinds_outcome (l : Alexer) (t : Alexer_Token)
    (kinds : List Alexer_Kind) :
    ((alexer_expect_one_of_kinds l t kinds).1 = true ∧
        (alexer_expect_one_of_kinds l t kinds).2 = [] ∧ t.kind ∈ kinds) ∨
      ((alexer_expect_one_of_kinds l t kinds).1 = false ∧ t.kind ∉ kinds ∧
        ∃ d, (alexer_expect_one_of_kinds l t kinds).2 = [d] ∧ d.level = cstr "ERROR" ∧
          d.loc = t.loc) := by
  unfold alexer_expect_one_of_kinds
  cases hf : alexer_expect_one_of_kinds_find t kinds with
  | true =>
    left
    exact ⟨by simp, by simp, (alexer_expect_one_of_kinds_find_iff t kinds).1 hf⟩
  | false =>
    right
    have hk : t.kind ∉ kinds := by
      rw [← alexer_expect_one_of_kinds_find_iff, hf]; simp
    simp only [Bool.false_eq_true, if_false]
    by_cases he : t.kind = ALEXER_END
    · rw [if_pos he]
      exact ⟨rfl, hk, _, rfl, rfl, rfl⟩
    · rw [if_neg he]
      exact ⟨rfl, hk, _, rfl, rfl, rfl⟩

theorem alexer_expect_kind_outcome (l : Alexer) (t : Alexer_Token) (k : Alexer_Kind) :
    ((alexer_expect_kind l t k).1 = true ∧ (alexer_expect_kind l t k).2 = [] ∧ t.kind = k) ∨
      ((alexer_expect_kind l t k).1 = false ∧ t.kind ≠ k ∧
        ∃ d, (alexer_expect_kind l t k).2 = [d] ∧ d.level = cstr "ERROR" ∧ d.loc = t.loc) := by
  unfold alexer_expect_kind
  rcases alexer_expect_one_of_kinds_outcome l t [k] with ⟨h1, h2, h3⟩ | ⟨h1, h2, h3⟩
  · left; exact ⟨h1, h2, by simpa using h3⟩
  · right; exact ⟨h1, by simpa using h2, h3⟩

theorem alexer_expect_one_of_puncts_find_iff (t : Alexer_Token) (ps : List Nat) :
    alexer_expect_one_of_puncts_find t ps = true ↔ t.punct_index ∈ ps := by
  induction ps with
  | nil => simp [alexer_expect_one_of_puncts_find]
  | cons p ps ih =>
    by_cases h : t.punct_index = p
    · simp [alexer_expect_one_of_puncts_find, h]
    · simp [alexer_expect_one_of_puncts_find, h, ih]

theorem alexer_expect_one_of_puncts_sb_succ (l : Alexer) (ps : List Nat)
    (h : ∀ p ∈ ps, p < l.puncts.length) : ∀ (i : Nat) (sb : List Nat),
    alexer_expect_one_of_puncts_sb l ps (i + 1) sb =
      some (sb ++ (ps.map (fun p =>
        cstr ", " ++ (cstr "`" ++ l.puncts.getD p [] ++ cstr "`"))).flatten) := by
  induction ps with
  | nil => intro i sb; simp [alexer_expect_one_of_puncts_sb]
  | cons p ps ih =>
    intro i sb
    have hp : p < l.puncts_count := h p (List.mem_cons_self _ _)
    simp only [alexer_expect_one_of_puncts_sb, Nat.succ_pos, if_true, gt_iff_lt, hp]
    rw [ih (fun q hq => h q (List.mem_cons_of_mem _ hq))]
    simp [List.append_assoc]

theorem alexer_expect_one_of_puncts_sb_eq (l : Alexer) (ps : List Nat)
    (h : ∀ p ∈ ps, p < l.puncts.length) :
    alexer_expect_one_of_puncts_sb l ps 0 [] = some (alexer_quoted_list l.puncts ps) := by
  unfold alexer_quoted_list
  cases ps with
  | nil => simp [alexer_expect_one_of_puncts_sb, List.intercalate]
  | cons p ps =>
    have hp : p < l.puncts_count := h p (List.mem_cons_self _ _)
    simp only [alexer_expect_one_of_puncts_sb, Nat.lt_irrefl, if_false, gt_iff_lt,
      List.nil_append, List.map_cons, hp, if_true]
    rw [alexer_expect_one_of_puncts_sb_succ l ps (fun q hq => h q (List.mem_cons_of_mem _ hq)),
      intercalate_cons_eq, List.map_map]
    rfl

theorem alexer_expect_one_of_puncts_sb_none (l : Alexer) (ps : List Nat)
    (h : ∃ p ∈ ps, ¬ p < l.puncts.length) : ∀ (i : Nat) (sb : List Nat),
    alexer_expect_one_of_puncts_sb l ps i sb = none := by
  induction ps with
  | nil => obtain ⟨p, hp, _⟩ := h; simp at hp
  | cons p ps ih =>
    intro i sb
    by_cases hp : p < l.puncts_count
    · simp only [alexer_expect_one_of_puncts_sb, hp, if_true]
      apply ih
      obtain ⟨q, hq1, hq2⟩ := h
      rcases List.mem_cons.mp hq1 with rfl | hq
      · exact absurd hp hq2
      · exact ⟨q, hq, hq2⟩
    · simp only [alexer_expect_one_of_puncts_sb, hp, if_false]

theorem alexer_quoted_list_no_nul (table : List (List Nat)) (h : alexer_cstrings table)
    (ps : List Nat) : ∀ c ∈ alexer_quoted_list table ps, c ≠ 0 := by
  have hq : ∀ d ∈ cstr "`", d ≠ 0 := by decide
  have hsep : ∀ d ∈ cstr ", ", d ≠ 0 := by decide
  have hget : ∀ p, ∀ c ∈ table.getD p [], c ≠ 0 := by
    intro p c hc
    by_cases hp : p < table.length
    · rw [List.getD_eq_getElem _ _ hp] at hc
      exact h _ (List.getElem_mem hp) c hc
    · rw [List.getD_eq_default _ _ (by omega)] at hc
      simp at hc
  have hone : ∀ p, ∀ c ∈ cstr "`" ++ table.getD p [] ++ cstr "`", c ≠ 0 := by
    intro p c hc
    rcases List.mem_append.mp hc with h1 | h1
    · rcases List.mem_append.mp h1 with h2 | h2
      · exact hq c h2
      · exact hget p c h2
    · exact hq c h1
  unfold alexer_quoted_list
  cases ps with
  | nil => simp [List.intercalate]
  | cons p ps =>
    rw [List.map_cons, intercalate_cons_eq]
    intro c hc
    rcases List.mem_append.mp hc with h1 | h1
    · exact hone p c h1
    · obtain ⟨x, hx1, hx2⟩ := List.mem_flatten.mp h1
      obtain ⟨y, hy1, rfl⟩ := List.mem_map.mp hx1
      obtain ⟨q, _, rfl⟩ := List.mem_map.mp hy1
      rcases List.mem_append.mp hx2 with h2 | h2
      · exact hsep c h2
      · exact hone q c h2

theorem printf_s_entry (table : List (List Nat)) (h : alexer_cstrings table) (p : Nat) :
    printf_s (table.getD p [] ++ [0]) = table.getD p [] := by
  apply printf_s_terminated
  intro c hc
  by_cases hp : p < table.length
  · rw [List.getD_eq_getElem _ _ hp] at hc
    exact h _ (List.getElem_mem hp) c hc
  · rw [List.getD_eq_default _ _ (by omega)] at hc
    simp at hc

theorem alexer_expect_one_of_puncts_nil (l : Alexer) (t : Alexer_Token) :
    alexer_expect_one_of_puncts l t [] = (none, []) := by
  simp [alexer_expect_one_of_puncts]

theorem alexer_expect_one_of_puncts_kind (l : Alexer) (t : Alexer_Token) (ps : List Nat)
    (hne : ps ≠ []) (hk : t.kind ≠ ALEXER_PUNCT) :
    alexer_expect_one_of_puncts l t ps = (some false, (alexer_expect_kind l t ALEXER_PUNCT).2) := by
  have hlen : ps.length > 0 := List.length_pos.mpr hne
  rcases alexer_expect_kind_outcome l t ALEXER_PUNCT with ⟨_, _, h3⟩ | ⟨h1, _, _⟩
  · exact absurd h3 hk
  · unfold alexer_expect_one_of_puncts
    simp only [hlen, if_true, h1]

theorem alexer_expect_one_of_puncts_found (l : Alexer) (t : Alexer_Token) (ps : List Nat)
    (hk : t.kind = ALEXER_PUNCT) (hi : t.punct_index ∈ ps) :
    alexer_expect_one_of_puncts l t ps = (some true, []) := by
  have hlen : ps.length > 0 := List.length_pos.mpr (List.ne_nil_of_mem hi)
  have hf := (alexer_expect_one_of_puncts_find_iff t ps).2 hi
  rcases alexer_expect_kind_outcome l t ALEXER_PUNCT with ⟨h1, h2, _⟩ | ⟨_, h2, _⟩
  · unfold alexer_expect_one_of_puncts
    simp only [hlen, if_true, h1, h2, hf, Bool.true_eq_false, if_false]
  · exact absurd hk h2

theorem alexer_expect_one_of_puncts_abort (l : Alexer) (t : Alexer_Token) (ps : List Nat)
    (hk : t.kind = ALEXER_PUNCT) (hi : t.punct_index ∉ ps)
    (hbad : (∃ p ∈ ps, ¬ p < l.puncts.length) ∨ ¬ t.punct_index < l.puncts.length) :
    alexer_expect_one_of_puncts l t ps = (none, []) := by
  by_cases hlen : ps.length > 0
  · have hf : alexer_expect_one_of_puncts_find t ps = false := by
      rw [← Bool.not_eq_true, alexer_expect_one_of_puncts_find_iff]; exact hi
    rcases alexer_expect_kind_outcome l t ALEXER_PUNCT with ⟨h1, h2, _⟩ | ⟨_, h2, _⟩
    · unfold alexer_expect_one_of_puncts
      simp only [hlen, if_true, h1, h2, hf, Bool.true_eq_false, if_false, Bool.false_eq_true]
      by_cases hall : ∃ p ∈ ps, ¬ p < l.puncts.length
      · rw [alexer_expect_one_of_puncts_sb_none l ps hall]
      · have hall2 : ∀ p ∈ ps, p < l.puncts.length := by
          intro p hp
          by_contra hc
          exact hall ⟨p, hp, hc⟩
        have hti : ¬ t.punct_index < l.puncts_count := by
          rcases hbad with hb | hb
          · exact absurd hb hall
          · exact hb
        rw [alexer_expect_one_of_puncts_sb_eq l ps hall2]
        simp only [hti, if_false]
    · exact absurd hk h2
  · simp [alexer_expect_one_of_puncts, hlen]

theorem alexer_expect_one_of_puncts_mismatch (l : Alexer) (t : Alexer_Token) (ps : List Nat)
    (hne : ps ≠ []) (hall : ∀ p ∈ ps, p < l.puncts.length)
    (hti : t.punct_index < l.puncts.length) (hc : alexer_cstrings l.puncts)
    (hk : t.kind = ALEXER_PUNCT) (hi : t.punct_index ∉ ps) :
    alexer_expect_one_of_puncts l t ps =
      (some false, [{
        loc := t.loc, level := cstr "ERROR",
        message := cstr "Expected " ++ alexer_quoted_list l.puncts ps ++ cstr " but got `" ++
          l.puncts.getD t.punct_index [] ++ cstr "`" }]) := by
  have hlen : ps.length > 0 := List.length_pos.mpr hne
  have hf : alexer_expect_one_of_puncts_find t ps = false := by
    rw [← Bool.not_eq_true, alexer_expect_one_of_puncts_find_iff]; exact hi
  have hti2 : t.punct_index < l.puncts_count := hti
  rcases alexer_expect_kind_outcome l t ALEXER_PUNCT with ⟨h1, h2, _⟩ | ⟨_, h2, _⟩
  · unfold alexer_expect_one_of_puncts
    simp only [hlen, if_true, h1, h2, hf, Bool.true_eq_false, if_false, Bool.false_eq_true]
    rw [alexer_expect_one_of_puncts_sb_eq l ps hall]
    simp only [hti2, if_true, List.nil_append]
    rw [printf_s_terminated _ (alexer_quoted_list_no_nul l.puncts hc ps),
      printf_s_entry l.puncts hc]
  · exact absurd hk h2


theorem alexer_expect_one_of_keywords_find_iff (t : Alexer_Token) (ps : List Nat) :
    alexer_expect_one_of_keywords_find t ps = true ↔ t.keyword_index ∈ ps := by
  induction ps with
  | nil => simp [alexer_expect_one_of_keywords_find]
  | cons p ps ih =>
    by_cases h : t.keyword_index = p
    · simp [alexer_expect_one_of_keywords_find, h]
    · simp [alexer_expect_one_of_keywords_find, h, ih]

theorem alexer_expect_one_of_keywords_sb_succ (l : Alexer) (ps : List Nat)
    (h : ∀ p ∈ ps, p < l.keywords.length) : ∀ (i : Nat) (sb : List Nat),
    alexer_expect_one_of_keywords_sb l ps (i + 1) sb =
      some (sb ++ (ps.map (fun p =>
        cstr ", " ++ (cstr "`" ++ l.keywords.getD p [] ++ cstr "`"))).flatten) := by
  induction ps with
  | nil => intro i sb; simp [alexer_expect_one_of_keywords_sb]
  | cons p ps ih =>
    intro i sb
    have hp : p < l.keywords_count := h p (List.mem_cons_self _ _)
    simp only [alexer_expect_one_of_keywords_sb, Nat.succ_pos, if_true, gt_iff_lt, hp]
    rw [ih (fun q hq => h q (List.mem_cons_of_mem _ hq))]
    simp [List.append_assoc]

theorem alexer_expect_one_of_keywords_sb_eq (l : Alexer) (ps : List Nat)
    (h : ∀ p ∈ ps, p < l.keywords.length) :
    alexer_expect_one_of_keywords_sb l ps 0 [] = some (alexer_quoted_list l.keywords ps) := by
  unfold alexer_quoted_list
  cases ps with
  | nil => simp [alexer_expect_one_of_keywords_sb, List.intercalate]
  | cons p ps =>
    have hp : p < l.keywords_count := h p (List.mem_cons_self _ _)
    simp only [alexer_expect_one_of_keywords_sb, Nat.lt_irrefl, if_false, gt_iff_lt,
      List.nil_append, List.map_cons, hp, if_true]
    rw [alexer_expect_one_of_keywords_sb_succ l ps (fun q hq => h q (List.mem_cons_of_mem _ hq)),
      intercalate_cons_eq, List.map_map]
    rfl

theorem alexer_expect_one_of_keywords_sb_none (l : Alexer) (ps : List Nat)
    (h : ∃ p ∈ ps, ¬ p < l.keywords.length) : ∀ (i : Nat) (sb : List Nat),
    alexer_expect_one_of_keywords_sb l ps i sb = none := by
  induction ps with
  | nil => obtain ⟨p, hp, _⟩ := h; simp at hp
  | cons p ps ih =>
    intro i sb
    by_cases hp : p < l.keywords_count
    · simp only [alexer_expect_one_of_keywords_sb, hp, if_true]
      apply ih
      obtain ⟨q, hq1, hq2⟩ := h
      rcases List.mem_cons.mp hq1 with rfl | hq
      · exact absurd hp hq2
      · exact ⟨q, hq, hq2⟩
    · simp only [alexer_expect_one_of_keywords_sb, hp, if_false]

theorem alexer_expect_one_of_keywords_kind (l : Alexer) (t : Alexer_Token) (ps : List Nat)
    (hne : ps ≠ []) (hk : t.kind ≠ ALEXER_KEYWORD) :
    alexer_expect_one_of_keywords l t ps = (some false, (alexer_expect_kind l t ALEXER_KEYWORD).2) := by
  have hlen : ps.length > 0 := List.length_pos.mpr hne
  rcases alexer_expect_kind_outcome l t ALEXER_KEYWORD with ⟨_, _, h3⟩ | ⟨h1, _, _⟩
  · exact absurd h3 hk
  · unfold alexer_expect_one_of_keywords
    simp only [hlen, if_true, h1]

theorem alexer_expect_one_of_keywords_found (l : Alexer) (t : Alexer_Token) (ps : List Nat)
    (hk : t.kind = ALEXER_KEYWORD) (hi : t.keyword_index ∈ ps) :
    alexer_expect_one_of_keywords l t ps = (some true, []) := by
  have hlen : ps.length > 0 := List.length_pos.mpr (List.ne_nil_of_mem hi)
  have hf := (alexer_expect_one_of_keywords_find_iff t ps).2 hi
  rcases alexer_expect_kind_outcome l t ALEXER_KEYWORD with ⟨h1, h2, _⟩ | ⟨_, h2, _⟩
  · unfold alexer_expect_one_of_keywords
    simp only [hlen, if_true, h1, h2, hf, Bool.true_eq_false, if_false]
  · exact absurd hk h2

theorem alexer_expect_one_of_keywords_abort (l : Alexer) (t : Alexer_Token) (ps : List Nat)
    (hk : t.kind = ALEXER_KEYWORD) (hi : t.keyword_index ∉ ps)
    (hbad : (∃ p ∈ ps, ¬ p < l.keywords.length) ∨ ¬ t.keyword_index < l.keywords.length) :
    alexer_expect_one_of_keywords l t ps = (none, []) := by
  by_cases hlen : ps.length > 0
  · have hf : alexer_expect_one_of_keywords_find t ps = false := by
      rw [← Bool.not_eq_true, alexer_expect_one_of_keywords_find_iff]; exact hi
    rcases alexer_expect_kind_outcome l t ALEXER_KEYWORD with ⟨h1, h2, _⟩ | ⟨_, h2, _⟩
    · unfold alexer_expect_one_of_keywords
      simp only [hlen, if_true, h1, h2, hf, Bool.true_eq_false, if_false, Bool.false_eq_true]
      by_cases hall : ∃ p ∈ ps, ¬ p < l.keywords.length
      · rw [alexer_expect_one_of_keywords_sb_none l ps hall]
      · have hall2 : ∀ p ∈ ps, p < l.keywords.length := by
          intro p hp
          by_contra hc
          exact hall ⟨p, hp, hc⟩
        have hti : ¬ t.keyword_index < l.keywords_count := by
          rcases hbad with hb | hb
          · exact absurd hb hall
          · exact hb
        rw [alexer_expect_one_of_keywords_sb_eq l ps hall2]
        simp only [hti, if_false]
    · exact absurd hk h2
  · simp [alexer_expect_one_of_keywords, hlen]

theorem alexer_expect_one_of_keywords_mismatch (l : Alexer) (t : Alexer_Token) (ks : List Nat)
    (hne : ks ≠ []) (hall : ∀ k ∈ ks, k < l.keywords.length)
    (hti : t.keyword_index < l.keywords.length) (hc : alexer_cstrings l.keywords)
    (hk : t.kind = ALEXER_KEYWORD) (hi : t.keyword_index ∉ ks) :
    alexer_expect_one_of_keywords l t ks =
      (some false, [{
        loc := t.loc, level := cstr "ERROR",
        message := (if ks.length = 1 then cstr "Expected keyword " else cstr "Expected keywords ")
          ++ alexer_quoted_list l.keywords ks ++ cstr " but got keyword `" ++
          l.keywords.getD t.keyword_index [] ++ cstr "`" }]) := by
  have hlen : ks.length > 0 := List.length_pos.mpr hne
  have hf : alexer_expect_one_of_keywords_find t ks = false := by
    rw [← Bool.not_eq_true, alexer_expect_one_of_keywords_find_iff]; exact hi
  have hti2 : t.keyword_index < l.keywords_count := hti
  rcases alexer_expect_kind_outcome l t ALEXER_KEYWORD with ⟨h1, h2, _⟩ | ⟨_, h2, _⟩
  · unfold alexer_expect_one_of_keywords
    simp only [hlen, if_true, h1, h2, hf, Bool.true_eq_false, if_false, Bool.false_eq_true]
    rw [alexer_expect_one_of_keywords_sb_eq l ks hall]
    simp only [hti2, if_true, List.nil_append]
    rw [printf_s_terminated _ (alexer_quoted_list_no_nul l.keywords hc ks),
      printf_s_entry l.keywords hc]
    by_cases h1 : ks.length = 1
    · simp only [h1, if_true]
    · simp only [h1, if_false]
  · exact absurd hk h2

theorem alexer_expect_one_of_keywords_nil (l : Alexer) (t : Alexer_Token) :
    alexer_expect_one_of_keywords l t [] = (none, []) := by
  simp [alexer_expect_one_of_keywords]

theorem alexer_expect_one_of_puncts_once (l : Alexer) (t : Alexer_Token) (ps : List Nat)
    (hne : ps ≠ []) (hall : ∀ p ∈ ps, p < l.puncts.length)
    (hti : t.punct_index < l.puncts.length) :
    alexer_reports_once t (alexer_expect_one_of_puncts l t ps) := by
  have hlen : ps.length > 0 := List.length_pos.mpr hne
  have hti2 : t.punct_index < l.puncts_count := hti
  rcases alexer_expect_kind_outcome l t ALEXER_PUNCT with ⟨h1, h2, h3⟩ | ⟨h1, h2, h3⟩
  · by_cases hi : t.punct_index ∈ ps
    · rw [alexer_expect_one_of_puncts_found l t ps h3 hi]
      exact Or.inl ⟨rfl, rfl⟩
    · have hf : alexer_expect_one_of_puncts_find t ps = false := by
        rw [← Bool.not_eq_true, alexer_expect_one_of_puncts_find_iff]; exact hi
      right
      unfold alexer_expect_one_of_puncts
      simp only [hlen, if_true, h1, h2, hf, Bool.true_eq_false, if_false, Bool.false_eq_true]
      rw [alexer_expect_one_of_puncts_sb_eq l ps hall]
      simp only [hti2, if_true, List.nil_append]
      exact ⟨trivial, _, rfl, rfl, rfl⟩
  · rw [alexer_expect_one_of_puncts_kind l t ps hne h2]
    exact Or.inr ⟨rfl, h3⟩

theorem alexer_expect_one_of_keywords_once (l : Alexer) (t : Alexer_Token) (ks : List Nat)
    (hne : ks ≠ []) (hall : ∀ k ∈ ks, k < l.keywords.length)
    (hti : t.keyword_index < l.keywords.length) :
    alexer_reports_once t (alexer_expect_one_of_keywords l t ks) := by
  have hlen : ks.length > 0 := List.length_pos.mpr hne
  have hti2 : t.keyword_index < l.keywords_count := hti
  rcases alexer_expect_kind_outcome l t ALEXER_KEYWORD with ⟨h1, h2, h3⟩ | ⟨h1, h2, h3⟩
  · by_cases hi : t.keyword_index ∈ ks
    · rw [alexer_expect_one_of_keywords_found l t ks h3 hi]
      exact Or.inl ⟨rfl, rfl⟩
    · have hf : alexer_expect_one_of_keywords_find t ks = false := by
        rw [← Bool.not_eq_true, alexer_expect_one_of_keywords_find_iff]; exact hi
      right
      unfold alexer_expect_one_of_keywords
      simp only [hlen, if_true, h1, h2, hf, Bool.true_eq_false, if_false, Bool.false_eq_true]
      rw [alexer_expect_one_of_keywords_sb_eq l ks hall]
      simp only [hti2, if_true, List.nil_append]
      by_cases hone : ks.length = 1
      · simp only [hone, if_true]
        exact ⟨trivial, _, rfl, rfl, rfl⟩
      · simp only [hone, if_false]
        exact ⟨trivial, _, rfl, rfl, rfl⟩
  · rw [alexer_expect_one_of_keywords_kind l t ks hne h2]
    exact Or.inr ⟨rfl, h3⟩

theorem alexer_expect_one_of_puncts_true_iff (l : Alexer) (t : Alexer_Token) (ps : List Nat) :
    (alexer_expect_one_of_puncts l t ps).1 = some true ↔
      t.kind = ALEXER_PUNCT ∧ t.punct_index ∈ ps := by
  constructor
  · intro h
    by_cases hne : ps = []
    · rw [hne, alexer_expect_one_of_puncts_nil] at h
      exact absurd h (by simp)
    · by_cases hk : t.kind = ALEXER_PUNCT
      · refine ⟨hk, ?_⟩
        by_contra hi
        have hlen : ps.length > 0 := List.length_pos.mpr hne
        have hf : alexer_expect_one_of_puncts_find t ps = false := by
          rw [← Bool.not_eq_true, alexer_expect_one_of_puncts_find_iff]; exact hi
        rcases alexer_expect_kind_outcome l t ALEXER_PUNCT with ⟨h1, h2, _⟩ | ⟨_, h2, _⟩
        · unfold alexer_expect_one_of_puncts at h
          simp only [hlen, if_true, h1, h2, hf, Bool.true_eq_false, if_false,
            Bool.false_eq_true] at h
          split at h
          · exact absurd h (by simp)
          · split at h <;> exact absurd h (by simp)
        · exact absurd hk h2
      · rw [alexer_expect_one_of_puncts_kind l t ps hne hk] at h
        exact absurd h (by simp)
  · rintro ⟨hk, hi⟩
    rw [alexer_expect_one_of_puncts_found l t ps hk hi]

theorem alexer_expect_one_of_keywords_true_iff (l : Alexer) (t : Alexer_Token) (ks : List Nat) :
    (alexer_expect_one_of_keywords l t ks).1 = some true ↔
      t.kind = ALEXER_KEYWORD ∧ t.keyword_index ∈ ks := by
  constructor
  · intro h
    by_cases hne : ks = []
    · rw [hne, alexer_expect_one_of_keywords_nil] at h
      exact absurd h (by simp)
    · by_cases hk : t.kind = ALEXER_KEYWORD
      · refine ⟨hk, ?_⟩
        by_contra hi
        have hlen : ks.length > 0 := List.length_pos.mpr hne
        have hf : alexer_expect_one_of_keywords_find t ks = false := by
          rw [← Bool.not_eq_true, alexer_expect_one_of_keywords_find_iff]; exact hi
        rcases alexer_expect_kind_outcome l t ALEXER_KEYWORD with ⟨h1, h2, _⟩ | ⟨_, h2, _⟩
        · unfold alexer_expect_one_of_keywords at h
          simp only [hlen, if_true, h1, h2, hf, Bool.true_eq_false, if_false,
            Bool.false_eq_true] at h
          split at h
          · exact absurd h (by simp)
          · split at h
            · split at h <;> exact absurd h (by simp)
            · exact absurd h (by simp)
        · exact absurd hk h2
      · rw [alexer_expect_one_of_keywords_kind l t ks hne hk] at h
        exact absurd h (by simp)
  · rintro ⟨hk, hi⟩
    rw [alexer_expect_one_of_keywords_found l t ks hk hi]

theorem alexer_keyword_singular_not_plural (rest : List Nat) :
    ¬ (cstr "Expected keywords " <+: cstr "Expected keyword " ++ rest) := by
  have h1 : cstr "Expected keywords " =
      [69, 120, 112, 101, 99, 116, 101, 100, 32, 107, 101, 121, 119, 111, 114, 100, 115, 32] := by
    decide
  have h2 : cstr "Expected keyword " =
      [69, 120, 112, 101, 99, 116, 101, 100, 32, 107, 101, 121, 119, 111, 114, 100, 32] := by
    decide
  rw [h1, h2]
  simp [List.cons_prefix_cons]

theorem alexer_keyword_plural_not_singular (rest : List Nat) :
    ¬ (cstr "Expected keyword " <+: cstr "Expected keywords " ++ rest) := by
  have h1 : cstr "Expected keywords " =
      [69, 120, 112, 101, 99, 116, 101, 100, 32, 107, 101, 121, 119, 111, 114, 100, 115, 32] := by
    decide
  have h2 : cstr "Expected keyword " =
      [69, 120, 112, 101, 99, 116, 101, 100, 32, 107, 101, 121, 119, 111, 114, 100, 32] := by
    decide
  rw [h1, h2]
  simp [List.cons_prefix_cons]

/-- C11, one diagnostic per failed expectation: each of the six validators,
called with a non-empty list of indices that all lie in the table and a token
whose index lies in the table (no such condition for the kind validators),
returns true without a call of the sink or returns false after exactly one
call, at level `ERROR` and at location `t.loc`. The validators read the engine
and return none: no field of it is assigned. -/
theorem alexer_one_diagnostic_per_failure :
    (∀ (l : Alexer) (t : Alexer_Token) (kinds : List Alexer_Kind),
      alexer_reports_once t
        (some (alexer_expect_one_of_kinds l t kinds).1, (alexer_expect_one_of_kinds l t kinds).2)) ∧
    (∀ (l : Alexer) (t : Alexer_Token) (k : Alexer_Kind),
      alexer_reports_once t (some (alexer_expect_kind l t k).1, (alexer_expect_kind l t k).2)) ∧
    (∀ (l : Alexer) (t : Alexer_Token) (ps : List Nat), ps ≠ [] →
      (∀ p ∈ ps, p < l.puncts.length) → t.punct_index < l.puncts.length →
      alexer_reports_once t (alexer_expect_one_of_puncts l t ps)) ∧
    (∀ (l : Alexer) (t : Alexer_Token) (p : Nat),
      p < l.puncts.length → t.punct_index < l.puncts.length →
      alexer_reports_once t (alexer_expect_punct l t p)) ∧
    (∀ (l : Alexer) (t : Alexer_Token) (ks : List Nat), ks ≠ [] →
      (∀ k ∈ ks, k < l.keywords.length) → t.keyword_index < l.keywords.length →
      alexer_reports_once t (alexer_expect_one_of_keywords l t ks)) ∧
    (∀ (l : Alexer) (t : Alexer_Token) (k : Nat),
      k < l.keywords.length → t.keyword_index < l.keywords.length →
      alexer_reports_once t (alexer_expect_keyword l t k)) := by
  refine ⟨?_, ?_, ?_, ?_, ?_, ?_⟩
  · intro l t kinds
    rcases alexer_expect_one_of_kinds_outcome l t kinds with ⟨h1, h2, _⟩ | ⟨h1, _, h3⟩
    · exact Or.inl ⟨by rw [h1], h2⟩
    · exact Or.inr ⟨by rw [h1], h3⟩
  · intro l t k
    rcases alexer_expect_kind_outcome l t k with ⟨h1, h2, _⟩ | ⟨h1, _, h3⟩
    · exact Or.inl ⟨by rw [h1], h2⟩
    · exact Or.inr ⟨by rw [h1], h3⟩
  · exact alexer_expect_one_of_puncts_once
  · intro l t p hp hti
    exact alexer_expect_one_of_puncts_once l t [p] (by simp) (by simpa using hp) hti
  · exact alexer_expect_one_of_keywords_once
  · intro l t k hk hti
    exact alexer_expect_one_of_keywords_once l t [k] (by simp) (by simpa using hk) hti

/-- C11, an instance: the keyword token of `"if + x"` checked against the two
punctuation indices gives one `ERROR` diagnostic at the token. -/
theorem alexer_one_diagnostic_per_failure_witness :
    alexer_reports_once
      (alexer_get_token
        (alexer_with (cstr "if + x") [cstr "+", cstr "-"] [cstr "if", cstr "else"])).2.1
      (alexer_expect_one_of_puncts
        (alexer_with (cstr "if + x") [cstr "+", cstr "-"] [cstr "if", cstr "else"])
        (alexer_get_token
          (alexer_with (cstr "if + x") [cstr "+", cstr "-"] [cstr "if", cstr "else"])).2.1
        [1, 0]) :=
  alexer_one_diagnostic_per_failure.2.2.1
    (alexer_with (cstr "if + x") [cstr "+", cstr "-"] [cstr "if", cstr "else"])
    (alexer_get_token
      (alexer_with (cstr "if + x") [cstr "+", cstr "-"] [cstr "if", cstr "else"])).2.1
    [1, 0] (by decide) (by decide) (by decide)

/-- C12 as stated fails: with the one-entry table `["+"]`, a `PUNCT` token
whose `punct_index` is 5 and the expected list `[0]`, non-empty and within the
table, the call fails by the assertion `t.punct_index < l->puncts_count`: it
returns nothing and emits no message. -/
theorem alexer_expect_one_of_puncts_counterexample :
    [0] ≠ ([] : List Nat) ∧
    (∀ p ∈ [0], p < (alexer_with (cstr "+") [cstr "+"] []).puncts.length) ∧
    (5 : Nat) ∉ [0] ∧
    alexer_expect_one_of_puncts (alexer_with (cstr "+") [cstr "+"] [])
      { kind := ALEXER_PUNCT, loc := { file_path := [], row := 1, col := 1 },
        begin := 0, end_ := 1, int_value := 0, punct_index := 5, keyword_index := 0 }
      [0] = (none, []) := by
  decide

/-- C12 amended: `alexer_expect_one_of_puncts` returns true exactly when
`t.kind` is `PUNCT` and `t.punct_index` is in the list. For a non-empty list:
when `t.kind` is not `PUNCT` it returns false with the diagnostic of
`alexer_expect_kind(l, t, PUNCT)`; when `t.kind` is `PUNCT`, the index is not
in the list, the listed indices and `t.punct_index` are within the table (of C
strings), it returns false with the message
``Expected <list> but got `<actual>` ``, the list being the table texts of the
indices between backticks joined by `", "` and the actual text
`puncts[t.punct_index]`; when `t.punct_index` is not within the table it
fails by assertion instead. `alexer_expect_punct` is the call with the
singleton list. -/
theorem alexer_expect_one_of_puncts_spec :
    (∀ (l : Alexer) (t : Alexer_Token) (ps : List Nat),
      (alexer_expect_one_of_puncts l t ps).1 = some true ↔
        t.kind = ALEXER_PUNCT ∧ t.punct_index ∈ ps) ∧
    (∀ (l : Alexer) (t : Alexer_Token) (ps : List Nat), ps ≠ [] → t.kind ≠ ALEXER_PUNCT →
      (alexer_expect_kind l t ALEXER_PUNCT).1 = false ∧
      alexer_expect_one_of_puncts l t ps =
        (some false, (alexer_expect_kind l t ALEXER_PUNCT).2)) ∧
    (∀ (l : Alexer) (t : Alexer_Token) (ps : List Nat), ps ≠ [] →
      (∀ p ∈ ps, p < l.puncts.length) → alexer_cstrings l.puncts →
      t.kind = ALEXER_PUNCT → t.punct_index ∉ ps → t.punct_index < l.puncts.length →
      alexer_expect_one_of_puncts l t ps =
        (some false, [{
          loc := t.loc, level := cstr "ERROR",
          message := cstr "Expected " ++ alexer_quoted_list l.puncts ps ++
            cstr " but got `" ++ l.puncts.getD t.punct_index [] ++ cstr "`" }])) ∧
    (∀ (l : Alexer) (t : Alexer_Token) (ps : List Nat),
      t.kind = ALEXER_PUNCT → t.punct_index ∉ ps → ¬ t.punct_index < l.puncts.length →
      alexer_expect_one_of_puncts l t ps = (none, [])) ∧
    (∀ (l : Alexer) (t : Alexer_Token) (p : Nat),
      alexer_expect_punct l t p = alexer_expect_one_of_puncts l t [p]) := by
  refine ⟨alexer_expect_one_of_puncts_true_iff, ?_, ?_, ?_, fun _ _ _ => rfl⟩
  · intro l t ps hne hk
    refine ⟨?_, alexer_expect_one_of_puncts_kind l t ps hne hk⟩
    rcases alexer_expect_kind_outcome l t ALEXER_PUNCT with ⟨_, _, h3⟩ | ⟨h1, _, _⟩
    · exact absurd h3 hk
    · exact h1
  · intro l t ps hne hall hc hk hi hti
    exact alexer_expect_one_of_puncts_mismatch l t ps hne hall hti hc hk hi
  · intro l t ps hk hi hti
    exact alexer_expect_one_of_puncts_abort l t ps hk hi (Or.inr hti)

/-- C12 amended, an instance: the `+` of `"if + x"` checked against the
indices of `-` and `*`. -/
theorem alexer_expect_one_of_puncts_spec_witness :
    alexer_expect_one_of_puncts
        (alexer_with (cstr "if + x") [cstr "+", cstr "-", cstr "*"] [cstr "if"])
        (alexer_get_token (alexer_after_calls 1
          (alexer_with (cstr "if + x") [cstr "+", cstr "-", cstr "*"] [cstr "if"]))).2.1
        [1, 2] =
      (some false, [{
        loc := { file_path := [], row := 1, col := 4 }, level := cstr "ERROR",
        message := cstr "Expected `-`, `*` but got `+`" }]) :=
  (alexer_expect_one_of_puncts_spec.2.2.1
    (alexer_with (cstr "if + x") [cstr "+", cstr "-", cstr "*"] [cstr "if"])
    (alexer_get_token (alexer_after_calls 1
      (alexer_with (cstr "if + x") [cstr "+", cstr "-", cstr "*"] [cstr "if"]))).2.1
    [1, 2] (by decide) (by decide) (by decide) (by decide) (by decide) (by decide)).trans
    (by decide)

/-- C13 as stated fails: with the one-entry table `["if"]`, a `KEYWORD` token
whose `keyword_index` is 3 and the expected list `[0]`, non-empty and within
the table, the call fails by the assertion
`t.keyword_index < l->keywords_count`: it returns nothing and emits no
message. -/
theorem alexer_expect_one_of_keywords_counterexample :
    [0] ≠ ([] : List Nat) ∧
    (∀ k ∈ [0], k < (alexer_with (cstr "if") [] [cstr "if"]).keywords.length) ∧
    (3 : Nat) ∉ [0] ∧
    alexer_expect_one_of_keywords (alexer_with (cstr "if") [] [cstr "if"])
      { kind := ALEXER_KEYWORD, loc := { file_path := [], row := 1, col := 1 },
        begin := 0, end_ := 2, int_value := 0, punct_index := 0, keyword_index := 3 }
      [0] = (none, []) := by
  decide

/-- C13 amended: `alexer_expect_one_of_keywords` returns true exactly when
`t.kind` is `KEYWORD` and `t.keyword_index` is in the list. When `t.kind` is
`KEYWORD`, the index is not in the non-empty list, and the listed indices and
`t.keyword_index` are within the table (of C strings), it returns false with
one diagnostic whose message is `Expected keyword ` for one expected index and
`Expected keywords ` for more, then the keyword texts of the indices between
backticks joined by `", "`, then `` but got keyword `<actual>` `` with the
text `keywords[t.keyword_index]`; the message begins with the singular form
exactly when `n = 1` and with the plural form exactly when `n > 1`. When
`t.keyword_index` is not within the table the call fails by assertion
instead. `alexer_expect_keyword` is the call with the singleton list. -/
theorem alexer_expect_one_of_keywords_spec :
    (∀ (l : Alexer) (t : Alexer_Token) (ks : List Nat),
      (alexer_expect_one_of_keywords l t ks).1 = some true ↔
        t.kind = ALEXER_KEYWORD ∧ t.keyword_index ∈ ks) ∧
    (∀ (l : Alexer) (t : Alexer_Token) (ks : List Nat), ks ≠ [] →
      (∀ k ∈ ks, k < l.keywords.length) → alexer_cstrings l.keywords →
      t.kind = ALEXER_KEYWORD → t.keyword_index ∉ ks → t.keyword_index < l.keywords.length →
      ∃ d, alexer_expect_one_of_keywords l t ks = (some false, [d]) ∧
        d.loc = t.loc ∧ d.level = cstr "ERROR" ∧
        d.message =
          (if ks.length = 1 then cstr "Expected keyword " else cstr "Expected keywords ") ++
            alexer_quoted_list l.keywords ks ++ cstr " but got keyword `" ++
            l.keywords.getD t.keyword_index [] ++ cstr "`" ∧
        (cstr "Expected keyword " <+: d.message ↔ ks.length = 1) ∧
        (cstr "Expected keywords " <+: d.message ↔ ks.length > 1)) ∧
    (∀ (l : Alexer) (t : Alexer_Token) (ks : List Nat),
      t.kind = ALEXER_KEYWORD → t.keyword_index ∉ ks →
      ¬ t.keyword_index < l.keywords.length →
      alexer_expect_one_of_keywords l t ks = (none, [])) ∧
    (∀ (l : Alexer) (t : Alexer_Token) (k : Nat),
      alexer_expect_keyword l t k = alexer_expect_one_of_keywords l t [k]) := by
  refine ⟨alexer_expect_one_of_keywords_true_iff, ?_, ?_, fun _ _ _ => rfl⟩
  · intro l t ks hne hall hc hk hi hti
    refine ⟨_, alexer_expect_one_of_keywords_mismatch l t ks hne hall hti hc hk hi,
      rfl, rfl, rfl, ?_, ?_⟩
    · by_cases h1 : ks.length = 1
      · simp only [h1, if_true, iff_true, List.append_assoc]
        exact List.prefix_append _ _
      · simp only [h1, if_false, iff_false, List.append_assoc]
        exact alexer_keyword_plural_not_singular _
    · have hlen : ks.length > 0 := List.length_pos.mpr hne
      by_cases h1 : ks.length = 1
      · have h2 : ¬ ks.length > 1 := by omega
        simp only [h1, if_true, List.append_assoc]
        constructor
        · intro h; exact absurd h (alexer_keyword_singular_not_plural _)
        · intro h; omega
      · have h2 : ks.length > 1 := by omega
        simp only [h1, if_false, h2, iff_true, List.append_assoc]
        exact List.prefix_append _ _
  · intro l t ks hk hi hti
    exact alexer_expect_one_of_keywords_abort l t ks hk hi (Or.inr hti)

/-- C13 amended, an instance: the keyword `if` of `"if + x"` checked against
the index of `else`. -/
theorem alexer_expect_one_of_keywords_spec_witness :
    ∃ d, alexer_expect_one_of_keywords
        (alexer_with (cstr "if + x") [cstr "+"] [cstr "if", cstr "else"])
        (alexer_get_token
          (alexer_with (cstr "if + x") [cstr "+"] [cstr "if", cstr "else"])).2.1
        [1] = (some false, [d]) ∧
      d.message = cstr "Expected keyword `else` but got keyword `if`" :=
  have h := alexer_expect_one_of_keywords_spec.2.1
    (alexer_with (cstr "if + x") [cstr "+"] [cstr "if", cstr "else"])
    (alexer_get_token
      (alexer_with (cstr "if + x") [cstr "+"] [cstr "if", cstr "else"])).2.1
    [1] (by decide) (by decide) (by decide) (by decide) (by decide) (by decide)
  h.elim fun d hd => ⟨d, hd.1, hd.2.2.2.1.trans (by decide)⟩

/-- C14 as stated fails: on `"1+"` with the one-entry table `["+"]` and the
expected list `[0, 7]`, which holds the index 7 outside the table, the `INT`
token `1` makes the call return false after one call of the sink, and the
`PUNCT` token `+` of index 0 makes it return true; neither call fails by
assertion. -/
theorem alexer_expect_assert_counterexample :
    (∃ p ∈ [0, 7], ¬ p < (alexer_with (cstr "1+") [cstr "+"] []).puncts.length) ∧
    alexer_expect_one_of_puncts (alexer_with (cstr "1+") [cstr "+"] [])
      (alexer_get_token (alexer_with (cstr "1+") [cstr "+"] [])).2.1 [0, 7] =
      (some false, [{
        loc := { file_path := [], row := 1, col := 1 }, level := cstr "ERROR",
        message := cstr "Expected PUNCT but got INT `1`" }]) ∧
    alexer_expect_one_of_puncts (alexer_with (cstr "1+") [cstr "+"] [])
      (alexer_get_token (alexer_after_calls 1 (alexer_with (cstr "1+") [cstr "+"] []))).2.1
      [0, 7] = (some true, []) := by
  decide

/-- C14 amended: a call of `alexer_expect_one_of_puncts` or
`alexer_expect_one_of_keywords` with an empty list fails by assertion without
a call of the sink, for every token. A call whose list holds an index outside
the table fails by assertion without a call of the sink when the kind of the
token is the expected one and its index is not in the list; when the kind
differs the call returns false with the diagnostic of `alexer_expect_kind`,
and when the index of the token is in the list it returns true, the indices
unchecked. -/
theorem alexer_expect_assert :
    (∀ (l : Alexer) (t : Alexer_Token), alexer_expect_one_of_puncts l t [] = (none, [])) ∧
    (∀ (l : Alexer) (t : Alexer_Token), alexer_expect_one_of_keywords l t [] = (none, [])) ∧
    (∀ (l : Alexer) (t : Alexer_Token) (ps : List Nat),
      (∃ p ∈ ps, ¬ p < l.puncts.length) →
      (t.kind = ALEXER_PUNCT → t.punct_index ∉ ps →
        alexer_expect_one_of_puncts l t ps = (none, [])) ∧
      (t.kind ≠ ALEXER_PUNCT →
        alexer_expect_one_of_puncts l t ps =
          (some false, (alexer_expect_kind l t ALEXER_PUNCT).2)) ∧
      (t.kind = ALEXER_PUNCT → t.punct_index ∈ ps →
        alexer_expect_one_of_puncts l t ps = (some true, []))) ∧
    (∀ (l : Alexer) (t : Alexer_Token) (ks : List Nat),
      (∃ k ∈ ks, ¬ k < l.keywords.length) →
      (t.kind = ALEXER_KEYWORD → t.keyword_index ∉ ks →
        alexer_expect_one_of_keywords l t ks = (none, [])) ∧
      (t.kind ≠ ALEXER_KEYWORD →
        alexer_expect_one_of_keywords l t ks =
          (some false, (alexer_expect_kind l t ALEXER_KEYWORD).2)) ∧
      (t.kind = ALEXER_KEYWORD → t.keyword_index ∈ ks →
        alexer_expect_one_of_keywords l t ks = (some true, []))) := by
  refine ⟨alexer_expect_one_of_puncts_nil, alexer_expect_one_of_keywords_nil, ?_, ?_⟩
  · intro l t ps hbad
    have hne : ps ≠ [] := by
      obtain ⟨p, hp, _⟩ := hbad
      exact List.ne_nil_of_mem hp
    exact ⟨fun hk hi => alexer_expect_one_of_puncts_abort l t ps hk hi (Or.inl hbad),
      fun hk => alexer_expect_one_of_puncts_kind l t ps hne hk,
      fun hk hi => alexer_expect_one_of_puncts_found l t ps hk hi⟩
  · intro l t ks hbad
    have hne : ks ≠ [] := by
      obtain ⟨k, hk, _⟩ := hbad
      exact List.ne_nil_of_mem hk
    exact ⟨fun hk hi => alexer_expect_one_of_keywords_abort l t ks hk hi (Or.inl hbad),
      fun hk => alexer_expect_one_of_keywords_kind l t ks hne hk,
      fun hk hi => alexer_expect_one_of_keywords_found l t ks hk hi⟩

/-- C14 amended, an instance: the `+` of `"+"` checked against the list `[7]`
on a one-entry table. -/
theorem alexer_expect_assert_witness :
    alexer_expect_one_of_puncts (alexer_with (cstr "+") [cstr "+"] [])
      (alexer_get_token (alexer_with (cstr "+") [cstr "+"] [])).2.1 [7] = (none, []) :=
  (alexer_expect_assert.2.2.1 (alexer_with (cstr "+") [cstr "+"] [])
    (alexer_get_token (alexer_with (cstr "+") [cstr "+"] [])).2.1 [7]
    ⟨7, by decide, by decide⟩).1 (by decide) (by decide)

/-! ## Every scanning operation is a sequence of `alexer_chop_char` -/

theorem alexer_chop_chars_at_end (l : Alexer) (h : ¬ l.cur < l.size) :
    ∀ n, alexer_chop_chars l n = l := by
  intro n
  cases n with
  | zero => rfl
  | succ n => simp [alexer_chop_chars, alexer_chop_char_ge l h]

theorem alexer_chop_chars_succ (l : Alexer) (n : Nat) :
    alexer_chop_chars l (n + 1) = alexer_chop_chars (alexer_chop_char l).2 n := by
  by_cases h : l.cur < l.size
  · simp [alexer_chop_chars, (alexer_chop_char_lt l h).1]
  · rw [alexer_chop_chars_at_end l h, alexer_chop_char_ge l h, alexer_chop_chars_at_end l h]

theorem alexer_chop_chars_add (m : Nat) : ∀ (l : Alexer) (n : Nat),
    alexer_chop_chars (alexer_chop_chars l m) n = alexer_chop_chars l (m + n) := by
  induction m with
  | zero => intro l n; simp [alexer_chop_chars]
  | succ m ih =>
    intro l n
    rw [alexer_chop_chars_succ, ih, show m + 1 + n = (m + n) + 1 by omega,
      alexer_chop_chars_succ]

theorem alexer_trim_left_ws_loop_chops (fuel : Nat) : ∀ l : Alexer,
    ∃ n, alexer_trim_left_ws_loop fuel l = alexer_chop_chars l n := by
  induction fuel with
  | zero => intro l; exact ⟨0, rfl⟩
  | succ fuel ih =>
    intro l
    by_cases hc : (l.cur < l.size && isspace (l.at l.cur)) = true
    · obtain ⟨n, hn⟩ := ih (alexer_chop_char l).2
      refine ⟨n + 1, ?_⟩
      rw [alexer_chop_chars_succ, ← hn]
      simp only [alexer_trim_left_ws_loop, hc, if_true]
    · refine ⟨0, ?_⟩
      simp only [alexer_trim_left_ws_loop, hc, if_false, alexer_chop_chars]
      rfl

theorem alexer_get_token_int_chops (fuel : Nat) : ∀ (l : Alexer) (t : Alexer_Token),
    ∃ n, (alexer_get_token_int fuel l t).2 = alexer_chop_chars l n := by
  induction fuel with
  | zero => intro l t; exact ⟨0, rfl⟩
  | succ fuel ih =>
    intro l t
    by_cases hc : (l.cur < l.size && isdigit (l.at l.cur)) = true
    · simp only [alexer_get_token_int, hc, if_true]
      obtain ⟨n, hn⟩ := ih (alexer_chop_char l).2
        { t with
          int_value := wrap_long (wrap_long (wrap_long (t.int_value * 10) +
            (l.at l.cur : Int)) - 48),
          end_ := t.end_ + 1 }
      exact ⟨n + 1, by rw [alexer_chop_chars_succ, ← hn]⟩
    · refine ⟨0, ?_⟩
      simp only [alexer_get_token_int, hc, if_false, alexer_chop_chars]
      rfl

theorem alexer_get_token_symbol_chops (fuel : Nat) : ∀ (l : Alexer) (t : Alexer_Token),
    ∃ n, (alexer_get_token_symbol fuel l t).2 = alexer_chop_chars l n := by
  induction fuel with
  | zero => intro l t; exact ⟨0, rfl⟩
  | succ fuel ih =>
    intro l t
    by_cases hc : (l.cur < l.size && alexer_is_symbol (l.at l.cur)) = true
    · simp only [alexer_get_token_symbol, hc, if_true]
      obtain ⟨n, hn⟩ := ih (alexer_chop_char l).2 { t with end_ := t.end_ + 1 }
      exact ⟨n + 1, by rw [alexer_chop_chars_succ, ← hn]⟩
    · refine ⟨0, ?_⟩
      simp only [alexer_get_token_symbol, hc, if_false, alexer_chop_chars]
      rfl

theorem alexer_trim_left_ws_chops (l : Alexer) :
    ∃ n, alexer_trim_left_ws l = alexer_chop_chars l n :=
  alexer_trim_left_ws_loop_chops _ l

/-- The token of every branch of `alexer_get_token` carries the location and
the offset of the cursor after the whitespace, and the engine afterwards is
that state advanced by calls of `alexer_chop_char`. -/
theorem alexer_get_token_chops (l : Alexer) :
    (alexer_get_token l).2.1.loc = alexer_loc (alexer_trim_left_ws l) ∧
      (alexer_get_token l).2.1.begin = (alexer_trim_left_ws l).cur ∧
      ∃ n, (alexer_get_token l).2.2 = alexer_chop_chars (alexer_trim_left_ws l) n := by
  by_cases h : (alexer_trim_left_ws l).cur < (alexer_trim_left_ws l).size
  · cases hp : alexer_get_token_puncts (alexer_trim_left_ws l) (alexer_trim_left_ws l).puncts 0 with
    | some i =>
      rw [alexer_get_token_punct l i h hp]
      exact ⟨rfl, rfl, _, rfl⟩
    | none =>
      cases hd : isdigit ((alexer_trim_left_ws l).at (alexer_trim_left_ws l).cur) with
      | true =>
        rw [alexer_get_token_int_case l h hp hd]
        obtain ⟨_, _, _, i4, _, _⟩ := alexer_get_token_int_spec
          ((alexer_trim_left_ws l).size - (alexer_trim_left_ws l).cur) (alexer_trim_left_ws l)
          { alexer_token_init (alexer_trim_left_ws l) with kind := ALEXER_INT } 0 wrap_long_zero
        refine ⟨by rw [i4]; rfl, by rw [i4]; rfl, alexer_get_token_int_chops _ _ _⟩
      | false =>
        cases hs : alexer_is_symbol_start
            ((alexer_trim_left_ws l).at (alexer_trim_left_ws l).cur) with
        | true =>
          obtain ⟨e, _, _, _, _, e5⟩ := alexer_get_token_symbol_run l h hp hs
          have hch := alexer_get_token_symbol_chops
            ((alexer_trim_left_ws l).size - (alexer_trim_left_ws l).cur)
            (alexer_trim_left_ws l)
            { alexer_token_init (alexer_trim_left_ws l) with kind := ALEXER_SYMBOL }
          rw [alexer_get_token_symbol_case l h hp hd hs] at e5 ⊢
          have e6 := congrArg (fun x => x.2.2) e5
          have e7 := congrArg (fun x => x.2.1) e5
          simp only at e6 e7
          refine ⟨?_, ?_, hch⟩
          · show (alexer_get_token_keywords _ _ _ 0).loc = _
            rw [e7]
            rcases alexer_get_token_keywords_spec
              { alexer_trim_left_ws l with cur := e }
              { alexer_token_init (alexer_trim_left_ws l) with
                kind := ALEXER_SYMBOL, end_ := e }
              (alexer_trim_left_ws l).keywords 0 with ⟨k1, _⟩ | ⟨j, _, _, _, k1⟩
            · rw [k1]; rfl
            · rw [k1]; rfl
          · show (alexer_get_token_keywords _ _ _ 0).begin = _
            rw [e7]
            rcases alexer_get_token_keywords_spec
              { alexer_trim_left_ws l with cur := e }
              { alexer_token_init (alexer_trim_left_ws l) with
                kind := ALEXER_SYMBOL, end_ := e }
              (alexer_trim_left_ws l).keywords 0 with ⟨k1, _⟩ | ⟨j, _, _, _, k1⟩
            · rw [k1]; rfl
            · rw [k1]; rfl
        | false =>
          rw [alexer_get_token_invalid l h hp hd hs]
          refine ⟨rfl, rfl, 1, ?_⟩
          rw [alexer_chop_chars_succ]; rfl
  · rw [alexer_get_token_end l h]
    exact ⟨rfl, rfl, 0, rfl⟩

theorem alexer_get_token_chops_from (l : Alexer) :
    ∃ n, (alexer_get_token l).2.2 = alexer_chop_chars l n := by
  obtain ⟨m, hm⟩ := alexer_trim_left_ws_chops l
  obtain ⟨_, _, n, hn⟩ := alexer_get_token_chops l
  exact ⟨m + n, by rw [hn, hm, alexer_chop_chars_add]⟩

/-! ## Invariants of the cursor and of the line bookkeeping -/

theorem alexer_chop_chars_induct (P : Alexer → Prop)
    (h : ∀ l, P l → P (alexer_chop_char l).2) : ∀ (n : Nat) (l : Alexer),
    P l → P (alexer_chop_chars l n) := by
  intro n
  induction n with
  | zero => intro l hl; exact hl
  | succ n ih =>
    intro l hl
    rw [alexer_chop_chars_succ]
    exact ih _ (h l hl)

theorem count_take_succ (xs : List Nat) (p : Nat) (h : p < xs.length) :
    (xs.take (p + 1)).count 10 =
      (xs.take p).count 10 + (if xs.getD p 0 = 10 then 1 else 0) := by
  have e : xs.take (p + 1) = xs.take p ++ [xs[p]] := by
    rw [List.take_succ, List.getElem?_eq_getElem h]; rfl
  rw [e, List.count_append, List.getD_eq_getElem _ _ h]
  by_cases hx : xs[p] = 10
  · simp [hx]
  · simp [hx, List.count_cons]

/-- The step of `alexer_chop_char`: at the end of the buffer nothing changes;
inside it the cursor moves by one, and a newline sets `bol` to the new cursor
and adds one to `row`, any other byte leaves both. -/
theorem alexer_chop_char_step (l : Alexer) :
    (¬ l.cur < l.size ∧ alexer_chop_char l = (false, l)) ∨
    (l.cur < l.size ∧ l.at l.cur = 10 ∧
      alexer_chop_char l = (true, { l with cur := l.cur + 1, bol := l.cur + 1, row := l.row + 1 })) ∨
    (l.cur < l.size ∧ l.at l.cur ≠ 10 ∧
      alexer_chop_char l = (true, { l with cur := l.cur + 1 })) := by
  by_cases h : l.cur < l.size
  · by_cases hx : l.at l.cur = 10
    · right; left
      refine ⟨h, hx, ?_⟩
      unfold alexer_chop_char
      simp [h, hx]
    · right; right
      refine ⟨h, hx, ?_⟩
      unfold alexer_chop_char
      simp [h, hx]
  · left
    exact ⟨h, alexer_chop_char_ge l h⟩

/-- The line bookkeeping and the bound of the cursor as one invariant. -/
theorem alexer_chop_char_line_col (l : Alexer)
    (h : l.cur ≤ l.size ∧ alexer_line_col l.content l.cur l.row l.bol) :
    (alexer_chop_char l).2.cur ≤ (alexer_chop_char l).2.size ∧
      alexer_line_col (alexer_chop_char l).2.content (alexer_chop_char l).2.cur
        (alexer_chop_char l).2.row (alexer_chop_char l).2.bol := by
  obtain ⟨hle, hrow, hbol, hnl, hno⟩ := h
  rcases alexer_chop_char_step l with ⟨_, e⟩ | ⟨hlt, hx, e⟩ | ⟨hlt, hx, e⟩
  · rw [e]; exact ⟨hle, hrow, hbol, hnl, hno⟩
  · rw [e]
    have hlt2 : l.cur < l.content.length := hlt
    have hx2 : l.content.getD l.cur 0 = 10 := hx
    dsimp only
    refine ⟨hlt, ?_, le_refl _, ?_, ?_⟩
    · rw [count_take_succ _ _ hlt2, if_pos hx2, hrow]
    · intro _
      simpa using hx2
    · intro j h1 h2
      omega
  · rw [e]
    have hlt2 : l.cur < l.content.length := hlt
    have hx2 : l.content.getD l.cur 0 ≠ 10 := hx
    dsimp only
    refine ⟨hlt, ?_, ?_, hnl, ?_⟩
    · rw [count_take_succ _ _ hlt2, if_neg hx2, hrow]; rfl
    · omega
    · intro j h1 h2
      by_cases hj : j = l.cur
      · rw [hj]; exact hx2
      · exact hno j h1 (by omega)

theorem alexer_chop_char_bounds (l : Alexer) (h : l.bol ≤ l.cur ∧ l.cur ≤ l.size) :
    (alexer_chop_char l).2.bol ≤ (alexer_chop_char l).2.cur ∧
      (alexer_chop_char l).2.cur ≤ (alexer_chop_char l).2.size := by
  rcases alexer_chop_char_step l with ⟨_, e⟩ | ⟨hlt, _, e⟩ | ⟨hlt, _, e⟩
  · rw [e]; exact h
  · rw [e]; exact ⟨le_refl _, hlt⟩
  · rw [e]; dsimp only; exact ⟨by omega, hlt⟩

theorem alexer_chop_char_row_le (l : Alexer) : l.row ≤ (alexer_chop_char l).2.row := by
  rcases alexer_chop_char_step l with ⟨_, e⟩ | ⟨_, _, e⟩ | ⟨_, _, e⟩
  · rw [e]
  · rw [e]; dsimp only; omega
  · rw [e]

theorem alexer_chop_chars_row_le (n : Nat) (l : Alexer) : l.row ≤ (alexer_chop_chars l n).row :=
  alexer_chop_chars_induct (fun x => l.row ≤ x.row)
    (fun x hx => le_trans hx (alexer_chop_char_row_le x)) n l (le_refl _)

theorem alexer_line_col_unique (xs : List Nat) (p r1 b1 r2 b2 : Nat)
    (h1 : alexer_line_col xs p r1 b1) (h2 : alexer_line_col xs p r2 b2) : r1 = r2 ∧ b1 = b2 := by
  obtain ⟨hr1, hb1, hn1, ho1⟩ := h1
  obtain ⟨hr2, hb2, hn2, ho2⟩ := h2
  refine ⟨by rw [hr1, hr2], ?_⟩
  rcases Nat.lt_trichotomy b1 b2 with h | h | h
  · exact absurd (hn2 (by omega)) (ho1 (b2 - 1) (by omega) (by omega))
  · exact h
  · exact absurd (hn1 (by omega)) (ho2 (b1 - 1) (by omega) (by omega))

/-- Every reachable engine state has its cursor inside the buffer and the
line bookkeeping of the cursor in `row` and `bol`. -/
theorem alexer_reachable_line_col (l : Alexer) (h : alexer_reachable l) :
    l.cur ≤ l.size ∧ alexer_line_col l.content l.cur l.row l.bol := by
  induction h with
  | create fp content puncts keywords =>
    refine ⟨Nat.zero_le _, ?_, le_refl _, ?_, ?_⟩
    · simp [alexer_create]
    · intro h; exact absurd h (by simp [alexer_create])
    · intro j _ h2; exact absurd h2 (by simp [alexer_create])
  | chop_char l _ ih => exact alexer_chop_char_line_col l ih
  | chop_chars l n _ ih =>
    exact alexer_chop_chars_induct
      (fun x => x.cur ≤ x.size ∧ alexer_line_col x.content x.cur x.row x.bol)
      alexer_chop_char_line_col n l ih
  | trim_left_ws l _ ih =>
    obtain ⟨n, hn⟩ := alexer_trim_left_ws_chops l
    rw [hn]
    exact alexer_chop_chars_induct
      (fun x => x.cur ≤ x.size ∧ alexer_line_col x.content x.cur x.row x.bol)
      alexer_chop_char_line_col n l ih
  | get_token l _ ih =>
    obtain ⟨n, hn⟩ := alexer_get_token_chops_from l
    rw [hn]
    exact alexer_chop_chars_induct
      (fun x => x.cur ≤ x.size ∧ alexer_line_col x.content x.cur x.row x.bol)
      alexer_chop_char_line_col n l ih

/-- C15, line bookkeeping: in every engine state reachable from
`alexer_create` by calls of `alexer_chop_char`, `alexer_chop_chars`,
`alexer_trim_left_ws` and `alexer_get_token`, `row` is the number of newline
bytes in `content[0..cur)` and `bol` is the offset just past the last of them
(0 when there is none); `alexer_loc` returns the file name, `row + 1` and
`cur - bol + 1`; and the `loc` of the token written by `alexer_get_token` is
`row + 1`, `begin - bol + 1` for the line bookkeeping `row`, `bol` of the
offset `begin` of the token. -/
theorem alexer_line_bookkeeping :
    (∀ l : Alexer, alexer_reachable l → alexer_line_col l.content l.cur l.row l.bol) ∧
    (∀ l : Alexer,
      alexer_loc l = { file_path := l.file_path, row := l.row + 1, col := l.cur - l.bol + 1 }) ∧
    (∀ l : Alexer, alexer_reachable l →
      ∃ row bol, alexer_line_col l.content (alexer_get_token l).2.1.begin row bol ∧
        (alexer_get_token l).2.1.loc =
          { file_path := l.file_path, row := row + 1,
            col := (alexer_get_token l).2.1.begin - bol + 1 }) := by
  refine ⟨fun l h => (alexer_reachable_line_col l h).2, fun _ => rfl, ?_⟩
  intro l h
  obtain ⟨hsi, _⟩ := alexer_trim_left_ws_stops l
  obtain ⟨h1, h2, _⟩ := alexer_get_token_chops l
  have hr := (alexer_reachable_line_col _ (alexer_reachable.trim_left_ws l h)).2
  refine ⟨(alexer_trim_left_ws l).row, (alexer_trim_left_ws l).bol, ?_, ?_⟩
  · rw [h2, ← hsi.1]; exact hr
  · rw [h1, h2, ← hsi.2.2.2]; rfl

/-- C15, an instance: after two calls on `"a\n b"` the cursor is behind `b`,
on the second line, which starts at offset 2. -/
theorem alexer_line_bookkeeping_witness :
    alexer_line_col (cstr "a\n b") 4 1 2 :=
  alexer_line_bookkeeping.1
    (alexer_get_token (alexer_get_token
      { alexer_create [] (cstr "a\n b") with puncts := [], keywords := [] }).2.2).2.2
    (alexer_reachable.get_token _ (alexer_reachable.get_token _
      (alexer_reachable.create [] (cstr "a\n b") [] [])))

theorem alexer_bounds_after_chops (l : Alexer) (n : Nat) (h1 : l.bol ≤ l.cur)
    (h2 : l.cur ≤ l.size) :
    l.cur ≤ (alexer_chop_chars l n).cur ∧ (alexer_chop_chars l n).cur ≤ l.size ∧
      (alexer_chop_chars l n).bol ≤ (alexer_chop_chars l n).cur := by
  obtain ⟨c1, _⟩ := alexer_chop_chars_spec n l h2
  have hb := alexer_chop_chars_induct (fun x => x.bol ≤ x.cur ∧ x.cur ≤ x.size)
    alexer_chop_char_bounds n l ⟨h1, h2⟩
  refine ⟨by rw [c1]; omega, by rw [c1]; omega, hb.1⟩

/-- C16, cursor invariant: from a state with `bol <= cur <= size`, each of
`alexer_chop_char`, `alexer_chop_chars`, `alexer_trim_left_ws` and
`alexer_get_token` leaves `old cur <= new cur <= size` and
`new bol <= new cur`; `alexer_chop_char` returns true and moves the cursor by
exactly one when `cur < size`, and returns false with the state unchanged when
`cur = size`; `alexer_chop_chars(l, n)` leaves `cur = min(old cur + n, size)`. -/
theorem alexer_cursor_invariant (l : Alexer) (h1 : l.bol ≤ l.cur) (h2 : l.cur ≤ l.size) :
    (l.cur ≤ (alexer_chop_char l).2.cur ∧ (alexer_chop_char l).2.cur ≤ l.size ∧
      (alexer_chop_char l).2.bol ≤ (alexer_chop_char l).2.cur) ∧
    (∀ n, l.cur ≤ (alexer_chop_chars l n).cur ∧ (alexer_chop_chars l n).cur ≤ l.size ∧
      (alexer_chop_chars l n).bol ≤ (alexer_chop_chars l n).cur) ∧
    (l.cur ≤ (alexer_trim_left_ws l).cur ∧ (alexer_trim_left_ws l).cur ≤ l.size ∧
      (alexer_trim_left_ws l).bol ≤ (alexer_trim_left_ws l).cur) ∧
    (l.cur ≤ (alexer_get_token l).2.2.cur ∧ (alexer_get_token l).2.2.cur ≤ l.size ∧
      (alexer_get_token l).2.2.bol ≤ (alexer_get_token l).2.2.cur) ∧
    (l.cur < l.size →
      (alexer_chop_char l).1 = true ∧ (alexer_chop_char l).2.cur = l.cur + 1) ∧
    (l.cur = l.size → alexer_chop_char l = (false, l)) ∧
    (∀ n, (alexer_chop_chars l n).cur = min (l.cur + n) l.size) := by
  refine ⟨?_, fun n => alexer_bounds_after_chops l n h1 h2, ?_, ?_, ?_, ?_, ?_⟩
  · have := alexer_bounds_after_chops l 1 h1 h2
    rw [alexer_chop_chars_succ] at this
    exact this
  · obtain ⟨n, hn⟩ := alexer_trim_left_ws_chops l
    rw [hn]; exact alexer_bounds_after_chops l n h1 h2
  · obtain ⟨n, hn⟩ := alexer_get_token_chops_from l
    rw [hn]; exact alexer_bounds_after_chops l n h1 h2
  · intro hlt
    exact ⟨(alexer_chop_char_lt l hlt).1, (alexer_chop_char_lt l hlt).2.1⟩
  · intro he
    exact alexer_chop_char_ge l (by omega)
  · intro n
    exact (alexer_chop_chars_spec n l h2).1

/-- C16, an instance: on `"ab\ncd"` with the cursor behind the newline,
chopping five bytes stops at the end of the buffer. -/
theorem alexer_cursor_invariant_witness :
    (alexer_chop_chars
      { alexer_with (cstr "ab\ncd") [] [] with cur := 3, bol := 3, row := 1 } 5).cur = 5 :=
  ((alexer_cursor_invariant
    { alexer_with (cstr "ab\ncd") [] [] with cur := 3, bol := 3, row := 1 }
    (by decide) (by decide)).2.2.2.2.2.2 5).trans (by decide)

/-- C17, location monotonicity: of two successive calls of `alexer_get_token`
the second token has a `loc.row` not below that of the first; and
`alexer_chop_char`, the one step that changes `row`, adds one to it exactly
when it consumes a newline, after which `alexer_loc` reports column 1. -/
theorem alexer_location_monotone :
    (∀ l : Alexer, (alexer_get_token l).2.1.loc.row ≤
      (alexer_get_token (alexer_get_token l).2.2).2.1.loc.row) ∧
    (∀ l : Alexer, (alexer_chop_char l).2.row ≠ l.row →
      (l.cur < l.size ∧ l.at l.cur = 10) ∧
      (alexer_chop_char l).2.row = l.row + 1 ∧
      (alexer_loc (alexer_chop_char l).2).col = 1) ∧
    (∀ l : Alexer, l.cur < l.size → l.at l.cur = 10 →
      (alexer_chop_char l).2.row = l.row + 1 ∧
      (alexer_loc (alexer_chop_char l).2).col = 1) := by
  refine ⟨?_, ?_, ?_⟩
  · intro l
    obtain ⟨h1, _, n, hn⟩ := alexer_get_token_chops l
    obtain ⟨k1, _, _⟩ := alexer_get_token_chops (alexer_get_token l).2.2
    obtain ⟨m, hm⟩ := alexer_trim_left_ws_chops (alexer_get_token l).2.2
    rw [h1, k1, hm, hn]
    have a1 := alexer_chop_chars_row_le n (alexer_trim_left_ws l)
    have a2 := alexer_chop_chars_row_le m (alexer_chop_chars (alexer_trim_left_ws l) n)
    show (alexer_trim_left_ws l).row + 1 ≤ _ + 1
    omega
  · intro l hne
    rcases alexer_chop_char_step l with ⟨_, e⟩ | ⟨hlt, hx, e⟩ | ⟨_, _, e⟩
    · rw [e] at hne; exact absurd rfl hne
    · rw [e]
      refine ⟨⟨hlt, hx⟩, rfl, ?_⟩
      simp [alexer_loc]
    · rw [e] at hne; exact absurd rfl hne
  · intro l hlt hx
    rcases alexer_chop_char_step l with ⟨h, _⟩ | ⟨_, _, e⟩ | ⟨_, hx2, _⟩
    · exact absurd hlt h
    · rw [e]
      refine ⟨rfl, ?_⟩
      simp [alexer_loc]
    · exact absurd hx hx2

/-- C17, an instance: chopping the newline of `"a\nb"` at offset 1. -/
theorem alexer_location_monotone_witness :
    (alexer_loc (alexer_chop_char { alexer_with (cstr "a\nb") [] [] with cur := 1 }).2).col = 1 :=
  (alexer_location_monotone.2.2 { alexer_with (cstr "a\nb") [] [] with cur := 1 }
    (by decide) (by decide)).2

/-! ## End of input and the partition of the buffer -/

theorem alexer_get_token_end_iff (l : Alexer) :
    (alexer_get_token l).2.1.kind = ALEXER_END ↔
      ¬ (alexer_trim_left_ws l).cur < (alexer_trim_left_ws l).size := by
  constructor
  · intro hk h
    cases hp : alexer_get_token_puncts (alexer_trim_left_ws l) (alexer_trim_left_ws l).puncts 0 with
    | some i =>
      rw [alexer_get_token_punct l i h hp] at hk
      exact absurd hk (by simp)
    | none =>
      cases hd : isdigit ((alexer_trim_left_ws l).at (alexer_trim_left_ws l).cur) with
      | true =>
        obtain ⟨e, _, _, _, _, e5⟩ := alexer_get_token_int_run l h hp hd
        rw [e5] at hk
        exact absurd hk (by simp)
      | false =>
        cases hs : alexer_is_symbol_start
            ((alexer_trim_left_ws l).at (alexer_trim_left_ws l).cur) with
        | true =>
          obtain ⟨e, _, _, _, _, e5⟩ := alexer_get_token_symbol_run l h hp hs
          rw [e5] at hk
          rcases alexer_get_token_keywords_spec
            { alexer_trim_left_ws l with cur := e }
            { alexer_token_init (alexer_trim_left_ws l) with
              kind := ALEXER_SYMBOL, end_ := e }
            (alexer_trim_left_ws l).keywords 0 with ⟨k1, _⟩ | ⟨j, _, _, _, k1⟩
          · rw [k1] at hk; exact absurd hk (by simp)
          · rw [k1] at hk; exact absurd hk (by simp)
        | false =>
          rw [alexer_get_token_invalid l h hp hd hs] at hk
          exact absurd hk (by simp [alexer_token_init])
  · intro h
    rw [alexer_get_token_end l h]

theorem alexer_trim_left_ws_at_end (l : Alexer) (h : ¬ l.cur < l.size) :
    alexer_trim_left_ws l = l := by
  unfold alexer_trim_left_ws
  rw [show l.size - l.cur = 0 by omega]
  rfl

/-- The cursor after the whitespace is at the end of the buffer exactly when
all bytes from the cursor on are whitespace. -/
theorem alexer_trim_left_ws_end_iff (l : Alexer) (h : l.cur ≤ l.size) :
    ¬ (alexer_trim_left_ws l).cur < (alexer_trim_left_ws l).size ↔
      ∀ j, l.cur ≤ j → j < l.size → isspace (l.at j) = true := by
  obtain ⟨hsi, h1, h2, h3, h4⟩ := alexer_trim_left_ws_stops l
  have hsz := Alexer.same_input_size hsi
  have hle := h2 h
  constructor
  · intro hn j hj1 hj2
    exact h3 j hj1 (by omega)
  · intro hall hlt
    exact h4 ⟨by omega, hall _ h1 (by omega)⟩

/-- C18, end of input: from a state with `cur <= size`, `alexer_get_token`
writes an `END` token exactly when every byte of `content[cur..size)` is
whitespace; then it returns false, the token is empty at the end of the buffer
(`begin = end = size`), the cursor is left at `size`, and every later call
returns false with the same token and leaves the engine as it is. -/
theorem alexer_end_of_input :
    (∀ l : Alexer, l.cur ≤ l.size →
      ((alexer_get_token l).2.1.kind = ALEXER_END ↔
        ∀ j, l.cur ≤ j → j < l.size → isspace (l.at j) = true)) ∧
    (∀ l : Alexer, l.cur ≤ l.size → (alexer_get_token l).2.1.kind = ALEXER_END →
      (alexer_get_token l).1 = false ∧
      (alexer_get_token l).2.1.begin = l.size ∧
      (alexer_get_token l).2.1.end_ = l.size ∧
      (alexer_get_token l).2.2.cur = l.size ∧
      ∀ k, alexer_get_token (alexer_after_calls (k + 1) l) =
        (false, (alexer_get_token l).2.1, (alexer_get_token l).2.2)) := by
  refine ⟨?_, ?_⟩
  · intro l h
    rw [alexer_get_token_end_iff, alexer_trim_left_ws_end_iff l h]
  · intro l h hk
    obtain ⟨hsi, _, h2, _, _⟩ := alexer_trim_left_ws_stops l
    have hsz := Alexer.same_input_size hsi
    have hle := h2 h
    have hn := (alexer_get_token_end_iff l).1 hk
    have hcur : (alexer_trim_left_ws l).cur = l.size := by omega
    have e := alexer_get_token_end l hn
    have hfix : alexer_get_token (alexer_trim_left_ws l) =
        (false, { alexer_token_init (alexer_trim_left_ws l) with kind := ALEXER_END },
          alexer_trim_left_ws l) := by
      have hn2 : ¬ (alexer_trim_left_ws (alexer_trim_left_ws l)).cur <
          (alexer_trim_left_ws (alexer_trim_left_ws l)).size := by
        rw [alexer_trim_left_ws_at_end _ hn]; exact hn
      rw [alexer_get_token_end _ hn2, alexer_trim_left_ws_at_end _ hn]
    have hall : ∀ k, alexer_after_calls (k + 1) l = alexer_trim_left_ws l := by
      intro k
      induction k with
      | zero => simp only [alexer_after_calls, e]
      | succ k ih =>
        rw [alexer_after_calls, e]
        simp only
        have : alexer_after_calls (k + 1) (alexer_trim_left_ws l) = alexer_trim_left_ws l := by
          clear ih
          induction k with
          | zero => simp only [alexer_after_calls, hfix]
          | succ k ih2 => rw [alexer_after_calls, hfix]; exact ih2
        exact this
    rw [e]
    refine ⟨rfl, ?_, ?_, hcur, ?_⟩
    · simp only [alexer_token_init]; exact hcur
    · simp only [alexer_token_init]; exact hcur
    · intro k
      rw [hall k, hfix]

/-- C18, an instance: `"x \n"` behind the `x`. -/
theorem alexer_end_of_input_witness :
    (alexer_get_token { alexer_with (cstr "x \n") [] [] with cur := 1 }).2.1.kind = ALEXER_END :=
  (alexer_end_of_input.1 { alexer_with (cstr "x \n") [] [] with cur := 1 } (by decide)).2
    (by decide)

theorem alexer_get_token_end_offset (l : Alexer) (h : l.cur ≤ l.size) :
    (alexer_get_token l).2.2.cur = min (alexer_get_token l).2.1.end_ l.size := by
  obtain ⟨hsi, _, h2, _, _⟩ := alexer_trim_left_ws_stops l
  have hsz := Alexer.same_input_size hsi
  have hle := h2 h
  by_cases hlt : (alexer_trim_left_ws l).cur < (alexer_trim_left_ws l).size
  · cases hp : alexer_get_token_puncts (alexer_trim_left_ws l) (alexer_trim_left_ws l).puncts 0 with
    | some i =>
      rw [alexer_get_token_punct l i hlt hp]
      obtain ⟨c1, _⟩ := alexer_chop_chars_spec
        (strlen ((alexer_trim_left_ws l).puncts.getD i [])) (alexer_trim_left_ws l) (by omega)
      dsimp only
      rw [c1, hsz]
    | none =>
      cases hd : isdigit ((alexer_trim_left_ws l).at (alexer_trim_left_ws l).cur) with
      | true =>
        obtain ⟨e, _, e2, _, _, e5⟩ := alexer_get_token_int_run l hlt hp hd
        rw [e5]
        dsimp only
        omega
      | false =>
        cases hs : alexer_is_symbol_start
            ((alexer_trim_left_ws l).at (alexer_trim_left_ws l).cur) with
        | true =>
          obtain ⟨e, _, e2, _, _, e5⟩ := alexer_get_token_symbol_run l hlt hp hs
          rw [e5]
          rcases alexer_get_token_keywords_spec
            { alexer_trim_left_ws l with cur := e }
            { alexer_token_init (alexer_trim_left_ws l) with
              kind := ALEXER_SYMBOL, end_ := e }
            (alexer_trim_left_ws l).keywords 0 with ⟨k1, _⟩ | ⟨j, _, _, _, k1⟩
          · rw [k1]; dsimp only; omega
          · rw [k1]; dsimp only; omega
        | false =>
          rw [alexer_get_token_invalid l hlt hp hd hs]
          have hc := (alexer_chop_char_lt (alexer_trim_left_ws l) hlt).2.1
          dsimp only
          rw [hc]; omega
  · rw [alexer_get_token_end l hlt]
    simp only [alexer_token_init]
    omega

/-- One call of `alexer_get_token` from a state with the cursor in the
buffer: the whitespace from the cursor to `begin`, then the consumed range
from `begin` to the new cursor. -/
theorem alexer_get_token_segments (l : Alexer) (h : l.cur ≤ l.size) :
    l.cur ≤ (alexer_get_token l).2.1.begin ∧
      (alexer_get_token l).2.1.begin ≤ (alexer_get_token l).2.2.cur ∧
      (alexer_get_token l).2.2.cur ≤ l.size ∧
      (∀ j, l.cur ≤ j → j < (alexer_get_token l).2.1.begin → isspace (l.at j) = true) ∧
      ((alexer_get_token l).2.1.begin = l.size ∨
        ((alexer_get_token l).2.1.begin < l.size ∧
          isspace (l.at (alexer_get_token l).2.1.begin) = false)) := by
  obtain ⟨hsi, h1, h2, h3, h4⟩ := alexer_trim_left_ws_stops l
  have hsz := Alexer.same_input_size hsi
  have hle := h2 h
  obtain ⟨_, g2, n, g3⟩ := alexer_get_token_chops l
  obtain ⟨c1, _⟩ := alexer_chop_chars_spec n (alexer_trim_left_ws l) (by omega)
  rw [g2, g3, c1, hsz]
  refine ⟨h1, by omega, by omega, h3, ?_⟩
  by_cases hlt : (alexer_trim_left_ws l).cur < l.size
  · right
    refine ⟨hlt, ?_⟩
    cases hw : isspace (l.at (alexer_trim_left_ws l).cur) with
    | true => exact absurd ⟨hlt, hw⟩ h4
    | false => rfl
  · left; omega

theorem alexer_after_calls_succ (k : Nat) : ∀ l : Alexer,
    alexer_after_calls (k + 1) l = (alexer_get_token (alexer_after_calls k l)).2.2 := by
  induction k with
  | zero => intro l; rfl
  | succ k ih =>
    intro l
    rw [alexer_after_calls, ih (alexer_get_token l).2.2]
    rfl

theorem alexer_after_calls_state (k : Nat) : ∀ l : Alexer, l.cur ≤ l.size →
    l.same_input (alexer_after_calls k l) ∧ l.cur ≤ (alexer_after_calls k l).cur ∧
      (alexer_after_calls k l).cur ≤ l.size := by
  induction k with
  | zero => intro l h; exact ⟨l.same_input_refl, le_refl _, h⟩
  | succ k ih =>
    intro l h
    obtain ⟨s1, s2, s3, _⟩ := alexer_get_token_state l
    have hsz := Alexer.same_input_size s1
    obtain ⟨i1, i2, i3⟩ := ih (alexer_get_token l).2.2 (by rw [hsz]; exact s3 h)
    rw [alexer_after_calls]
    exact ⟨Alexer.same_input_trans s1 i1, by omega, by omega⟩

theorem alexer_after_calls_mono (l : Alexer) (i d : Nat) :
    (alexer_after_calls i l).cur ≤ (alexer_after_calls (i + d) l).cur := by
  induction d with
  | zero => exact le_refl _
  | succ d ih =>
    rw [show i + (d + 1) = (i + d) + 1 by omega, alexer_after_calls_succ]
    exact le_trans ih (alexer_get_token_state _).2.1

/-- The bytes from the first cursor to the cursor after `k` calls lie each in
the skipped whitespace or in the consumed range of one of these calls. -/
theorem alexer_after_calls_cover (l : Alexer) (h : l.cur ≤ l.size) (k : Nat) :
    ∀ p, l.cur ≤ p → p < (alexer_after_calls k l).cur →
      ∃ i, i < k ∧
        (((alexer_after_calls i l).cur ≤ p ∧ p < (alexer_token_of_call i l).begin ∧
            isspace (l.at p) = true) ∨
          ((alexer_token_of_call i l).begin ≤ p ∧ p < (alexer_after_calls (i + 1) l).cur)) := by
  induction k with
  | zero =>
    intro p h1 h2
    exact absurd h2 (by show ¬ p < l.cur; omega)
  | succ k ih =>
    intro p h1 h2
    by_cases hp : p < (alexer_after_calls k l).cur
    · obtain ⟨i, hi, hc⟩ := ih p h1 hp
      exact ⟨i, by omega, hc⟩
    · obtain ⟨s1, _, s3⟩ := alexer_after_calls_state k l h
      have hsz := Alexer.same_input_size s1
      obtain ⟨g1, g2, g3, g4, _⟩ := alexer_get_token_segments (alexer_after_calls k l)
        (by rw [hsz]; exact s3)
      refine ⟨k, by omega, ?_⟩
      by_cases hb : p < (alexer_token_of_call k l).begin
      · left
        refine ⟨by omega, hb, ?_⟩
        rw [← Alexer.same_input_at s1]
        exact g4 p (by omega) hb
      · right
        exact ⟨by omega, h2⟩

/-- C19 as stated fails: on `" z"` with the empty string in the punctuation
table every call writes a `PUNCT` token with `begin = 1` and leaves the cursor
at 1, so no call writes `END`, and the byte `z` at offset 1, which is not
whitespace, lies in the consumed range `[begin, new cur)` of no call: the
ranges and the skipped whitespace do not cover the buffer. -/
theorem alexer_nothing_dropped_counterexample :
    (alexer_with (cstr " z") [cstr ""] []).cur = 0 ∧
    isspace ((alexer_with (cstr " z") [cstr ""] []).at 1) = false ∧
    ∀ k, (alexer_token_of_call k (alexer_with (cstr " z") [cstr ""] [])).kind = ALEXER_PUNCT ∧
      (alexer_token_of_call k (alexer_with (cstr " z") [cstr ""] [])).begin = 1 ∧
      (alexer_after_calls (k + 1) (alexer_with (cstr " z") [cstr ""] [])).cur = 1 ∧
      ¬ ((alexer_token_of_call k (alexer_with (cstr " z") [cstr ""] [])).begin ≤ 1 ∧
        1 < (alexer_after_calls (k + 1) (alexer_with (cstr " z") [cstr ""] [])).cur) := by
  have h0 : alexer_get_token (alexer_with (cstr " z") [cstr ""] []) =
      (true,
        { kind := ALEXER_PUNCT, loc := { file_path := [], row := 1, col := 2 },
          begin := 1, end_ := 1, int_value := 0, punct_index := 0, keyword_index := 0 },
        { alexer_with (cstr " z") [cstr ""] [] with cur := 1 }) := by decide
  have h1 : alexer_get_token { alexer_with (cstr " z") [cstr ""] [] with cur := 1 } =
      (true,
        { kind := ALEXER_PUNCT, loc := { file_path := [], row := 1, col := 2 },
          begin := 1, end_ := 1, int_value := 0, punct_index := 0, keyword_index := 0 },
        { alexer_with (cstr " z") [cstr ""] [] with cur := 1 }) := by decide
  have hfix : ∀ k, alexer_after_calls k
      { alexer_with (cstr " z") [cstr ""] [] with cur := 1 } =
      { alexer_with (cstr " z") [cstr ""] [] with cur := 1 } := by
    intro k
    induction k with
    | zero => rfl
    | succ k ih => rw [alexer_after_calls, h1]; exact ih
  have hall : ∀ k, alexer_after_calls (k + 1) (alexer_with (cstr " z") [cstr ""] []) =
      { alexer_with (cstr " z") [cstr ""] [] with cur := 1 } := by
    intro k
    rw [alexer_after_calls, h0]
    exact hfix k
  have htok : ∀ k, alexer_token_of_call k (alexer_with (cstr " z") [cstr ""] []) =
      { kind := ALEXER_PUNCT, loc := { file_path := [], row := 1, col := 2 },
        begin := 1, end_ := 1, int_value := 0, punct_index := 0, keyword_index := 0 } := by
    intro k
    unfold alexer_token_of_call
    cases k with
    | zero => rw [alexer_after_calls, h0]
    | succ k => rw [hall k, h1]
  refine ⟨by decide, by decide, fun k => ?_⟩
  rw [htok k, hall k]
  exact ⟨rfl, rfl, rfl, by decide⟩

/-- C19 amended, nothing but whitespace is dropped: from a state with
`cur <= size`, the `begin` of the token of `alexer_get_token` is the least
offset from the old cursor on that is the end of the buffer or holds a byte
that is not whitespace, and the new cursor is `min(end, size)`. Over a run of
calls the consumed ranges `[begin, new cur)` follow each other in increasing
order without overlap. When no entry of the punctuation table is the empty
string, a run from cursor 0 writes `END` within `size + 1` calls, the cursor
then is at `size`, and every byte of the buffer lies in the whitespace skipped
by one of these calls or in the consumed range of one of them. -/
theorem alexer_nothing_dropped :
    (∀ l : Alexer, l.cur ≤ l.size →
      l.cur ≤ (alexer_get_token l).2.1.begin ∧
      ((alexer_get_token l).2.1.begin = l.size ∨
        ((alexer_get_token l).2.1.begin < l.size ∧
          isspace (l.at (alexer_get_token l).2.1.begin) = false)) ∧
      (∀ j, l.cur ≤ j → j < (alexer_get_token l).2.1.begin →
        j < l.size ∧ isspace (l.at j) = true) ∧
      (alexer_get_token l).2.2.cur = min (alexer_get_token l).2.1.end_ l.size) ∧
    (∀ l : Alexer, l.cur ≤ l.size → ∀ i j, i < j →
      (alexer_after_calls i l).cur ≤ (alexer_token_of_call i l).begin ∧
      (alexer_token_of_call i l).begin ≤ (alexer_after_calls (i + 1) l).cur ∧
      (alexer_after_calls (i + 1) l).cur ≤ (alexer_token_of_call j l).begin) ∧
    (∀ l : Alexer, (∀ p ∈ l.puncts, p ≠ []) → l.cur = 0 →
      ∃ n, n + 1 ≤ l.size + 1 ∧
        (alexer_token_of_call n l).kind = ALEXER_END ∧
        (alexer_after_calls (n + 1) l).cur = l.size ∧
        ∀ p, p < l.size → ∃ i, i ≤ n ∧
          (((alexer_after_calls i l).cur ≤ p ∧ p < (alexer_token_of_call i l).begin ∧
              isspace (l.at p) = true) ∨
            ((alexer_token_of_call i l).begin ≤ p ∧
              p < (alexer_after_calls (i + 1) l).cur))) := by
  refine ⟨?_, ?_, ?_⟩
  · intro l h
    obtain ⟨g1, g2, g3, g4, g5⟩ := alexer_get_token_segments l h
    refine ⟨g1, g5, ?_, alexer_get_token_end_offset l h⟩
    intro j hj1 hj2
    exact ⟨by omega, g4 j hj1 hj2⟩
  · intro l h i j hij
    obtain ⟨s1, _, s3⟩ := alexer_after_calls_state i l h
    obtain ⟨g1, g2, _, _, _⟩ := alexer_get_token_segments (alexer_after_calls i l)
      (by rw [Alexer.same_input_size s1]; exact s3)
    obtain ⟨t1, _, t3⟩ := alexer_after_calls_state j l h
    obtain ⟨k1, _, _, _, _⟩ := alexer_get_token_segments (alexer_after_calls j l)
      (by rw [Alexer.same_input_size t1]; exact t3)
    have hm := alexer_after_calls_mono l (i + 1) (j - (i + 1))
    rw [show i + 1 + (j - (i + 1)) = j by omega] at hm
    refine ⟨g1, ?_, le_trans hm k1⟩
    rw [alexer_after_calls_succ]
    exact g2
  · intro l hne h0
    have h : l.cur ≤ l.size := by omega
    obtain ⟨n, hn1, hk⟩ := alexer_reaches_end (l.size - l.cur) l (le_refl _) h hne
    obtain ⟨s1, _, s3⟩ := alexer_after_calls_state n l h
    have hsz := Alexer.same_input_size s1
    have hle : (alexer_after_calls n l).cur ≤ (alexer_after_calls n l).size := by
      rw [hsz]; exact s3
    have hend : (alexer_after_calls (n + 1) l).cur = l.size := by
      obtain ⟨ti, _, t2, _, _⟩ := alexer_trim_left_ws_stops (alexer_after_calls n l)
      have hn := (alexer_get_token_end_iff (alexer_after_calls n l)).1 hk
      have e := alexer_get_token_end _ hn
      rw [alexer_after_calls_succ, e]
      have := t2 hle
      have hsz2 := Alexer.same_input_size ti
      show (alexer_trim_left_ws (alexer_after_calls n l)).cur = l.size
      omega
    refine ⟨n, by omega, hk, hend, ?_⟩
    intro p hp
    obtain ⟨i, hi, hc⟩ := alexer_after_calls_cover l h (n + 1) p (by omega) (by omega)
    exact ⟨i, by omega, hc⟩

/-- C19 amended, an instance: on `" ab + 1"` with the table `["+"]`, a run
from cursor 0 reaches `END` with the cursor at 7 and the buffer covered. -/
theorem alexer_nothing_dropped_witness :
    ∃ n, n + 1 ≤ 7 + 1 ∧
      (alexer_token_of_call n (alexer_with (cstr " ab + 1") [cstr "+"] [])).kind = ALEXER_END ∧
      (alexer_after_calls (n + 1) (alexer_with (cstr " ab + 1") [cstr "+"] [])).cur = 7 :=
  (alexer_nothing_dropped.2.2 (alexer_with (cstr " ab + 1") [cstr "+"] [])
    (by decide) (by decide)).elim fun n hn => ⟨n, hn.1, hn.2.1, hn.2.2.1⟩

/-- C20, progress under a well-formed table: when no entry of the punctuation
table is the empty string, from a state with `cur <= size` every call of
`alexer_get_token` that writes a token other than `END` strictly increases
the cursor, and a call writes `END` after at most `size - cur` other calls,
that is within `size - cur + 1` calls. -/
theorem alexer_progress_from_state :
    (∀ l : Alexer, (∀ p ∈ l.puncts, p ≠ []) → l.cur ≤ l.size →
      (alexer_get_token l).2.1.kind ≠ ALEXER_END → l.cur < (alexer_get_token l).2.2.cur) ∧
    (∀ l : Alexer, (∀ p ∈ l.puncts, p ≠ []) → l.cur ≤ l.size →
      ∃ k, k + 1 ≤ l.size - l.cur + 1 ∧
        (alexer_token_of_call k l).kind = ALEXER_END) := by
  refine ⟨fun l hne _ hk => (alexer_get_token_state l).2.2.2 hk hne, ?_⟩
  intro l hne h
  obtain ⟨k, k1, k2⟩ := alexer_reaches_end (l.size - l.cur) l (le_refl _) h hne
  exact ⟨k, by omega, k2⟩

/-- C20, an instance: on `"a+1 #"` with the table `["+"]` and the cursor
behind `a+`, within four calls one writes `END`. -/
theorem alexer_progress_from_state_witness :
    ∃ k, k + 1 ≤ 4 ∧
      (alexer_token_of_call k
        { alexer_with (cstr "a+1 #") [cstr "+"] [] with cur := 2 }).kind = ALEXER_END :=
  alexer_progress_from_state.2 { alexer_with (cstr "a+1 #") [cstr "+"] [] with cur := 2 }
    (by decide) (by decide)

/-! ## The truncated punctuation match in the three later branches -/

/-- C3 fails on the code: on the buffer `"a"` with the punctuation table
`["a="]` no entry stands in the buffer at the cursor and the byte there is a
letter, so the claim gives the `SYMBOL` token over `a`; the code accepts
`"a="` on the one byte that is left (`alexer_starts_with`) and writes a
`PUNCT` token of index 0 with `end = 2`. -/
theorem alexer_symbol_shadowed_by_truncated_punct :
    (∀ p ∈ (alexer_with (cstr "a") [cstr "a="] []).puncts,
      ¬ p <+: (alexer_with (cstr "a") [cstr "a="] []).content.drop
        (alexer_trim_left_ws (alexer_with (cstr "a") [cstr "a="] [])).cur) ∧
    (alexer_trim_left_ws (alexer_with (cstr "a") [cstr "a="] [])).cur <
      (alexer_with (cstr "a") [cstr "a="] []).size ∧
    isalpha ((alexer_with (cstr "a") [cstr "a="] []).at
      (alexer_trim_left_ws (alexer_with (cstr "a") [cstr "a="] [])).cur) = true ∧
    alexer_get_token (alexer_with (cstr "a") [cstr "a="] []) =
      (true,
        { kind := ALEXER_PUNCT, loc := { file_path := [], row := 1, col := 1 },
          begin := 0, end_ := 2, int_value := 0, punct_index := 0, keyword_index := 0 },
        { alexer_with (cstr "a") [cstr "a="] [] with cur := 1 }) ∧
    (alexer_get_token (alexer_with (cstr "a") [cstr "a="] [])).2.1.kind ≠ ALEXER_SYMBOL ∧
    (alexer_get_token (alexer_with (cstr "a") [cstr "a="] [])).2.1.kind ≠ ALEXER_KEYWORD := by
  decide

/-- C4 fails on the code: on the buffer `"1"` with the punctuation table
`["1+"]` no entry stands in the buffer at the cursor and the byte there is a
digit, so the claim gives the `INT` token of value 1 over `1`; the code
accepts `"1+"` on the one byte that is left (`alexer_starts_with`) and writes
a `PUNCT` token of index 0 with `end = 2` and `int_value = 0`. -/
theorem alexer_int_shadowed_by_truncated_punct :
    (∀ p ∈ (alexer_with (cstr "1") [cstr "1+"] []).puncts,
      ¬ p <+: (alexer_with (cstr "1") [cstr "1+"] []).content.drop
        (alexer_trim_left_ws (alexer_with (cstr "1") [cstr "1+"] [])).cur) ∧
    (alexer_trim_left_ws (alexer_with (cstr "1") [cstr "1+"] [])).cur <
      (alexer_with (cstr "1") [cstr "1+"] []).size ∧
    isdigit ((alexer_with (cstr "1") [cstr "1+"] []).at
      (alexer_trim_left_ws (alexer_with (cstr "1") [cstr "1+"] [])).cur) = true ∧
    alexer_get_token (alexer_with (cstr "1") [cstr "1+"] []) =
      (true,
        { kind := ALEXER_PUNCT, loc := { file_path := [], row := 1, col := 1 },
          begin := 0, end_ := 2, int_value := 0, punct_index := 0, keyword_index := 0 },
        { alexer_with (cstr "1") [cstr "1+"] [] with cur := 1 }) ∧
    (alexer_get_token (alexer_with (cstr "1") [cstr "1+"] [])).2.1.kind ≠ ALEXER_INT ∧
    decimal_value ((alexer_with (cstr "1") [cstr "1+"] []).bytes 0 1) = 1 := by
  decide

/-- C5 fails on the code: on the buffer `"a !"` with the punctuation table
`["!="]`, at the second call no entry stands in the buffer at the cursor and
the byte there, `!`, is no digit, letter or underscore, so the claim gives
false with an `INVALID` token over one byte; the code accepts `"!="` on the
one byte that is left (`alexer_starts_with`) and returns true with a `PUNCT`
token of index 0 with `begin = 2` and `end = 4`. -/
theorem alexer_invalid_shadowed_by_truncated_punct :
    alexer_after_calls 1 (alexer_with (cstr "a !") [cstr "!="] []) =
      { alexer_with (cstr "a !") [cstr "!="] [] with cur := 1 } ∧
    (∀ p ∈ (alexer_with (cstr "a !") [cstr "!="] []).puncts,
      ¬ p <+: (alexer_with (cstr "a !") [cstr "!="] []).content.drop
        (alexer_trim_left_ws
          { alexer_with (cstr "a !") [cstr "!="] [] with cur := 1 }).cur) ∧
    (alexer_trim_left_ws { alexer_with (cstr "a !") [cstr "!="] [] with cur := 1 }).cur <
      (alexer_with (cstr "a !") [cstr "!="] []).size ∧
    isdigit ((alexer_with (cstr "a !") [cstr "!="] []).at 2) = false ∧
    isalpha ((alexer_with (cstr "a !") [cstr "!="] []).at 2) = false ∧
    (alexer_with (cstr "a !") [cstr "!="] []).at 2 ≠ 95 ∧
    alexer_get_token { alexer_with (cstr "a !") [cstr "!="] [] with cur := 1 } =
      (true,
        { kind := ALEXER_PUNCT, loc := { file_path := [], row := 1, col := 3 },
          begin := 2, end_ := 4, int_value := 0, punct_index := 0, keyword_index := 0 },
        { alexer_with (cstr "a !") [cstr "!="] [] with cur := 3 }) := by
  decide
